import Mathlib

/-!
Verification development for the Orchids-2api gateway.

Shallow embedding of the request-processing pipeline: the load balancer's
connection accounting and account selection, the concurrency limiter, the
shared HTTP client cache, the token cache, the Retry-After parsing and the
retry back-off, the safe-tool executor, and the streaming handler state
machine of `HandleMessages`.

Conventions:
- Go machine integers are modelled as `Int`/`Nat` (no overflow is relevant
  to the claims below: all counters stay far below 2^63 on the inputs ever
  considered, and the source never relies on wrap-around).
- Go maps with zero defaults are modelled as total functions or as
  association lists, as noted at each definition.
- Instants and durations are `Int` nanoseconds (Go `time.Time` / `time.Duration`).
- Fallible Go functions return `Except String` or `Option`.
-/

instance {α β} [DecidableEq α] [DecidableEq β] : DecidableEq (Except α β) := fun a b =>
  match a, b with
  | .error x, .error y =>
      if h : x = y then isTrue (by rw [h]) else isFalse (fun hc => by cases hc; exact h rfl)
  | .ok x, .ok y =>
      if h : x = y then isTrue (by rw [h]) else isFalse (fun hc => by cases hc; exact h rfl)
  | .error _, .ok _ => isFalse (fun hc => by cases hc)
  | .ok _, .error _ => isFalse (fun hc => by cases hc)

namespace Orchids

/-- ASCII lower-casing of one character, the fragment of Go's
`strings.ToLower`/`unicode.ToLower` relevant to channel tags and tool
names. -/
def charLowerAscii (c : Char) : Char :=
  if 65 ≤ c.toNat ∧ c.toNat ≤ 90 then Char.ofNat (c.toNat + 32) else c

/-- `strings.ToLower` restricted to ASCII (kernel-computable model). -/
def lowerAscii (s : String) : String :=
  String.mk (s.data.map charLowerAscii)

/-! ### Load balancer connection accounting
`src/internal/loadbalancer/loadbalancer.go`, `AcquireConnection` / `ReleaseConnection`.
`activeConns : map[int64]int` is modelled as a total function `Int → Int`
with default 0, exactly Go's read-of-missing-key semantics. -/

/-- `AcquireConnection`: `lb.activeConns[accountID]++`. -/
def acquireConnection (conns : Int → Int) (accountID : Int) : Int → Int :=
  fun id => if id = accountID then conns id + 1 else conns id

/-- `ReleaseConnection`: decrement only when the current count is positive
(`if lb.activeConns[accountID] > 0`). -/
def releaseConnection (conns : Int → Int) (accountID : Int) : Int → Int :=
  fun id =>
    if id = accountID then
      if conns id > 0 then conns id - 1 else conns id
    else conns id

/-- One balancer connection-accounting call. -/
inductive ConnOp where
  | acquire (id : Int)
  | release (id : Int)
deriving DecidableEq, Repr

/-- Apply one acquire/release call to the connection-count map. -/
def applyConnOp (conns : Int → Int) : ConnOp → (Int → Int)
  | .acquire id => acquireConnection conns id
  | .release id => releaseConnection conns id

/-- Apply an arbitrary interleaving (list) of acquire/release calls. -/
def applyConnOps (conns : Int → Int) : List ConnOp → (Int → Int)
  | [] => conns
  | op :: rest => applyConnOps (applyConnOp conns op) rest

/-- The balancer's initial connection-count map (`make(map[int64]int)`). -/
def initialConns : Int → Int := fun _ => 0

/-! ### Concurrency limiter
`src/internal/util/http_pool.go` (`middleware` section), `ConcurrencyLimiter.Limit`.
The wrapper is modelled as the sequence of observable actions it performs,
driven by two oracles: whether `sem.Acquire` succeeds within the timeout,
and whether the wrapped handler panics. Go `defer` runs the deferred
function on every exit path including panics, in the order written:
`cl.sem.Release(1)` first, then `atomic.AddInt64(&cl.activeCount, -1)`. -/

/-- Observable actions of one `Limit`-wrapped request. -/
inductive LimAction where
  | incTotal
  | incRejected
  | incActive
  | runHandler
  | handlerPanic
  | releaseSem
  | decActive
deriving DecidableEq, Repr

/-- HTTP response written by the wrapper itself (none when the wrapped
handler produced the response). -/
structure LimResponse where
  status : Nat
  body : String
deriving DecidableEq, Repr

/-- `ConcurrencyLimiter.Limit(next)` on one request: `totalReqs++`; try
`Acquire(1)` under the timeout context; on failure `rejectedReqs++` and
write 503 `"Request timeout or server busy"`; on success `activeCount++`,
run the handler (which may panic), and the deferred block releases the
semaphore and then decrements the active count on either exit path. -/
def limiterLimit (acquireOk : Bool) (handlerPanics : Bool) :
    List LimAction × Option LimResponse :=
  if ¬acquireOk then
    ([.incTotal, .incRejected], some ⟨503, "Request timeout or server busy"⟩)
  else
    ([.incTotal, .incActive, .runHandler] ++
      (if handlerPanics then [.handlerPanic] else []) ++
      [.releaseSem, .decActive], none)

/-! ### Shared HTTP client cache
`src/internal/util/http_pool.go`, `GetSharedHTTPClient`.
An `http.Client` is modelled by its `Transport` identity (a `Nat` tag for
the connection pool object) and its `Timeout`. The global
`httpClientCache.clients` map is an association list keyed by proxy key;
`freshId` stands for the identity of a newly allocated `http.Transport`. -/

structure HTTPClient where
  transportId : Nat
  timeout : Int
deriving DecidableEq, Repr

abbrev ClientCache := List (String × HTTPClient)

/-- `GetSharedHTTPClient(proxyKey, timeout, proxyFunc)`: empty key falls
back to `"direct"`; a cache hit with a different timeout returns a shallow
copy (`clone := *client; clone.Timeout = timeout`) sharing the cached
transport, leaving the cache untouched; a hit with the same timeout returns
the cached client; a miss allocates a fresh transport and client, stores it
and returns it. The read-lock / write-lock double check collapses to one
lookup in this sequential model. -/
def normalizeProxyKey (proxyKey : String) : String :=
  if proxyKey = "" then "direct" else proxyKey

def getSharedHTTPClient (cache : ClientCache) (proxyKey : String)
    (timeout : Int) (freshId : Nat) : HTTPClient × ClientCache :=
  let key := normalizeProxyKey proxyKey
  match cache.lookup key with
  | some client =>
      if client.timeout ≠ timeout then
        ({ client with timeout := timeout }, cache)
      else
        (client, cache)
  | none =>
      let newClient : HTTPClient := { transportId := freshId, timeout := timeout }
      (newClient, (key, newClient) :: cache)

end Orchids

namespace Orchids

/-! Theorems for the connection-accounting and limiter claims. -/

/-- Claim C7: for every account id and every interleaving of
`AcquireConnection`/`ReleaseConnection` calls (including unmatched
releases) starting from the balancer's initial state, the active connection
count is never negative; and a `ReleaseConnection` on an id whose count is
zero leaves that count at zero. -/
theorem connection_count_never_negative :
    (∀ (ops : List ConnOp) (id : Int), 0 ≤ applyConnOps initialConns ops id) ∧
    (∀ (conns : Int → Int) (id : Int), conns id = 0 →
      releaseConnection conns id id = 0) := by
  constructor
  · have step : ∀ (conns : Int → Int), (∀ j, 0 ≤ conns j) →
        ∀ (op : ConnOp) (j : Int), 0 ≤ applyConnOp conns op j := by
      intro conns h op j
      cases op with
      | acquire i =>
          simp only [applyConnOp, acquireConnection]
          by_cases hj : j = i
          · simp [hj]; have := h i; omega
          · simp [hj]; exact h j
      | release i =>
          simp only [applyConnOp, releaseConnection]
          by_cases hj : j = i
          · simp only [hj, if_pos rfl]
            by_cases hpos : conns i > 0
            · simp [hpos]; omega
            · simp [hpos]; exact h i
          · simp [hj]; exact h j
    have main : ∀ (ops : List ConnOp) (conns : Int → Int),
        (∀ j, 0 ≤ conns j) → ∀ id, 0 ≤ applyConnOps conns ops id := by
      intro ops
      induction ops with
      | nil => intro conns h id; simpa [applyConnOps] using h id
      | cons op rest ih =>
          intro conns h id
          simp only [applyConnOps]
          exact ih (applyConnOp conns op) (step conns h op) id
    intro ops id
    exact main ops initialConns (fun _ => le_refl 0) id
  · intro conns id h
    simp [releaseConnection, h]

/-- Claim C8: the limiter wrapper writes 503 with body
`"Request timeout or server busy"` and never runs the wrapped handler when
the semaphore acquire fails; when it succeeds, the semaphore is released on
every exit path (normal return and handler panic) and the active counter is
decremented after the release. -/
theorem limiter_limit_release_always :
    ∀ (acquireOk handlerPanics : Bool),
      (acquireOk = false →
        (limiterLimit acquireOk handlerPanics).2 =
          some ⟨503, "Request timeout or server busy"⟩ ∧
        LimAction.runHandler ∉ (limiterLimit acquireOk handlerPanics).1 ∧
        LimAction.releaseSem ∉ (limiterLimit acquireOk handlerPanics).1) ∧
      (acquireOk = true →
        LimAction.releaseSem ∈ (limiterLimit acquireOk handlerPanics).1 ∧
        LimAction.decActive ∈ (limiterLimit acquireOk handlerPanics).1 ∧
        List.indexOf LimAction.releaseSem (limiterLimit acquireOk handlerPanics).1 <
          List.indexOf LimAction.decActive (limiterLimit acquireOk handlerPanics).1) := by
  intro acquireOk handlerPanics
  cases acquireOk <;> cases handlerPanics <;> refine ⟨fun h => ?_, fun h => ?_⟩ <;>
    first
      | exact absurd h (by decide)
      | exact ⟨by decide, by decide, by decide⟩

/-- Witness for C8 at a concrete input: acquire succeeds and the handler
panics, yet the semaphore is released and the active count decremented
after it; a failed acquire yields the 503 response. -/
theorem limiter_limit_release_always_witness :
    ((limiterLimit false false).2 =
        some ⟨503, "Request timeout or server busy"⟩ ∧
      LimAction.runHandler ∉ (limiterLimit false false).1 ∧
      LimAction.releaseSem ∉ (limiterLimit false false).1) ∧
    (LimAction.releaseSem ∈ (limiterLimit true true).1 ∧
      LimAction.decActive ∈ (limiterLimit true true).1 ∧
      List.indexOf LimAction.releaseSem (limiterLimit true true).1 <
        List.indexOf LimAction.decActive (limiterLimit true true).1) :=
  ⟨(limiter_limit_release_always false false).1 rfl,
   (limiter_limit_release_always true true).2 rfl⟩

/-- A cache has at most one entry per key when its key list has no
duplicates. -/
def cacheKeysNodup (cache : ClientCache) : Prop :=
  (cache.map Prod.fst).Nodup

/-- A key absent from an association-list lookup is not among its keys. -/
theorem lookup_none_not_mem_keys (cache : ClientCache) (key : String)
    (h : cache.lookup key = none) : key ∉ cache.map Prod.fst := by
  induction cache with
  | nil => simp
  | cons p rest ih =>
      obtain ⟨k, v⟩ := p
      by_cases hk : key = k
      · subst hk
        simp [List.lookup] at h
      · have hbeq : (key == k) = false := by
          simpa using hk
        simp only [List.lookup, hbeq] at h
        simp only [List.map_cons, List.mem_cons]
        push_neg
        exact ⟨hk, ih h⟩

/-- Claim C10: `GetSharedHTTPClient` keeps at most one cached client per
proxy key; on a hit the cache is left unchanged (so the client is created
once and the cached client, including its `Timeout`, is untouched), and a
hit with a differing timeout returns a shallow copy carrying the new
timeout but sharing the cached client's transport; on a miss the new client
is stored under the (normalised) key and key-uniqueness is preserved. -/
theorem get_shared_http_client_spec :
    ∀ (cache : ClientCache) (proxyKey : String) (timeout : Int) (freshId : Nat),
      (∀ c, cache.lookup (normalizeProxyKey proxyKey) = some c →
        (getSharedHTTPClient cache proxyKey timeout freshId).2 = cache ∧
        (getSharedHTTPClient cache proxyKey timeout freshId).1.transportId = c.transportId ∧
        (getSharedHTTPClient cache proxyKey timeout freshId).1.timeout = timeout ∧
        (getSharedHTTPClient cache proxyKey timeout freshId).2.lookup
          (normalizeProxyKey proxyKey) = some c) ∧
      (cache.lookup (normalizeProxyKey proxyKey) = none →
        (getSharedHTTPClient cache proxyKey timeout freshId).2 =
          (normalizeProxyKey proxyKey, ⟨freshId, timeout⟩) :: cache ∧
        (getSharedHTTPClient cache proxyKey timeout freshId).1 = ⟨freshId, timeout⟩) ∧
      (cacheKeysNodup cache →
        cacheKeysNodup (getSharedHTTPClient cache proxyKey timeout freshId).2) := by
  intro cache proxyKey timeout freshId
  refine ⟨?_, ?_, ?_⟩
  · intro c hc
    by_cases ht : c.timeout = timeout
    · simp [getSharedHTTPClient, hc, ht]
    · simp [getSharedHTTPClient, hc, ht]
  · intro hc
    simp [getSharedHTTPClient, hc]
  · intro hnodup
    cases hlk : cache.lookup (normalizeProxyKey proxyKey) with
    | some c =>
        by_cases ht : c.timeout = timeout
        · simp only [getSharedHTTPClient, hlk, ht, ne_eq, not_true_eq_false, ite_false]
          exact hnodup
        · simp only [getSharedHTTPClient, hlk, ne_eq, ht, not_false_eq_true, ite_true]
          exact hnodup
    | none =>
        simp only [getSharedHTTPClient, hlk, cacheKeysNodup, List.map_cons,
          List.nodup_cons]
        exact ⟨lookup_none_not_mem_keys cache _ hlk, hnodup⟩

/-- Witness for C10 at concrete inputs: a hit with a differing timeout
shares the transport and leaves the cache unchanged; a miss stores the new
client under the normalised key. -/
theorem get_shared_http_client_spec_witness :
    (let cache : ClientCache := [("direct", ⟨7, 100⟩)]
     (getSharedHTTPClient cache "" 250 9).1 = ⟨7, 250⟩ ∧
     (getSharedHTTPClient cache "" 250 9).2 = cache) ∧
    (getSharedHTTPClient [] "proxyA" 42 3).2 = [("proxyA", ⟨3, 42⟩)] := by
  have h1 := (get_shared_http_client_spec [("direct", ⟨7, 100⟩)] "" 250 9).1
    ⟨7, 100⟩ (by decide)
  have h2 := (get_shared_http_client_spec [] "proxyA" 42 3).2.1 (by decide)
  refine ⟨⟨?_, h1.1⟩, h2.1⟩
  have ha := h1.2.1
  have hb := h1.2.2.1
  cases hres : (getSharedHTTPClient [("direct", ⟨7, 100⟩)] "" 250 9).1
  simp [hres] at ha hb
  simp [ha, hb]

end Orchids

namespace Orchids

/-! ### Load balancer account selection
`src/internal/loadbalancer/loadbalancer.go`,
`GetNextAccountExcludingByChannel` / `selectAccount`.

An `Account` keeps the fields the selection reads. The enabled-accounts
snapshot (`getEnabledAccounts`) and the persistent store call
`Store.IncrementRequestCount` are oracles passed in as arguments. The
float64 score `conns / weight` is modelled as the exact rational; the
comparisons agree with Go float64 on all realistic (small-integer)
connection counts and weights. `strings.EqualFold` is modelled as
case-insensitive comparison via `String.toLower`. -/

structure Account where
  id : Int
  name : String
  agentMode : String
  weight : Int
deriving DecidableEq, Repr

/-- `strings.EqualFold` (ASCII case folding suffices for channel tags). -/
def equalFold (a b : String) : Bool :=
  lowerAscii a == lowerAscii b

/-- `selectAccount`: single survivor returned outright; otherwise the Go
loop keeps the first account and replaces it whenever a strictly smaller
score `float64(conns) / float64(max(weight,1))` appears. -/
def selectAccount (activeConns : Int → Int) (accounts : List Account) :
    Option Account :=
  match accounts with
  | [] => none
  | [a] => some a
  | first :: rest =>
      let score : Account → ℚ := fun acc =>
        let w : Int := if acc.weight ≤ 0 then 1 else acc.weight
        (activeConns acc.id : ℚ) / (w : ℚ)
      let best := rest.foldl
        (fun best acc => if score acc < score best then acc else best) first
      some best

/-- `GetNextAccountExcludingByChannel(excludeIDs, channel)`: filter the
enabled snapshot by the exclusion set and the case-insensitive channel
match (empty channel disables the filter); error when no survivor; select;
then call `Store.IncrementRequestCount(account.ID)` and return its error
when it fails, else return the account. -/
def getNextAccountExcludingByChannel
    (enabledAccounts : Except String (List Account))
    (activeConns : Int → Int)
    (incrementRequestCount : Int → Except String Unit)
    (excludeIDs : List Int) (channel : String) : Except String Account :=
  match enabledAccounts with
  | .error e => .error e
  | .ok accounts =>
      let filtered := accounts.filter (fun acc =>
        ¬ excludeIDs.contains acc.id ∧
        (channel = "" ∨ equalFold acc.agentMode channel = true))
      match selectAccount activeConns filtered with
      | none => .error ("no enabled accounts available for channel: " ++ channel)
      | some account =>
          match incrementRequestCount account.id with
          | .error e => .error e
          | .ok _ => .ok account

end Orchids

namespace Orchids

/-- Claim C6 counterexample: with one enabled account matching the channel
and a store whose `IncrementRequestCount` fails, the selection itself
returns the store error instead of the selected account — the increment is
synchronous and not best-effort, contradicting the claim that a failure is
only logged and the account still returned. -/
theorem increment_failure_fails_selection_counterexample :
    getNextAccountExcludingByChannel
        (.ok [⟨1, "acct-a", "orchids", 1⟩])
        (fun _ => 0)
        (fun _ => .error "db down")
        [] "orchids" = .error "db down" ∧
    ∀ acc, getNextAccountExcludingByChannel
        (.ok [⟨1, "acct-a", "orchids", 1⟩])
        (fun _ => 0)
        (fun _ => .error "db down")
        [] "orchids" ≠ .ok acc := by
  constructor
  · decide
  · intro acc h
    have : getNextAccountExcludingByChannel
        (.ok [⟨1, "acct-a", "orchids", 1⟩])
        (fun _ => 0)
        (fun _ => .error "db down")
        [] "orchids" = .error "db down" := by decide
    rw [this] at h
    cases h

/-- Claim C6 (amended): the increment of the persistent per-account request
counter is synchronous: when `IncrementRequestCount` succeeds the selected
account is returned, and when it fails `GetNextAccountExcludingByChannel`
returns that error rather than the account. -/
theorem increment_request_count_synchronous :
    ∀ (enabled : Except String (List Account)) (activeConns : Int → Int)
      (inc : Int → Except String Unit) (excludeIDs : List Int) (channel : String)
      (acc : Account),
      (getNextAccountExcludingByChannel enabled activeConns inc excludeIDs channel
          = .ok acc →
        inc acc.id = .ok ()) ∧
      (∀ e, (∃ accounts, enabled = .ok accounts ∧
          selectAccount activeConns (accounts.filter (fun a =>
            ¬ excludeIDs.contains a.id ∧
            (channel = "" ∨ equalFold a.agentMode channel = true))) = some acc) →
        inc acc.id = .error e →
        getNextAccountExcludingByChannel enabled activeConns inc excludeIDs channel
          = .error e) := by
  intro enabled activeConns inc excludeIDs channel acc
  constructor
  · intro h
    cases enabled with
    | error e => simp [getNextAccountExcludingByChannel] at h
    | ok accounts =>
        simp only [getNextAccountExcludingByChannel] at h
        cases hsel : selectAccount activeConns (accounts.filter (fun a =>
            decide (¬ excludeIDs.contains a.id ∧
              (channel = "" ∨ equalFold a.agentMode channel = true)))) with
        | none => rw [hsel] at h; simp at h
        | some chosen =>
            rw [hsel] at h
            have h' : (match inc chosen.id with
              | Except.error e => (Except.error e : Except String Account)
              | Except.ok _ => Except.ok chosen) = Except.ok acc := h
            cases hinc : inc chosen.id with
            | error e => rw [hinc] at h'; simp at h'
            | ok u =>
                rw [hinc] at h'
                simp only [Except.ok.injEq] at h'
                subst h'
                cases u
                exact hinc
  · intro e hsel hinc
    obtain ⟨accounts, henabled, hsel⟩ := hsel
    subst henabled
    simp only [getNextAccountExcludingByChannel]
    rw [hsel]
    show (match inc acc.id with
      | Except.error e => (Except.error e : Except String Account)
      | Except.ok _ => Except.ok acc) = Except.error e
    rw [hinc]

/-- Witness for C6 (amended) at concrete inputs: a succeeding increment
returns the account, a failing one surfaces the error. -/
theorem increment_request_count_synchronous_witness :
    getNextAccountExcludingByChannel
        (.ok [⟨1, "acct-a", "orchids", 1⟩])
        (fun _ => 0)
        (fun _ => .ok ())
        [] "orchids" = .ok ⟨1, "acct-a", "orchids", 1⟩ ∧
    getNextAccountExcludingByChannel
        (.ok [⟨1, "acct-a", "orchids", 1⟩])
        (fun _ => 0)
        (fun _ => .error "db down")
        [] "orchids" = .error "db down" := by
  constructor
  · rfl
  · exact (increment_request_count_synchronous
      (.ok [⟨1, "acct-a", "orchids", 1⟩]) (fun _ => 0)
      (fun _ => .error "db down") [] "orchids" ⟨1, "acct-a", "orchids", 1⟩).2
      "db down" ⟨[⟨1, "acct-a", "orchids", 1⟩], rfl, by rfl⟩ rfl

end Orchids

namespace Orchids

/-! ### Retry-After parsing and the retry back-off
`src/internal/warp/http_error.go` (`parseRetryAfterHeader`),
`src/internal/client/client.go` lines 190-193 (`SendRequest` non-200), and
`src/unnamed/part_003` lines 1520-1563 (the `HandleMessages` retry loop).

HTTP-date parsing (`http.ParseTime`) is an oracle argument; delta-seconds
parsing (`strconv.Atoi`) is modelled exactly on well-formed inputs (the
int64 range check is irrelevant to any input considered here). -/

/-- ASCII whitespace test used by `strings.TrimSpace` (the ASCII fragment
of `unicode.IsSpace`). -/
def isSpaceGo (c : Char) : Bool :=
  c = ' ' ∨ c = '\t' ∨ c = '\n' ∨ c = '\x0b' ∨ c = '\x0c' ∨ c = '\r'

/-- `strings.TrimSpace` (kernel-computable model). -/
def trimSpace (s : String) : String :=
  String.mk (((s.data.dropWhile isSpaceGo).reverse.dropWhile isSpaceGo).reverse)

/-- Digits-only run to a number; `none` when empty or a non-digit occurs. -/
def digitsToNat : List Char → Option Nat
  | [] => none
  | l => l.foldl (fun acc c =>
      match acc with
      | none => none
      | some n => if 48 ≤ c.toNat ∧ c.toNat ≤ 57 then some (n * 10 + (c.toNat - 48)) else none)
      (some 0)

/-- `strconv.Atoi`: optional sign followed by at least one digit. -/
def atoi (s : String) : Option Int :=
  match s.data with
  | [] => none
  | '+' :: rest => (digitsToNat rest).map (fun n => (n : Int))
  | '-' :: rest => (digitsToNat rest).map (fun n => -(n : Int))
  | l => (digitsToNat l).map (fun n => (n : Int))

/-- `parseRetryAfterHeader(value, now)`: trim; empty → 0; integer value →
positive seconds as a duration, else 0; otherwise try HTTP-date and return
the positive distance to `now`, else 0. Times/durations in nanoseconds. -/
def parseRetryAfterHeader (value : String) (now : Int)
    (parseHTTPDate : String → Option Int) : Int :=
  let v := trimSpace value
  if v = "" then 0
  else
    match atoi v with
    | some seconds => if seconds > 0 then seconds * 1000000000 else 0
    | none =>
        match parseHTTPDate v with
        | some ts => if ts - now > 0 then ts - now else 0
        | none => 0

/-- A Go error value as the retry loop sees it: its message, and what
`warp.RetryAfter(err)` would extract from it (0 unless the error wraps an
`HTTPStatusError`). -/
structure GoError where
  message : String
  retryAfterNs : Int
deriving DecidableEq, Repr

/-- `Client.SendRequest` on a non-200 upstream status returns the untyped
`fmt.Errorf("upstream request failed with status %d: %s", ...)`: no status
field, no Retry-After — `warp.RetryAfter` of it is 0. -/
def orchidsNon200Error (status : Nat) (body : String) : GoError :=
  { message := "upstream request failed with status " ++ toString status ++ ": " ++ body,
    retryAfterNs := 0 }

/-- The wait inserted by the retry loop between a failed attempt and the
next one: `if retryDelay > 0 { select { case <-time.After(retryDelay) ... } }`.
The error is a parameter only to record that the code never reads it. -/
def retryWaitNs (retryDelayNs : Int) (_err : GoError) : Int :=
  if retryDelayNs > 0 then retryDelayNs else 0

/-- Start times of the successive upstream attempts of one request: each
failed attempt runs for its duration, then the loop waits `retryWaitNs`
and issues the next attempt. The list holds (duration, error) of each
failed attempt; the result lists the start time of every attempt including
the final one. -/
def attemptStartTimes (retryDelayNs t0 : Int) : List (Int × GoError) → List Int
  | [] => [t0]
  | (dur, err) :: rest =>
      t0 :: attemptStartTimes retryDelayNs (t0 + dur + retryWaitNs retryDelayNs err) rest

end Orchids

namespace Orchids

/-- Claim C4 counterexample: upstream fails with HTTP 429 and
`Retry-After: 5` (which the repo's own `parseRetryAfterHeader` reads as 5
seconds), `retry_delay` is 100ms, the failed attempt ends immediately —
the retry is issued 100ms after the failure, well before 5 seconds have
elapsed. -/
theorem retry_before_retry_after_counterexample :
    parseRetryAfterHeader "5" 0 (fun _ => none) = 5000000000 ∧
    attemptStartTimes 100000000 0
        [(0, { message := "upstream request failed", retryAfterNs := 5000000000 })] =
      [0, 100000000] ∧
    (100000000 : Int) < 5000000000 := by
  refine ⟨by decide, ?_, by decide⟩
  simp [attemptStartTimes, retryWaitNs]

/-- Claim C4 (amended): the retry loop waits exactly the configured
`retry_delay` between attempts and never consults the error's Retry-After:
the wait is invariant under changing the Retry-After carried by the errors,
and the Orchids client's non-200 error carries none to begin with. -/
theorem retry_backoff_ignores_retry_after :
    (∀ (retryDelayNs : Int) (e e' : GoError),
      retryWaitNs retryDelayNs e = retryWaitNs retryDelayNs e') ∧
    (∀ (status : Nat) (body : String), (orchidsNon200Error status body).retryAfterNs = 0) ∧
    (∀ (retryDelayNs t0 : Int) (fails fails' : List (Int × GoError)),
      fails.map Prod.fst = fails'.map Prod.fst →
      attemptStartTimes retryDelayNs t0 fails = attemptStartTimes retryDelayNs t0 fails') := by
  refine ⟨fun d e e' => rfl, fun status body => rfl, ?_⟩
  intro retryDelayNs t0 fails
  induction fails generalizing t0 with
  | nil =>
      intro fails' h
      cases fails' with
      | nil => rfl
      | cons p rest => simp at h
  | cons p rest ih =>
      intro fails' h
      cases fails' with
      | nil => simp at h
      | cons q rest' =>
          obtain ⟨pd, pe⟩ := p
          obtain ⟨qd, qe⟩ := q
          simp only [List.map_cons, List.cons.injEq] at h
          obtain ⟨hd, ht⟩ := h
          have hd' : pd = qd := hd
          subst hd'
          simp only [attemptStartTimes, retryWaitNs, List.cons.injEq, true_and]
          exact ih _ rest' ht

/-- Witness for C4 (amended): the wait between attempts is the same for an
error carrying `Retry-After: 5s` and one carrying none. -/
theorem retry_backoff_ignores_retry_after_witness :
    attemptStartTimes 100000000 0 [(0, { message := "a", retryAfterNs := 5000000000 })] =
      attemptStartTimes 100000000 0 [(0, { message := "b", retryAfterNs := 0 })] :=
  retry_backoff_ignores_retry_after.2.2 100000000 0
    [(0, { message := "a", retryAfterNs := 5000000000 })]
    [(0, { message := "b", retryAfterNs := 0 })] rfl

end Orchids

namespace Orchids

/-! ### Token cache
`src/internal/client/client.go`: `getCachedToken`, `setCachedToken`,
`tokenExpiry`.

The JWT pipeline is embedded byte-for-byte: `strings.Split(token, ".")`,
`base64.RawURLEncoding.DecodeString` of the payload segment, and
`json.Unmarshal` into a string-keyed map, from which the numeric `exp`
claim is read (Go decodes any JSON number to `float64` and converts with
`int64(v)`, i.e. truncation toward zero; the model truncates the exact
rational, which agrees on every integral and sub-2^53 value). The JSON
string-escape `\uXXXX` is decoded to the code point's UTF-8 bytes without
surrogate-pair pairing, which never matters for the `exp` claim. -/

/-- Base64 URL-safe alphabet value of one byte. -/
def b64Val (b : Nat) : Option Nat :=
  if 65 ≤ b ∧ b ≤ 90 then some (b - 65)
  else if 97 ≤ b ∧ b ≤ 122 then some (b - 97 + 26)
  else if 48 ≤ b ∧ b ≤ 57 then some (b - 48 + 52)
  else if b = 45 then some 62
  else if b = 95 then some 63
  else none

/-- Decode a list of 6-bit values into bytes: full quantums of four, a
final quantum of two or three values (unpadded), and a lone trailing value
is corrupt input. Trailing bits are ignored (Go's non-strict decode). -/
def b64Quanta : List Nat → Option (List Nat)
  | [] => some []
  | [_] => none
  | [a, b] => some [a * 4 + b / 16]
  | [a, b, c] => some [a * 4 + b / 16, (b % 16) * 16 + c / 4]
  | a :: b :: c :: d :: rest =>
      match b64Quanta rest with
      | none => none
      | some bytes =>
          some ([a * 4 + b / 16, (b % 16) * 16 + c / 4, (c % 4) * 64 + d] ++ bytes)

/-- `base64.RawURLEncoding.DecodeString` on the bytes of a segment:
carriage returns and newlines are skipped, every other byte must be in the
URL-safe alphabet. -/
def rawURLDecode (chars : List Char) : Option (List Nat) :=
  let bytes := (chars.map Char.toNat).filter (fun b => b ≠ 10 ∧ b ≠ 13)
  match bytes.mapM b64Val with
  | none => none
  | some vals => b64Quanta vals

/-- JSON value as `json.Unmarshal` produces it into `interface{}`
(numbers kept exact instead of `float64`). Strings are kept as raw decoded
bytes. -/
inductive JVal where
  | jnull
  | jbool (b : Bool)
  | jnum (num : Int) (den : Nat)
  | jstr (bytes : List Nat)
  | jarr (items : List JVal)
  | jobj (fields : List (List Nat × JVal))
deriving Repr

/-- JSON whitespace skip (space, tab, newline, carriage return). -/
def skipWs : List Nat → List Nat
  | b :: rest =>
      if b = 32 ∨ b = 9 ∨ b = 10 ∨ b = 13 then skipWs rest else b :: rest
  | [] => []

/-- Hex digit value. -/
def hexVal (b : Nat) : Option Nat :=
  if 48 ≤ b ∧ b ≤ 57 then some (b - 48)
  else if 97 ≤ b ∧ b ≤ 102 then some (b - 97 + 10)
  else if 65 ≤ b ∧ b ≤ 70 then some (b - 65 + 10)
  else none

/-- UTF-8 encoding of a code point (for `\uXXXX` escapes; all such values
fit in three bytes). -/
def utf8Encode (n : Nat) : List Nat :=
  if n < 128 then [n]
  else if n < 2048 then [192 + n / 64, 128 + n % 64]
  else [224 + n / 4096, 128 + (n / 64) % 64, 128 + n % 64]

/-- Parse a JSON string body (after the opening quote): returns the decoded
content bytes and the remainder after the closing quote. -/
def escByte (e : Nat) : Option Nat :=
  if e = 34 then some 34
  else if e = 92 then some 92
  else if e = 47 then some 47
  else if e = 98 then some 8
  else if e = 102 then some 12
  else if e = 110 then some 10
  else if e = 114 then some 13
  else if e = 116 then some 9
  else none

def parseStringBody : List Nat → Option (List Nat × List Nat)
  | [] => none
  | 34 :: rest => some ([], rest)
  | 92 :: 117 :: h1 :: h2 :: h3 :: h4 :: rest =>
      match hexVal h1, hexVal h2, hexVal h3, hexVal h4 with
      | some v1, some v2, some v3, some v4 =>
          match parseStringBody rest with
          | none => none
          | some (tail, rem) =>
              some (utf8Encode (v1 * 4096 + v2 * 256 + v3 * 16 + v4) ++ tail, rem)
      | _, _, _, _ => none
  | 92 :: e :: rest =>
      match escByte e with
      | none => none
      | some b =>
          match parseStringBody rest with
          | none => none
          | some (tail, rem) => some (b :: tail, rem)
  | b :: rest =>
      if b < 32 then none
      else
        match parseStringBody rest with
        | none => none
        | some (tail, rem) => some (b :: tail, rem)

/-- Span of ASCII digits. -/
def takeDigits : List Nat → List Nat × List Nat
  | [] => ([], [])
  | b :: rest =>
      if 48 ≤ b ∧ b ≤ 57 then
        let (ds, rem) := takeDigits rest
        (b :: ds, rem)
      else ([], b :: rest)

/-- Digit bytes to a natural number. -/
def digitsVal (ds : List Nat) : Nat :=
  ds.foldl (fun acc d => acc * 10 + (d - 48)) 0

/-- Parse a JSON number per the JSON grammar (`-?int frac? exp?`, no
leading zeros), producing its exact rational value. -/
def parseNumber (input : List Nat) : Option (JVal × List Nat) :=
  let (neg, afterSign) :=
    match input with
    | 45 :: rest => (true, rest)
    | _ => (false, input)
  let (intDigits, afterInt) := takeDigits afterSign
  if intDigits = [] then none
  else if intDigits.length > 1 ∧ intDigits.headI = 48 then none
  else
    let (fracDigits, afterFrac) :=
      match afterInt with
      | 46 :: rest =>
          let (ds, rem) := takeDigits rest
          (ds, rem)
      | _ => ([], afterInt)
    if afterInt ≠ [] ∧ afterInt.headI = 46 ∧ fracDigits = [] then none
    else
      let (expOk, expNeg, expDigits, afterExp) :=
        match afterFrac with
        | 101 :: 45 :: rest =>
            let (ds, rem) := takeDigits rest
            (!ds.isEmpty, true, ds, rem)
        | 101 :: 43 :: rest =>
            let (ds, rem) := takeDigits rest
            (!ds.isEmpty, false, ds, rem)
        | 101 :: rest =>
            let (ds, rem) := takeDigits rest
            (!ds.isEmpty, false, ds, rem)
        | 69 :: 45 :: rest =>
            let (ds, rem) := takeDigits rest
            (!ds.isEmpty, true, ds, rem)
        | 69 :: 43 :: rest =>
            let (ds, rem) := takeDigits rest
            (!ds.isEmpty, false, ds, rem)
        | 69 :: rest =>
            let (ds, rem) := takeDigits rest
            (!ds.isEmpty, false, ds, rem)
        | _ => (true, false, [], afterFrac)
      let afterAll :=
        match afterFrac with
        | 101 :: _ => afterExp
        | 69 :: _ => afterExp
        | _ => afterFrac
      if expOk = false then none
      else
        let mantissa : Nat :=
          digitsVal intDigits * 10 ^ fracDigits.length + digitsVal fracDigits
        let e : Nat := digitsVal expDigits
        let num : Nat := if expNeg then mantissa else mantissa * 10 ^ e
        let den : Nat :=
          if expNeg then 10 ^ fracDigits.length * 10 ^ e
          else 10 ^ fracDigits.length
        let signedNum : Int := if neg then -(num : Int) else (num : Int)
        some (.jnum signedNum den, afterAll)

mutual

/-- Parse one JSON value (fuel-indexed recursion; fuel ≥ input length
always suffices). -/
def parseJVal : Nat → List Nat → Option (JVal × List Nat)
  | 0, _ => none
  | fuel + 1, input =>
      match skipWs input with
      | [] => none
      | b :: rest =>
          if b = 110 then
            match rest with
            | 117 :: 108 :: 108 :: r => some (.jnull, r)
            | _ => none
          else if b = 116 then
            match rest with
            | 114 :: 117 :: 101 :: r => some (.jbool true, r)
            | _ => none
          else if b = 102 then
            match rest with
            | 97 :: 108 :: 115 :: 101 :: r => some (.jbool false, r)
            | _ => none
          else if b = 34 then
            match parseStringBody rest with
            | none => none
            | some (s, rem) => some (.jstr s, rem)
          else if b = 91 then
            match skipWs rest with
            | 93 :: r => some (.jarr [], r)
            | other => parseArrItems fuel other []
          else if b = 123 then
            match skipWs rest with
            | 125 :: r => some (.jobj [], r)
            | other => parseObjFields fuel other []
          else parseNumber (b :: rest)

/-- Parse the items of a JSON array (after the opening bracket, first item
pending). -/
def parseArrItems : Nat → List Nat → List JVal → Option (JVal × List Nat)
  | 0, _, _ => none
  | fuel + 1, input, acc =>
      match parseJVal fuel input with
      | none => none
      | some (v, rest) =>
          match skipWs rest with
          | 44 :: r => parseArrItems fuel r (acc ++ [v])
          | 93 :: r => some (.jarr (acc ++ [v]), r)
          | _ => none

/-- Parse the fields of a JSON object (after the opening brace, first field
pending). -/
def parseObjFields : Nat → List Nat → List (List Nat × JVal) →
    Option (JVal × List Nat)
  | 0, _, _ => none
  | fuel + 1, input, acc =>
      match skipWs input with
      | 34 :: rest =>
          match parseStringBody rest with
          | none => none
          | some (key, afterKey) =>
              match skipWs afterKey with
              | 58 :: afterColon =>
                  match parseJVal fuel afterColon with
                  | none => none
                  | some (v, rest') =>
                      match skipWs rest' with
                      | 44 :: r => parseObjFields fuel r (acc ++ [(key, v)])
                      | 125 :: r => some (.jobj (acc ++ [(key, v)]), r)
                      | _ => none
              | _ => none
      | _ => none

end

/-- `json.Unmarshal` of a whole payload: a single JSON value followed only
by whitespace. -/
def jsonUnmarshal (bytes : List Nat) : Option JVal :=
  match parseJVal (bytes.length + 1) bytes with
  | none => none
  | some (v, rest) => if skipWs rest = [] then some v else none

/-- Go map semantics for duplicate keys: the last binding wins. -/
def lookupLastField (fields : List (List Nat × JVal)) (key : List Nat) :
    Option JVal :=
  ((fields.filter (fun f => f.1 = key)).getLast?).map Prod.snd

/-- Truncation toward zero of a raw fraction (`int64(v)` on a `float64`;
exact for every integral and sub-2^53 value). -/
def truncFrac (num : Int) (den : Nat) : Int :=
  num.tdiv (den : Int)

/-- Split a character list on `.` (the char-level `strings.Split`). -/
def splitOnDot (l : List Char) : List (List Char) :=
  match l with
  | [] => [[]]
  | c :: rest =>
      let tail := splitOnDot rest
      if c = '.' then [] :: tail
      else
        match tail with
        | [] => [[c]]
        | seg :: segs => (c :: seg) :: segs

/-- The bytes of the key `"exp"`. -/
def expKeyBytes : List Nat := [101, 120, 112]

/-- The `exp` value `tokenExpiry` ends up with: `none` models every path
that leaves the zero `time.Time` before the `exp == 0` check (fewer than
two segments, base64 error, unmarshal error, non-object payload, missing
`exp`); `some 0` is a present but non-numeric `exp` (the type switch leaves
`exp` at 0); `some (truncRat q)` a numeric claim. -/
def jwtExpSeconds (token : String) : Option Int :=
  let parts := splitOnDot token.data
  if parts.length < 2 then none
  else
    match rawURLDecode (parts.getD 1 []) with
    | none => none
    | some payload =>
        match jsonUnmarshal payload with
        | some (.jobj fields) =>
            match lookupLastField fields expKeyBytes with
            | none => none
            | some (.jnum num den) => some (truncFrac num den)
            | some _ => some 0
        | _ => none

/-- `tokenExpiry(token)`: the decoded nonzero `exp` minus the 30s skew,
as an instant in nanoseconds; `none` is Go's zero `time.Time`. -/
def tokenExpiry (token : String) : Option Int :=
  match jwtExpSeconds token with
  | none => none
  | some exp => if exp = 0 then none else some (exp * 1000000000 - 30000000000)

/-- One token-cache entry. -/
structure CachedToken where
  token : String
  expiresAt : Int
deriving DecidableEq, Repr

abbrev TokenCache := List (String × CachedToken)

/-- Remove a session's entry (Go `delete(tokenCache.items, sessionID)`). -/
def eraseTokenKey (cache : TokenCache) (sessionID : String) : TokenCache :=
  cache.filter (fun p => p.1 ≠ sessionID)

/-- `setCachedToken(sessionID, token)`: empty ids/tokens are ignored;
`expiresAt := tokenExpiry(token)`, falling back to `now + 5min` when that
is the zero time; the map assignment replaces any previous entry. -/
def setCachedToken (cache : TokenCache) (now : Int) (sessionID token : String) :
    TokenCache :=
  if sessionID = "" ∨ token = "" then cache
  else
    let expiresAt :=
      match tokenExpiry token with
      | some e => e
      | none => now + 300000000000
    (sessionID, ⟨token, expiresAt⟩) :: eraseTokenKey cache sessionID

/-- `getCachedToken(sessionID)`: miss on empty id or absent entry; an entry
with `now` strictly after `expiresAt` (`time.Now().After(...)`) is evicted
and reported as a miss; otherwise the token is returned. -/
def getCachedToken (cache : TokenCache) (now : Int) (sessionID : String) :
    Option String × TokenCache :=
  if sessionID = "" then (none, cache)
  else
    match cache.lookup sessionID with
    | none => (none, cache)
    | some entry =>
        if now > entry.expiresAt then (none, eraseTokenKey cache sessionID)
        else (some entry.token, cache)

end Orchids

namespace Orchids

/-- Claim C9 counterexample: the token `"h.eyJleHAiOjB9"` carries the
payload with a numeric claim `exp = 0` (URL-safe base64 of the object with
one field exp holding 0), yet `Put` stores `now + 5min` instead of the
claimed `exp − 30s`; and `Get` at `now` exactly equal to the stored expiry
returns the token instead of the claimed miss-and-evict (the code misses
only when `now` is strictly after the expiry). -/
theorem token_cache_put_get_counterexample :
    (jwtExpSeconds "h.eyJleHAiOjB9" = some 0 ∧
      setCachedToken [] 0 "sid" "h.eyJleHAiOjB9" =
        [("sid", ⟨"h.eyJleHAiOjB9", 300000000000⟩)] ∧
      (300000000000 : Int) ≠ 0 * 1000000000 - 30000000000) ∧
    (getCachedToken [("sid", ⟨"tok", 100⟩)] 100 "sid" =
        (some "tok", [("sid", ⟨"tok", 100⟩)]) ∧
      ¬ (100 : Int) < 100) := by
  exact ⟨⟨by decide, by decide, by decide⟩, ⟨by decide, by decide⟩⟩

/-- Claim C9 (amended): `Put` caches expiry `exp − 30s` for every JWT whose
payload decodes to an object with a nonzero numeric `exp`; it falls back to
`now + 5min` when the decode pipeline fails or `exp` is 0; `Get` returns
the cached token while `now ≤ expiry` and reports a miss and evicts the
entry when `now` is strictly after the expiry. -/
theorem token_cache_put_get_spec :
    ∀ (cache : TokenCache) (now : Int) (sessionID token : String),
      sessionID ≠ "" → token ≠ "" →
      (∀ e, jwtExpSeconds token = some e → e ≠ 0 →
        (setCachedToken cache now sessionID token).lookup sessionID =
          some ⟨token, e * 1000000000 - 30000000000⟩) ∧
      ((jwtExpSeconds token = none ∨ jwtExpSeconds token = some 0) →
        (setCachedToken cache now sessionID token).lookup sessionID =
          some ⟨token, now + 300000000000⟩) ∧
      (∀ entry, cache.lookup sessionID = some entry →
        (now ≤ entry.expiresAt →
          getCachedToken cache now sessionID = (some entry.token, cache)) ∧
        (entry.expiresAt < now →
          getCachedToken cache now sessionID =
            (none, eraseTokenKey cache sessionID))) := by
  intro cache now sessionID token hsid htok
  have hsid' : (sessionID = "" ∨ token = "") = False := by
    simp [hsid, htok]
  refine ⟨?_, ?_, ?_⟩
  · intro e he hne
    simp only [setCachedToken, hsid', if_false, tokenExpiry, he, hne, ite_false]
    simp [List.lookup]
  · intro hfail
    cases hfail with
    | inl h =>
        simp only [setCachedToken, hsid', if_false, tokenExpiry, h]
        simp [List.lookup]
    | inr h =>
        simp only [setCachedToken, hsid', if_false, tokenExpiry, h, ite_true]
        simp [List.lookup]
  · intro entry hentry
    constructor
    · intro hle
      have hnot : ¬ now > entry.expiresAt := by omega
      simp [getCachedToken, hsid, hentry, hnot]
    · intro hlt
      have hgt : now > entry.expiresAt := hlt
      simp [getCachedToken, hsid, hentry, hgt]

/-- Witness for C9 (amended) at concrete inputs: a token with `exp = 1000`
is cached with expiry `1000s − 30s`; a payload-less token falls back to
`now + 5min`; a live entry is returned and a stale one evicted. -/
theorem token_cache_put_get_spec_witness :
    ((setCachedToken [] 0 "sid" "h.eyJleHAiOjEwMDB9").lookup "sid" =
      some ⟨"h.eyJleHAiOjEwMDB9", 1000 * 1000000000 - 30000000000⟩) ∧
    ((setCachedToken [] 7 "sid" "garbage").lookup "sid" =
      some ⟨"garbage", 7 + 300000000000⟩) ∧
    (getCachedToken [("sid", ⟨"tok", 50⟩)] 49 "sid" =
      (some "tok", [("sid", ⟨"tok", 50⟩)])) ∧
    (getCachedToken [("sid", ⟨"tok", 50⟩)] 51 "sid" =
      (none, eraseTokenKey [("sid", ⟨"tok", 50⟩)] "sid")) := by
  have h1 := (token_cache_put_get_spec [] 0 "sid" "h.eyJleHAiOjEwMDB9"
    (by decide) (by decide)).1 1000 (by decide) (by decide)
  have h2 := (token_cache_put_get_spec [] 7 "sid" "garbage"
    (by decide) (by decide)).2.1 (Or.inl (by decide))
  have h3 := ((token_cache_put_get_spec [("sid", ⟨"tok", 50⟩)] 49 "sid" "x"
    (by decide) (by decide)).2.2 ⟨"tok", 50⟩ (by decide)).1 (by decide)
  have h4 := ((token_cache_put_get_spec [("sid", ⟨"tok", 50⟩)] 51 "sid" "x"
    (by decide) (by decide)).2.2 ⟨"tok", 50⟩ (by decide)).2 (by decide)
  exact ⟨h1, h2, h3, h4⟩

end Orchids

namespace Orchids

/-! ### Safe-tool executor
`src/unnamed/part_003` lines 19-466: `runSafeCommand`, `runSafeSegment`,
`runSafeSimple`, `applyHead`, `runSafeLS`, `runSafeFind`, `safeRelPath`,
`isHiddenPath`, `splitByAndAnd`, with the configuration constants
`safeToolTimeout = 0`, `safeToolMaxOutputSize = 0`, `safeToolMaxLines = 0`,
`safeToolMaxFindDepth = -1`.

`github.com/kballard/go-shellquote.Split` is embedded below
(`shellSplit`): split characters are space/tab/newline, a backslash
escapes the next character, single quotes are literal runs, and inside
double quotes a backslash escapes only dollar, backtick, double quote,
newline and backslash.

The filesystem and process environment live in a `SafeEnv` oracle:
`execOut` is what `captureLimitedOutput` collects from a spawned process
(modelled as succeeding — process failure only affects the output text,
never which program runs), `fsEntries` is the `filepath.WalkDir` pre-order
listing rooted at a path (entries carry the `filepath.Rel` result, the
directory flag and the `d.Name()` base name), `cleanPath`/`joinPath` stand
for `filepath.Clean`/`filepath.Join`, and `matchGlob` for
`filepath.Match`. -/

/-- Char-list split on a single separator character (`strings.Split` with
a one-character separator). Always returns at least one segment. -/
def splitOnChar (sep : Char) : List Char → List (List Char)
  | [] => [[]]
  | c :: rest =>
      let tail := splitOnChar sep rest
      if c = sep then [] :: tail
      else
        match tail with
        | [] => [[c]]
        | seg :: segs => (c :: seg) :: segs

/-- `strings.Split(command, "&&")` at the character level. -/
def splitOnAndAnd : List Char → List (List Char)
  | [] => [[]]
  | '&' :: '&' :: rest => [] :: splitOnAndAnd rest
  | c :: rest =>
      match splitOnAndAnd rest with
      | [] => [[c]]
      | seg :: segs => (c :: seg) :: segs

/-- `splitByAndAnd(command)`. -/
def splitByAndAnd (command : String) : List String :=
  (splitOnAndAnd command.data).map String.mk

/-- go-shellquote split characters. -/
def isSplitChar (c : Char) : Bool :=
  c = ' ' ∨ c = '\n' ∨ c = '\t'

/-- go-shellquote double-quote escapable characters. -/
def isDoubleEscapeChar (c : Char) : Bool :=
  c = '$' ∨ c = '\x60' ∨ c = '"' ∨ c = '\n' ∨ c = '\\'

mutual

/-- Scan one unquoted word (fuel-indexed). -/
def scanWord : Nat → List Char → Option (List Char × List Char)
  | 0, _ => none
  | _ + 1, [] => some ([], [])
  | fuel + 1, c :: rest =>
      if isSplitChar c then some ([], c :: rest)
      else if c = '\\' then
        match rest with
        | [] => none
        | e :: rest' =>
            match scanWord fuel rest' with
            | none => none
            | some (w, r) => some (e :: w, r)
      else if c = '\'' then
        match scanSingle fuel rest with
        | none => none
        | some (w1, rest') =>
            match scanWord fuel rest' with
            | none => none
            | some (w, r) => some (w1 ++ w, r)
      else if c = '"' then
        match scanDouble fuel rest with
        | none => none
        | some (w1, rest') =>
            match scanWord fuel rest' with
            | none => none
            | some (w, r) => some (w1 ++ w, r)
      else
        match scanWord fuel rest with
        | none => none
        | some (w, r) => some (c :: w, r)

/-- Scan a single-quoted run (no escapes inside). -/
def scanSingle : Nat → List Char → Option (List Char × List Char)
  | 0, _ => none
  | _ + 1, [] => none
  | fuel + 1, c :: rest =>
      if c = '\'' then some ([], rest)
      else
        match scanSingle fuel rest with
        | none => none
        | some (w, r) => some (c :: w, r)

/-- Scan a double-quoted run. -/
def scanDouble : Nat → List Char → Option (List Char × List Char)
  | 0, _ => none
  | _ + 1, [] => none
  | fuel + 1, c :: rest =>
      if c = '"' then some ([], rest)
      else if c = '\\' then
        match rest with
        | [] => none
        | e :: rest' =>
            match scanDouble fuel rest' with
            | none => none
            | some (w, r) =>
                if isDoubleEscapeChar e then some (e :: w, r)
                else some ('\\' :: e :: w, r)
      else
        match scanDouble fuel rest with
        | none => none
        | some (w, r) => some (c :: w, r)

end

/-- Collect the words of a command line (fuel-indexed). -/
def scanWords : Nat → List Char → Option (List String)
  | 0, _ => none
  | fuel + 1, input =>
      match input.dropWhile isSplitChar with
      | [] => some []
      | rest =>
          match scanWord (rest.length + 1) rest with
          | none => none
          | some (w, r) =>
              match scanWords fuel r with
              | none => none
              | some ws => some (String.mk w :: ws)

/-- `shellquote.Split`: `none` models the library's unterminated
quote/escape errors. -/
def shellSplit (s : String) : Option (List String) :=
  scanWords (s.data.length + 1) s.data

end Orchids

namespace Orchids

/-- Externally visible actions of the safe-tool executor. -/
inductive Effect where
  | execProg (prog : String) (args : List String)
  | walkDir (root : String)
deriving DecidableEq, Repr

/-- One `filepath.WalkDir` entry: the `filepath.Rel(startAbs, path)` value
(`"."` for the root), the directory flag, and `d.Name()`. -/
structure FsEntry where
  rel : String
  isDir : Bool
  name : String
deriving DecidableEq, Repr

/-- Environment oracles of the safe-tool executor (working directory,
process output, filesystem listing, `filepath` and glob helpers). -/
structure SafeEnv where
  baseDir : String
  execOut : String → List String → String
  fsEntries : String → List FsEntry
  cleanPath : String → String
  joinPath : String → String → String
  matchGlob : String → String → Bool

/-- `filepath.IsAbs` on Unix. -/
def isAbsPath (p : String) : Bool :=
  match p.data with
  | '/' :: _ => true
  | _ => false

/-- `safeRelPath(baseDir, path)`: absolute paths pass through; `"."` cleans
to the base directory; otherwise join (traversal with `..` is allowed, as
the source comments). -/
def safeRelPath (env : SafeEnv) (baseDir path : String) : String :=
  if isAbsPath path then path
  else
    let clean := env.cleanPath path
    if clean = "." then baseDir
    else env.joinPath baseDir clean

/-- Does the string start with a dash? -/
def startsWithDash (s : String) : Bool :=
  match s.data with
  | '-' :: _ => true
  | _ => false

/-- `runSafeLS` argument loop: collect whitelisted flags (`-a`, `-l`,
`-la`, `-al`) and at most one path argument. -/
def parseLSArgs : List String → List String → String →
    Except String (List String × String)
  | [], flags, pathArg => .ok (flags, pathArg)
  | arg :: rest, flags, pathArg =>
      if startsWithDash arg then
        if arg = "-a" ∨ arg = "-l" ∨ arg = "-la" ∨ arg = "-al" then
          parseLSArgs rest (flags ++ [arg]) pathArg
        else .error ("ls flag not allowed: " ++ arg)
      else if pathArg ≠ "" then .error "ls supports a single path argument"
      else parseLSArgs rest flags arg

/-- `runSafeLS(baseDir, args)`: validate arguments, resolve the target
directory, spawn `ls` with the collected flags plus the target, and return
the trimmed captured output (`captureLimitedOutput` with no size cap). -/
def runSafeLS (env : SafeEnv) (baseDir : String) (args : List String) :
    Except String String × List Effect :=
  match parseLSArgs args [] "" with
  | .error e => (.error e, [])
  | .ok (flags, pathArg) =>
      let targetDir := if pathArg ≠ "" then safeRelPath env baseDir pathArg else baseDir
      let lsArgs := flags ++ [targetDir]
      (.ok (trimSpace (env.execOut "ls" lsArgs)), [.execProg "ls" lsArgs])

/-- Parsed `find` options. -/
structure FindOpts where
  maxDepth : Int
  typeF : Bool
  typeD : Bool
  namePatterns : List String
  excludeHidden : Bool
deriving DecidableEq, Repr

/-- `runSafeFind` option loop: `-maxdepth n` (n ≥ 0), `-type f|d`,
`-name pattern` (nonempty, no separator), `-o` (accepted, no effect),
`-not -path` with the two hidden-exclusion patterns; anything else is an
error. -/
def parseFindArgs : List String → FindOpts → Except String FindOpts
  | [], opts => .ok opts
  | "-maxdepth" :: rest, opts =>
      match rest with
      | [] => .error "missing value for -maxdepth"
      | v :: rest' =>
          match atoi v with
          | none => .error "invalid -maxdepth"
          | some n =>
              if n < 0 then .error "invalid -maxdepth"
              else parseFindArgs rest' { opts with maxDepth := n }
  | "-type" :: rest, opts =>
      match rest with
      | [] => .error "missing value for -type"
      | v :: rest' =>
          if v = "f" then parseFindArgs rest' { opts with typeF := true }
          else if v = "d" then parseFindArgs rest' { opts with typeD := true }
          else .error "only -type f/d supported"
  | "-name" :: rest, opts =>
      match rest with
      | [] => .error "missing value for -name"
      | v :: rest' =>
          let pattern := trimSpace v
          if pattern = "" then .error "invalid -name pattern"
          else if pattern.data.contains '/' then .error "invalid -name pattern"
          else parseFindArgs rest' { opts with namePatterns := opts.namePatterns ++ [pattern] }
  | "-o" :: rest, opts => parseFindArgs rest opts
  | "-not" :: rest, opts =>
      match rest with
      | p :: pat :: rest' =>
          if p ≠ "-path" then .error "only -not -path supported"
          else if pat = "*/.*" ∨ pat = "*/\\.*" then
            parseFindArgs rest' { opts with excludeHidden := true }
          else .error "unsupported -not -path pattern"
      | _ => .error "invalid -not syntax"
  | arg :: _, _ => .error ("unsupported find option: " ++ arg)

/-- Number of `/` separators in the displayed relative path: `"."` has
depth 0, otherwise `strings.Count("./" ++ rel, "/")`. -/
def relDepth (rel : String) : Nat :=
  if rel = "." then 0
  else 1 + (rel.data.filter (fun c => c = '/')).length

/-- `isHiddenPath`: some component of the relative path starts with a dot
(the root itself is never hidden). -/
def isHiddenRel (rel : String) : Bool :=
  if rel = "." then false
  else (splitOnChar '/' rel.data).any (fun part =>
    match part with
    | '.' :: _ => true
    | _ => false)

/-- Is `rel2` inside the subtree rooted at `rel1`? (`SkipDir` pruning.) -/
def isUnder (rel1 : String) (rel2 : String) : Bool :=
  let p := rel1.data ++ ['/']
  rel2.data.take p.length = p

/-- The display form the source appends to `lines`: `"."` for the root,
otherwise `"./" ++ ToSlash(rel)`. -/
def relDisplay (rel : String) : String :=
  if rel = "." then "." else "./" ++ rel

/-- The `filepath.WalkDir` callback of `runSafeFind` over the pre-order
entry list, with `SkipDir` pruning of skipped directory subtrees
(`safeToolMaxLines = 0`: no output cap). -/
def findWalk (env : SafeEnv) (opts : FindOpts) : List FsEntry → List String
  | [] => []
  | entry :: rest =>
      if opts.excludeHidden ∧ isHiddenRel entry.rel then
        if entry.isDir ∧ entry.rel ≠ "." then
          findWalk env opts (rest.filter (fun e2 => ¬ isUnder entry.rel e2.rel))
        else findWalk env opts rest
      else
        let depth := relDepth entry.rel
        if opts.maxDepth ≥ 0 ∧ (depth : Int) > opts.maxDepth then
          if entry.isDir then
            findWalk env opts (rest.filter (fun e2 => ¬ isUnder entry.rel e2.rel))
          else findWalk env opts rest
        else
          let typeOk :=
            if opts.typeF ∨ opts.typeD then
              if entry.isDir then opts.typeD else opts.typeF
            else true
          let nameOk :=
            if opts.namePatterns ≠ [] then
              opts.namePatterns.any (fun pattern => env.matchGlob pattern entry.name)
            else true
          if typeOk ∧ nameOk then relDisplay entry.rel :: findWalk env opts rest
          else findWalk env opts rest
  termination_by l => l.length
  decreasing_by
    all_goals simp only [List.length_cons]
    all_goals
      first
        | exact Nat.lt_succ_of_le (List.length_filter_le _ _)
        | exact Nat.lt_succ_self _

/-- `runSafeFind(baseDir, args)`: optional leading start path, option
parsing, then a `filepath.WalkDir` from the resolved start
(`safeToolMaxFindDepth = -1`: no depth cap unless `-maxdepth` is given),
joining the surviving entries with newlines. -/
def findStartSplit (args : List String) : String × List String :=
  match args with
  | a :: rest => if ¬ startsWithDash a then (a, rest) else (".", args)
  | [] => (".", args)

def runSafeFind (env : SafeEnv) (baseDir : String) (args : List String) :
    Except String String × List Effect :=
  let startPath := (findStartSplit args).1
  let optArgs := (findStartSplit args).2
  let startAbs := safeRelPath env baseDir startPath
  match parseFindArgs optArgs
      { maxDepth := -1, typeF := false, typeD := false,
        namePatterns := [], excludeHidden := false } with
  | .error e => (.error e, [])
  | .ok opts =>
      let lines := findWalk env opts (env.fsEntries startAbs)
      (.ok (String.intercalate "\n" lines), [.walkDir startAbs])

/-- `runSafeSimple(baseDir, command)`: shell-safe tokenisation, then the
three-command whitelist switch. -/
def runSafeSimple (env : SafeEnv) (baseDir command : String) :
    Except String String × List Effect :=
  match shellSplit command with
  | none => (.error "invalid command format", [])
  | some [] => (.error "invalid command format", [])
  | some (tok :: rest) =>
      if tok = "pwd" then (.ok baseDir, [])
      else if tok = "ls" then runSafeLS env baseDir rest
      else if tok = "find" then runSafeFind env baseDir rest
      else (.error ("command not allowed: " ++ tok), [])

/-- `strings.ReplaceAll(input, "\r\n", "\n")` at the character level. -/
def replaceCRLF : List Char → List Char
  | '\r' :: '\n' :: rest => '\n' :: replaceCRLF rest
  | c :: rest => c :: replaceCRLF rest
  | [] => []

/-- `applyHead(segment, input)`: the pipe's right side must tokenise to
`head` with an optional positive count (`-n N`, `-N`, or `N`), then the
first `count` lines of the input are kept (`safeToolMaxLines = 0`: no
cap), joined and trimmed. -/
def applyHead (segment input : String) : Except String String :=
  match shellSplit segment with
  | none => .error "invalid head segment"
  | some [] => .error "invalid head segment"
  | some (tok :: rest) =>
      if tok ≠ "head" then .error "only head pipe is supported"
      else
        let lines := (splitOnChar '\n' (replaceCRLF input.data)).map String.mk
        let countE : Except String Nat :=
          match rest with
          | [] => .ok 10
          | arg1 :: rest' =>
              if startsWithDash arg1 then
                if arg1 = "-n" then
                  match rest' with
                  | [] => .error "missing head -n value"
                  | v :: _ =>
                      match atoi v with
                      | none => .error "invalid head -n value"
                      | some n => if n < 1 then .error "invalid head -n value" else .ok n.toNat
                else
                  match atoi (String.mk (arg1.data.drop 1)) with
                  | none => .error "invalid head value"
                  | some n => if n < 1 then .error "invalid head value" else .ok n.toNat
              else
                match atoi arg1 with
                | none => .error "invalid head value"
                | some n => if n < 1 then .error "invalid head value" else .ok n.toNat
        match countE with
        | .error e => .error e
        | .ok count =>
            .ok (trimSpace (String.intercalate "\n" (lines.take count)))

/-- `runSafeSegment(baseDir, segment)`: at most one pipe; run the left
side, then optionally filter through `head`. -/
def runSafeSegment (env : SafeEnv) (baseDir segment : String) :
    Except String String × List Effect :=
  let parts := (splitOnChar '|' segment.data).map String.mk
  if parts.length > 2 then (.error "unsupported pipe usage", [])
  else
    let left := trimSpace (parts.headI)
    if left = "" then (.error "empty command segment", [])
    else
      match runSafeSimple env baseDir left with
      | (.error e, effs) => (.error e, effs)
      | (.ok output, effs) =>
          if parts.length = 2 then
            let right := trimSpace (parts.getD 1 "")
            if right = "" then (.error "invalid pipe segment", effs)
            else
              match applyHead right output with
              | .error e => (.error e, effs)
              | .ok output' => (.ok output', effs)
          else (.ok output, effs)

/-- Modelled from the spec: `runShellCommand` is code of this repository
that is not under `src/` (only its caller `runSafeCommand` and its helpers
`splitByAndAnd`/`runSafeSegment` are). Per the spec it executes the
whitelisted local subset using shell-safe token parsing: the command is
split on `&&` and each segment runs through `runSafeSegment`, stopping at
the first error, with the segment outputs joined by newlines. -/
def runShellCommandGo (env : SafeEnv) (baseDir : String) :
    List String → List String → List Effect →
    (String × Option String) × List Effect
  | [], outs, effs => ((String.intercalate "\n" outs, none), effs)
  | seg :: segs, outs, effs =>
      match runSafeSegment env baseDir seg with
      | (.error e, effs') => ((String.intercalate "\n" outs, some e), effs ++ effs')
      | (.ok out, effs') => runShellCommandGo env baseDir segs (outs ++ [out]) (effs ++ effs')

def runShellCommand (env : SafeEnv) (baseDir command : String) :
    (String × Option String) × List Effect :=
  runShellCommandGo env baseDir (splitByAndAnd command) [] []

/-- `runSafeCommand(command)`: trim, reject empty, resolve the working
directory, run; an error with nonempty trimmed output is downgraded to a
success carrying the output. -/
def runSafeCommand (env : SafeEnv) (command : String) :
    Except String String × List Effect :=
  let trimmed := trimSpace command
  if trimmed = "" then (.error "empty command", [])
  else
    match runShellCommand env env.baseDir trimmed with
    | ((out, some e), effs) =>
        if trimSpace out ≠ "" then (.ok out, effs) else (.error e, effs)
    | ((out, none), effs) => (.ok out, effs)

/-- The first token the executor would dispatch on: the shell-parse of the
left side of the first pipe of the first `&&` segment of the trimmed
command. -/
def firstCommandToken (command : String) : Option String :=
  match splitByAndAnd (trimSpace command) with
  | [] => none
  | seg :: _ =>
      let left := trimSpace (((splitOnChar '|' seg.data).map String.mk).headI)
      match shellSplit left with
      | none => none
      | some [] => none
      | some (tok :: _) => some tok

end Orchids

namespace Orchids

/-- An effect the whitelist permits: an `ls` spawn or a directory walk. -/
def goodEffect (e : Effect) : Prop :=
  (∃ args, e = .execProg "ls" args) ∨ (∃ root, e = .walkDir root)

theorem splitOnAndAnd_ne_nil (l : List Char) : splitOnAndAnd l ≠ [] := by
  induction l with
  | nil => simp [splitOnAndAnd]
  | cons c rest ih =>
      match c, rest with
      | '&', '&' :: rest' => simp [splitOnAndAnd]
      | c, rest =>
          rw [splitOnAndAnd.eq_def]
          split
          · simp
          · simp
          · split
            · simp
            · simp

theorem runSafeLS_effects (env : SafeEnv) (baseDir : String) (args : List String) :
    ∀ eff ∈ (runSafeLS env baseDir args).2, goodEffect eff := by
  intro eff h
  unfold runSafeLS at h
  cases hp : parseLSArgs args [] "" with
  | error e => rw [hp] at h; simp at h
  | ok p =>
      rw [hp] at h
      obtain ⟨flags, pathArg⟩ := p
      simp only [List.mem_singleton] at h
      exact Or.inl ⟨_, h⟩

theorem runSafeFind_effects (env : SafeEnv) (baseDir : String) (args : List String) :
    ∀ eff ∈ (runSafeFind env baseDir args).2, goodEffect eff := by
  intro eff h
  unfold runSafeFind at h
  dsimp only at h
  cases hp : parseFindArgs (findStartSplit args).2
      { maxDepth := -1, typeF := false, typeD := false,
        namePatterns := [], excludeHidden := false } with
  | error e => rw [hp] at h; simp at h
  | ok opts =>
      rw [hp] at h
      simp only [List.mem_singleton] at h
      exact Or.inr ⟨_, h⟩

theorem runSafeSimple_effects (env : SafeEnv) (baseDir command : String) :
    ∀ eff ∈ (runSafeSimple env baseDir command).2, goodEffect eff := by
  intro eff h
  unfold runSafeSimple at h
  cases hs : shellSplit command with
  | none => rw [hs] at h; simp at h
  | some toks =>
      rw [hs] at h
      cases toks with
      | nil => simp at h
      | cons tok rest =>
          by_cases h1 : tok = "pwd"
          · simp [h1] at h
          · by_cases h2 : tok = "ls"
            · simp only [h1, h2, if_false, if_true, ite_true, ite_false] at h
              exact runSafeLS_effects env baseDir rest eff h
            · by_cases h3 : tok = "find"
              · simp only [h1, h2, h3, if_false, if_true, ite_true, ite_false] at h
                exact runSafeFind_effects env baseDir rest eff h
              · simp [h1, h2, h3] at h

theorem runSafeSegment_effects (env : SafeEnv) (baseDir segment : String) :
    ∀ eff ∈ (runSafeSegment env baseDir segment).2, goodEffect eff := by
  intro eff h
  unfold runSafeSegment at h
  by_cases hlen : ((splitOnChar '|' segment.data).map String.mk).length > 2
  · simp only [hlen, ite_true] at h
    simp at h
  · simp only [hlen, ite_false] at h
    by_cases hleft : trimSpace ((splitOnChar '|' segment.data).map String.mk).headI = ""
    · simp only [hleft, ite_true] at h
      simp at h
    · simp only [hleft, ite_false] at h
      set left := trimSpace ((splitOnChar '|' segment.data).map String.mk).headI with hL
      cases hrs : runSafeSimple env baseDir left with
      | mk res effs =>
          have heffs : ∀ e ∈ effs, goodEffect e := by
            intro e he
            have := runSafeSimple_effects env baseDir left e
            rw [hrs] at this
            exact this he
          rw [hrs] at h
          cases res with
          | error e => simp only at h; exact heffs eff h
          | ok out =>
              simp only at h
              by_cases h2 : ((splitOnChar '|' segment.data).map String.mk).length = 2
              · simp only [h2, ite_true] at h
                by_cases hr : trimSpace (((splitOnChar '|' segment.data).map String.mk).getD 1 "") = ""
                · simp only [hr, ite_true] at h
                  exact heffs eff h
                · simp only [hr, ite_false] at h
                  cases hah : applyHead (trimSpace (((splitOnChar '|' segment.data).map String.mk).getD 1 "")) out with
                  | error e => rw [hah] at h; exact heffs eff h
                  | ok out' => rw [hah] at h; exact heffs eff h
              · simp only [h2, ite_false] at h
                exact heffs eff h

theorem runShellCommand_go_effects (env : SafeEnv) (baseDir : String) :
    ∀ (segs : List String) (outs : List String) (effs : List Effect),
      (∀ e ∈ effs, goodEffect e) →
      ∀ eff ∈ (runShellCommandGo env baseDir segs outs effs).2, goodEffect eff := by
  intro segs
  induction segs with
  | nil =>
      intro outs effs hacc eff h
      simp only [runShellCommandGo] at h
      exact hacc eff h
  | cons seg rest ih =>
      intro outs effs hacc eff h
      simp only [runShellCommandGo] at h
      cases hseg : runSafeSegment env baseDir seg with
      | mk res effs' =>
          have heffs' : ∀ e ∈ effs ++ effs', goodEffect e := by
            intro e he
            rcases List.mem_append.mp he with h1 | h2
            · exact hacc e h1
            · have := runSafeSegment_effects env baseDir seg e
              rw [hseg] at this
              exact this h2
          rw [hseg] at h
          cases res with
          | error e => simp only at h; exact heffs' eff h
          | ok out => simp only at h; exact ih (outs ++ [out]) (effs ++ effs') heffs' eff h

/-- `runSafeSegment` on a segment whose parsed first token is none of
`pwd`, `ls`, `find` errors with no effects. -/
theorem runSafeSegment_not_allowed (env : SafeEnv) (baseDir segment tok : String)
    (more : List String)
    (hleft : shellSplit (trimSpace (((splitOnChar '|' segment.data).map String.mk).headI)) =
      some (tok :: more))
    (h1 : tok ≠ "pwd") (h2 : tok ≠ "ls") (h3 : tok ≠ "find") :
    ∃ e, runSafeSegment env baseDir segment = (.error e, []) := by
  unfold runSafeSegment
  by_cases hlen : ((splitOnChar '|' segment.data).map String.mk).length > 2
  · refine ⟨"unsupported pipe usage", ?_⟩
    rw [if_pos hlen]
  · rw [if_neg hlen]
    by_cases hempty : trimSpace ((splitOnChar '|' segment.data).map String.mk).headI = ""
    · refine ⟨"empty command segment", ?_⟩
      rw [if_pos hempty]
    · rw [if_neg hempty]
      refine ⟨"command not allowed: " ++ tok, ?_⟩
      have hsimple : runSafeSimple env baseDir
          (trimSpace ((splitOnChar '|' segment.data).map String.mk).headI) =
          (.error ("command not allowed: " ++ tok), []) := by
        unfold runSafeSimple
        rw [hleft]
        simp only [h1, h2, h3, if_false, ite_false]
      rw [hsimple]

end Orchids

namespace Orchids

theorem splitByAndAnd_ne_nil (s : String) : splitByAndAnd s ≠ [] := by
  unfold splitByAndAnd
  intro h
  exact splitOnAndAnd_ne_nil s.data (by simpa using h)

/-- Claim C5 (spec-modelled `runShellCommand`): a command whose parsed first
token is none of `pwd`, `ls`, `find` makes the safe-tool executor return an
error having executed nothing; and on every input, the executor's only
external actions are spawning `ls` and walking a directory — it never runs
any other program. -/
theorem safe_tool_whitelist_only :
    (∀ (env : SafeEnv) (command tok : String),
      firstCommandToken command = some tok →
      tok ≠ "pwd" → tok ≠ "ls" → tok ≠ "find" →
      (∃ e, (runSafeCommand env command).1 = .error e) ∧
      (runSafeCommand env command).2 = []) ∧
    (∀ (env : SafeEnv) (command : String) (eff : Effect),
      eff ∈ (runSafeCommand env command).2 → goodEffect eff) := by
  constructor
  · intro env command tok hft h1 h2 h3
    by_cases ht : trimSpace command = ""
    · unfold runSafeCommand
      rw [if_pos ht]
      exact ⟨⟨"empty command", rfl⟩, rfl⟩
    · cases hsegs : splitByAndAnd (trimSpace command) with
      | nil => exact absurd hsegs (splitByAndAnd_ne_nil _)
      | cons seg segs =>
          unfold firstCommandToken at hft
          rw [hsegs] at hft
          simp only at hft
          cases hsp : shellSplit
              (trimSpace (((splitOnChar '|' seg.data).map String.mk).headI)) with
          | none => rw [hsp] at hft; cases hft
          | some toks =>
              rw [hsp] at hft
              cases toks with
              | nil => simp at hft
              | cons t more =>
                  simp only [Option.some.injEq] at hft
                  subst hft
                  obtain ⟨e, hseg⟩ :=
                    runSafeSegment_not_allowed env env.baseDir seg t more hsp h1 h2 h3
                  have hrc : runShellCommand env env.baseDir (trimSpace command) =
                      ((String.intercalate "\n" [], some e), [] ++ []) := by
                    unfold runShellCommand
                    rw [hsegs]
                    simp only [runShellCommandGo]
                    rw [hseg]
                  unfold runSafeCommand
                  rw [if_neg ht, hrc]
                  simp only [List.append_nil]
                  have : trimSpace (String.intercalate "\n" []) = "" := rfl
                  rw [this]
                  exact ⟨⟨e, rfl⟩, rfl⟩
  · intro env command eff h
    unfold runSafeCommand at h
    by_cases ht : trimSpace command = ""
    · rw [if_pos ht] at h
      simp at h
    · rw [if_neg ht] at h
      cases hrc : runShellCommand env env.baseDir (trimSpace command) with
      | mk p effs =>
          obtain ⟨out, errOpt⟩ := p
          have heffs : ∀ e ∈ effs, goodEffect e := by
            have hgo := runShellCommand_go_effects env env.baseDir
              (splitByAndAnd (trimSpace command)) [] [] (by simp)
            unfold runShellCommand at hrc
            rw [hrc] at hgo
            exact hgo
          rw [hrc] at h
          cases errOpt with
          | none => exact heffs eff h
          | some e =>
              dsimp only at h
              by_cases hout : trimSpace out ≠ ""
              · rw [if_pos hout] at h
                exact heffs eff h
              · rw [if_neg hout] at h
                exact heffs eff h

/-- A concrete safe-tool environment for the witness. -/
def sampleSafeEnv : SafeEnv :=
  { baseDir := "/work",
    execOut := fun _ _ => "total 0",
    fsEntries := fun _ => [⟨".", true, "work"⟩, ⟨"a.go", false, "a.go"⟩],
    cleanPath := fun p => p,
    joinPath := fun a b => a ++ "/" ++ b,
    matchGlob := fun _ _ => false }

/-- Witness for C5 at a concrete input: `rm -rf /` parses to first token
`rm`, the executor errors and performs nothing. -/
theorem safe_tool_whitelist_only_witness :
    (∃ e, (runSafeCommand sampleSafeEnv "rm -rf /").1 = .error e) ∧
    (runSafeCommand sampleSafeEnv "rm -rf /").2 = [] :=
  safe_tool_whitelist_only.1 sampleSafeEnv "rm -rf /" "rm"
    (by decide) (by decide) (by decide) (by decide)

end Orchids

namespace Orchids

/-! ### Stream handler state machine
`src/unnamed/part_003` lines 467-1675 (`HandleMessages`): the per-request
streaming state (`blockIndex`, tool maps, token tallies, stop reason), the
`handleMessage` event switch, `finishResponse`, `resetRoundState`, and the
retry / internal-follow-up loop.

Model notes:
- Go string-keyed maps are association lists; a map write replaces the
  previous binding, a read of a missing key yields the zero value.
- `tiktoken.EstimateTextTokens` is the `estimate` oracle.
- `mapOrchidsToolName` and `fixToolInput` are code of this repository not
  under `src/`; both are modelled from the spec below.
- `executeSafeTool` / `executeToolCall` results in the `internal`/`auto`
  modes are recorded as the queued call (their output text never reaches
  the client stream of the current round).
- The preflight / local-fallback path (`shouldPreflightTools`,
  `overrideWithLocalContext`) needs `shouldPreflightTools` and
  `buildLocalFallbackResponse`, which are not under `src/`; the model fixes
  `shouldLocalFallback = false`, in which case `overrideWithLocalContext`
  is the identity. No claim below concerns that path.
- Non-streaming `tool_use` content blocks store the `fixToolInput`-fixed
  input string (the source stores its `json.Unmarshal` value). -/

structure ToolCall where
  id : String
  name : String
  input : String
deriving DecidableEq, Repr

inductive CBKind where
  | thinking
  | text
  | toolUse (id name : String)
deriving DecidableEq, Repr

inductive OutEvent where
  | messageStart (msgId : String) (model : String) (inputTokens : Int)
  | contentBlockStart (idx : Int) (kind : CBKind)
  | contentBlockDelta (idx : Int) (dkind : String) (payload : String)
  | contentBlockStop (idx : Int)
  | messageDelta (stopReason : String) (outputTokens : Int)
  | messageStop
deriving DecidableEq, Repr

inductive InEvent where
  | reasoningStart
  | reasoningDelta (delta : String)
  | reasoningEnd
  | textStart
  | textDelta (delta : String)
  | textEnd
  | toolInputStart (id toolName : String)
  | toolInputDelta (id delta : String)
  | toolInputEnd (id : String)
  | toolCallEvt (toolCallId toolName input : String)
  | tokensUsed (inTok outTok : Option Int)
  | finish (finishReason : Option String) (usage : Option (Option Int × Option Int))
deriving DecidableEq, Repr

/-- Non-streaming content block accumulator (`contentBlocks`). -/
inductive CBlock where
  | textB
  | toolUseB (id name input : String)
deriving DecidableEq, Repr

/-- Per-request configuration of one `HandleMessages` invocation. -/
structure HCfg where
  isStream : Bool
  toolCallMode : String
  msgId : String
  model : String
  allowedTools : List (String × String)
  similarTool : String → Option String
  estimate : String → Int
  outputTokenMode : String

/-- The handler's per-round mutable state. -/
structure HState where
  blockIndex : Int
  hasReturn : Bool
  finalStopReason : String
  toolBlocks : List (String × Int)
  responseText : String
  contentBlocks : List CBlock
  currentTextIndex : Int
  textBlockBuilders : List (Int × String)
  pendingToolCalls : List ToolCall
  toolInputNames : List (String × String)
  toolInputBuffers : List (String × String)
  toolInputHadDelta : List (String × Bool)
  toolCallHandled : List (String × Bool)
  currentToolInputID : String
  toolCallCount : Nat
  internalToolResults : List ToolCall
  internalNeedsFollowup : Bool
  inputTokens : Int
  outputTokens : Int
  outputBuilder : String
  useUpstreamUsage : Bool
deriving Repr

/-- Map write (replace) for string-keyed association lists. -/
def mapSet {α : Type} (m : List (String × α)) (k : String) (v : α) :
    List (String × α) :=
  (k, v) :: m.filter (fun p => p.1 ≠ k)

/-- Map delete for string-keyed association lists. -/
def mapDel {α : Type} (m : List (String × α)) (k : String) : List (String × α) :=
  m.filter (fun p => p.1 ≠ k)

/-- Map read with the zero value `false` (`toolCallHandled[id]`). -/
def mapGetB (m : List (String × Bool)) (k : String) : Bool :=
  (m.lookup k).getD false

/-- Map write (replace) for int-keyed association lists
(`textBlockBuilders`). -/
def mapSetI (m : List (Int × String)) (k : Int) (v : String) :
    List (Int × String) :=
  (k, v) :: m.filter (fun p => p.1 ≠ k)

/-- The handler's initial state (`blockIndex = -1`, empty maps and
builders, `msg_id` fixed in the configuration). -/
def initState (inputTokens0 : Int) : HState :=
  { blockIndex := -1, hasReturn := false, finalStopReason := "",
    toolBlocks := [], responseText := "", contentBlocks := [],
    currentTextIndex := -1, textBlockBuilders := [], pendingToolCalls := [],
    toolInputNames := [], toolInputBuffers := [], toolInputHadDelta := [],
    toolCallHandled := [], currentToolInputID := "", toolCallCount := 0,
    internalToolResults := [], internalNeedsFollowup := false,
    inputTokens := inputTokens0, outputTokens := 0, outputBuilder := "",
    useUpstreamUsage := false }

/-- `resetRoundState`: every per-round field back to its initial value;
`msg_id` (configuration), `hasReturn`, `inputTokens` and the follow-up
bookkeeping are untouched. -/
def resetRoundState (st : HState) : HState :=
  { st with
    blockIndex := -1
    toolBlocks := []
    responseText := ""
    contentBlocks := []
    currentTextIndex := -1
    textBlockBuilders := []
    pendingToolCalls := []
    toolInputNames := []
    toolInputBuffers := []
    toolInputHadDelta := []
    toolCallHandled := []
    currentToolInputID := ""
    toolCallCount := 0
    outputTokens := 0
    outputBuilder := ""
    useUpstreamUsage := false
    finalStopReason := "" }

/-- `writeSSE`: only in streaming mode and only before finalization. -/
def writeSSE (cfg : HCfg) (st : HState) (ev : OutEvent) : List OutEvent :=
  if cfg.isStream ∧ ¬st.hasReturn then [ev] else []

/-- `writeFinalSSE`: only in streaming mode, also after `hasReturn`. -/
def writeFinalSSE (cfg : HCfg) (ev : OutEvent) : List OutEvent :=
  if cfg.isStream then [ev] else []

/-- `addOutputTokens(text)`. -/
def addOutputTokens (cfg : HCfg) (st : HState) (text : String) : HState :=
  if text = "" then st
  else if st.useUpstreamUsage then st
  else if cfg.outputTokenMode = "stream" then
    { st with outputTokens := st.outputTokens + cfg.estimate text }
  else { st with outputBuilder := st.outputBuilder ++ text }

/-- `finalizeOutputTokens()`. -/
def finalizeOutputTokens (cfg : HCfg) (st : HState) : HState :=
  if cfg.outputTokenMode = "stream" then st
  else if st.useUpstreamUsage then st
  else { st with outputTokens := cfg.estimate st.outputBuilder }

/-- `setUsageTokens(input, output)` (negative arguments mean absent). -/
def setUsageTokens (st : HState) (input output : Int) : HState :=
  { st with
    inputTokens := if input ≥ 0 then input else st.inputTokens
    outputTokens := if output ≥ 0 then output else st.outputTokens
    useUpstreamUsage := true }

/-- Modelled from the spec: `mapOrchidsToolName` is code of this repository
not under `src/` (only its call sites are). Per the spec it maps the
upstream tool name to a client-declared tool: case-insensitive exact match
against the declared set first, otherwise a name-similarity index lookup
(the `similarTool` oracle), otherwise the name unchanged; it depends on the
tool name only, never on the streamed input. -/
def mapOrchidsToolName (cfg : HCfg) (toolName : String) : String :=
  match cfg.allowedTools.lookup (lowerAscii toolName) with
  | some declared => declared
  | none => (cfg.similarTool toolName).getD toolName

/-- `resolveToolName(name)`: trim, reject empty; with no declared tool list
any name passes; otherwise case-insensitive lookup in the declared set. -/
def resolveToolName (cfg : HCfg) (name : String) : Option String :=
  let name := trimSpace name
  if name = "" then none
  else if cfg.allowedTools = [] then some name
  else cfg.allowedTools.lookup (lowerAscii name)

/-- Trailing whitespace-then-comma strip (on the reversed character list). -/
def stripTrailingComma (revChars : List Char) : List Char :=
  let afterWs := revChars.dropWhile isSpaceGo
  match afterWs with
  | ',' :: rest => rest
  | _ => afterWs

/-- Scan for unbalanced openers: returns the pending closers (innermost
first) and whether the scan ended inside a string literal. -/
def fixScan : List Char → List Char → Bool → Bool → List Char × Bool
  | [], stack, inStr, _ => (stack, inStr)
  | c :: rest, stack, inStr, esc =>
      if inStr then
        if esc then fixScan rest stack true false
        else if c = '\\' then fixScan rest stack true true
        else if c = '"' then fixScan rest stack false false
        else fixScan rest stack true false
      else if c = '"' then fixScan rest stack true false
      else if c = '{' then fixScan rest ('\x7d' :: stack) false false
      else if c = '[' then fixScan rest (']' :: stack) false false
      else if c = '\x7d' ∨ c = ']' then fixScan rest (stack.drop 1) false false
      else fixScan rest stack false false

/-- Modelled from the spec: `fixToolInput` is code of this repository not
under `src/` (only its call sites are). Per the spec it tolerates truncated
JSON by closing unbalanced braces/brackets and trimming trailing commas:
strip a trailing comma, close an unterminated string, then append the
missing closers. -/
def fixToolInput (s : String) : String :=
  let body := (stripTrailingComma s.data.reverse).reverse
  let (closers, inStr) := fixScan body [] false false
  String.mk (body ++ (if inStr then ['"'] else []) ++ closers)

/-- `emitToolCallNonStream(call)`: count tokens and append the tool_use
content block. -/
def emitToolCallNonStream (cfg : HCfg) (st : HState) (call : ToolCall) : HState :=
  let st := addOutputTokens cfg st call.name
  let st := addOutputTokens cfg st call.input
  { st with contentBlocks :=
      st.contentBlocks ++ [.toolUseB call.id call.name (fixToolInput call.input)] }

/-- `emitToolCallStream(call, idx, write)`: allocate a block index when
needed and write the start / input_json_delta / stop trio; `final` selects
`writeFinalSSE` over `writeSSE`. -/
def emitToolCallStream (cfg : HCfg) (final : Bool) (st : HState)
    (call : ToolCall) (idx : Int) : HState × List OutEvent :=
  if call.id = "" then (st, [])
  else
    let st' := if idx < 0 then { st with blockIndex := st.blockIndex + 1 } else st
    let idx' := if idx < 0 then st.blockIndex + 1 else idx
    let st' := addOutputTokens cfg st' call.name
    let st' := addOutputTokens cfg st' call.input
    let fixedInput := fixToolInput call.input
    let write := fun ev =>
      if final then writeFinalSSE cfg ev else writeSSE cfg st' ev
    (st',
      write (.contentBlockStart idx' (.toolUse call.id call.name)) ++
      write (.contentBlockDelta idx' "input_json_delta" fixedInput) ++
      write (.contentBlockStop idx'))

/-- `shouldEmitToolCalls(stopReason)`. -/
def shouldEmitToolCalls (cfg : HCfg) (stopReason : String) : Bool :=
  if cfg.toolCallMode = "proxy" then true
  else if cfg.toolCallMode = "auto" then stopReason = "tool_use"
  else if cfg.toolCallMode = "internal" then false
  else true

/-- Flush loop body over the drained pending calls. -/
def flushCalls (cfg : HCfg) (final : Bool) : HState → List ToolCall →
    HState × List OutEvent
  | st, [] => (st, [])
  | st, call :: rest =>
      let r :=
        if cfg.isStream then emitToolCallStream cfg final st call (-1)
        else (emitToolCallNonStream cfg st call, [])
      let r' := flushCalls cfg final r.1 rest
      (r'.1, r.2 ++ r'.2)

/-- `flushPendingToolCalls(stopReason, write)`: drain the queue and emit
each call (streaming or non-streaming). -/
def flushPendingToolCalls (cfg : HCfg) (final : Bool) (st : HState)
    (stopReason : String) : HState × List OutEvent :=
  if ¬shouldEmitToolCalls cfg stopReason then (st, [])
  else
    let calls := st.pendingToolCalls
    let st := { st with pendingToolCalls := [] }
    flushCalls cfg final st calls

/-- `finishResponse(stopReason)`: downgrade `tool_use` to `end_turn` when
no tool block was emitted and none is pending; set `hasReturn` and the
final stop reason; flush pending calls; in streaming mode emit
`message_delta` with the stop reason and output tokens, then
`message_stop` (`overrideWithLocalContext` is the identity here, see the
section comment). -/
def finishResponse (cfg : HCfg) (st : HState) (stopReason : String) :
    HState × List OutEvent :=
  let stopReason :=
    if stopReason = "tool_use" ∧ st.toolCallCount = 0 ∧ st.pendingToolCalls = []
    then "end_turn" else stopReason
  if st.hasReturn then (st, [])
  else
    let st := { st with hasReturn := true, finalStopReason := stopReason }
    if cfg.isStream then
      let r := flushPendingToolCalls cfg true st stopReason
      let stF := finalizeOutputTokens cfg r.1
      (stF, r.2 ++
        writeFinalSSE cfg (.messageDelta stopReason stF.outputTokens) ++
        writeFinalSSE cfg .messageStop)
    else
      let r := flushPendingToolCalls cfg true st stopReason
      let stF := finalizeOutputTokens cfg r.1
      (stF, r.2)

/-- `handleToolCall(call)` (closure in the round loop): internal mode
queues the safe-tool result; auto mode additionally emits the non-stream
block; proxy counts the call and emits it (reusing the streamed block
index when one exists); other modes queue it for the final flush. -/
def handleToolCall (cfg : HCfg) (st : HState) (call : ToolCall) :
    HState × List OutEvent :=
  if call.id = "" then (st, [])
  else if cfg.toolCallMode = "internal" then
    ({ st with internalToolResults := st.internalToolResults ++ [call] }, [])
  else if cfg.toolCallMode = "auto" then
    let st := if ¬cfg.isStream then emitToolCallNonStream cfg st call else st
    ({ st with internalToolResults := st.internalToolResults ++ [call] }, [])
  else
    let st := { st with toolCallCount := st.toolCallCount + 1 }
    if cfg.toolCallMode ≠ "proxy" then
      ({ st with pendingToolCalls := st.pendingToolCalls ++ [call] }, [])
    else if ¬cfg.isStream then
      (emitToolCallNonStream cfg st call, [])
    else
      match st.toolBlocks.lookup call.id with
      | some v =>
          emitToolCallStream cfg false
            { st with toolBlocks := mapDel st.toolBlocks call.id } call v
      | none => emitToolCallStream cfg false st call (-1)

end Orchids

namespace Orchids

/-- `model.reasoning-start`. -/
def onReasoningStart (cfg : HCfg) (st : HState) : HState × List OutEvent :=
  let st := { st with blockIndex := st.blockIndex + 1 }
  (st, writeSSE cfg st (.contentBlockStart st.blockIndex .thinking))

/-- `model.reasoning-delta` (tokens counted only in streaming mode). -/
def onReasoningDelta (cfg : HCfg) (st : HState) (delta : String) :
    HState × List OutEvent :=
  let st := if cfg.isStream then addOutputTokens cfg st delta else st
  (st, writeSSE cfg st (.contentBlockDelta st.blockIndex "thinking_delta" delta))

/-- `model.reasoning-end`. -/
def onReasoningEnd (cfg : HCfg) (st : HState) : HState × List OutEvent :=
  (st, writeSSE cfg st (.contentBlockStop st.blockIndex))

/-- `model.text-start`: allocate the block index; non-streaming also
appends a text content block and a fresh builder. -/
def onTextStart (cfg : HCfg) (st : HState) : HState × List OutEvent :=
  let st := { st with blockIndex := st.blockIndex + 1 }
  let st :=
    if ¬cfg.isStream then
      let blocks := st.contentBlocks ++ [CBlock.textB]
      { st with
        contentBlocks := blocks
        currentTextIndex := (blocks.length : Int) - 1
        textBlockBuilders := mapSetI st.textBlockBuilders ((blocks.length : Int) - 1) "" }
    else st
  (st, writeSSE cfg st (.contentBlockStart st.blockIndex .text))

/-- `model.text-delta`: count tokens; non-streaming accumulates
`responseText` and the per-block builder. -/
def onTextDelta (cfg : HCfg) (st : HState) (delta : String) :
    HState × List OutEvent :=
  let st := addOutputTokens cfg st delta
  let st :=
    if ¬cfg.isStream then
      let st := { st with responseText := st.responseText ++ delta }
      if 0 ≤ st.currentTextIndex ∧ st.currentTextIndex < (st.contentBlocks.length : Int) then
        let builder := (st.textBlockBuilders.lookup st.currentTextIndex).getD ""
        { st with textBlockBuilders :=
            mapSetI st.textBlockBuilders st.currentTextIndex (builder ++ delta) }
      else st
    else st
  (st, writeSSE cfg st (.contentBlockDelta st.blockIndex "text_delta" delta))

/-- `model.text-end`. -/
def onTextEnd (cfg : HCfg) (st : HState) : HState × List OutEvent :=
  (st, writeSSE cfg st (.contentBlockStop st.blockIndex))

/-- `model.tool-input-start`: allocate the per-id streaming state; in
streaming proxy/auto mode resolve the mapped name and, when it resolves,
open a `tool_use` content block and count the call. -/
def onToolInputStart (cfg : HCfg) (st : HState) (toolID toolName : String) :
    HState × List OutEvent :=
  if toolID = "" ∨ toolName = "" then (st, [])
  else
    let st := { st with
      currentToolInputID := toolID
      toolInputNames := mapSet st.toolInputNames toolID toolName
      toolInputBuffers := mapSet st.toolInputBuffers toolID ""
      toolInputHadDelta := mapSet st.toolInputHadDelta toolID false }
    if ¬cfg.isStream ∨ (cfg.toolCallMode ≠ "proxy" ∧ cfg.toolCallMode ≠ "auto") then
      (st, [])
    else
      let mappedName := mapOrchidsToolName cfg toolName
      match resolveToolName cfg mappedName with
      | none => (st, [])
      | some finalName =>
          let st := addOutputTokens cfg st finalName
          let st := { st with blockIndex := st.blockIndex + 1 }
          let idx := st.blockIndex
          let st := { st with
            toolBlocks := mapSet st.toolBlocks toolID idx
            toolCallCount := st.toolCallCount + 1 }
          (st, writeSSE cfg st (.contentBlockStart idx (.toolUse toolID finalName)))

/-- `model.tool-input-delta`: append to the buffer when it exists, flag a
nonempty delta, and in streaming proxy/auto mode forward it when the block
is open. -/
def onToolInputDelta (cfg : HCfg) (st : HState) (toolID delta : String) :
    HState × List OutEvent :=
  if toolID = "" then (st, [])
  else
    let st :=
      match st.toolInputBuffers.lookup toolID with
      | some buf => { st with toolInputBuffers := mapSet st.toolInputBuffers toolID (buf ++ delta) }
      | none => st
    let st :=
      if delta ≠ "" then
        { st with toolInputHadDelta := mapSet st.toolInputHadDelta toolID true }
      else st
    if ¬cfg.isStream ∨ (cfg.toolCallMode ≠ "proxy" ∧ cfg.toolCallMode ≠ "auto") ∨ delta = "" then
      (st, [])
    else
      match st.toolBlocks.lookup toolID with
      | none => (st, [])
      | some idx =>
          (st, writeSSE cfg st (.contentBlockDelta idx "input_json_delta" delta))

/-- Delete an id's streamed-input maps (`delete(toolInputBuffers, ...)`
and friends). -/
def dropToolStreamState (st : HState) (toolID : String) : HState :=
  { st with
    toolInputBuffers := mapDel st.toolInputBuffers toolID
    toolInputHadDelta := mapDel st.toolInputHadDelta toolID
    toolInputNames := mapDel st.toolInputNames toolID }

/-- The streaming-emission part of `model.tool-input-end`: in streaming
proxy/auto mode count the input, emit a late `input_json_delta` when no
delta was streamed, close the open block and drop its index. -/
def toolInputEndEmit (cfg : HCfg) (st : HState) (toolID inputStr : String) :
    HState × List OutEvent :=
  if cfg.isStream ∧ (cfg.toolCallMode = "proxy" ∨ cfg.toolCallMode = "auto") then
    let st := if inputStr ≠ "" then addOutputTokens cfg st inputStr else st
    match st.toolBlocks.lookup toolID with
    | some idx =>
        let evs1 :=
          if ¬ mapGetB st.toolInputHadDelta toolID ∧ inputStr ≠ "" then
            writeSSE cfg st (.contentBlockDelta idx "input_json_delta" inputStr)
          else []
        let evs2 := writeSSE cfg st (.contentBlockStop idx)
        ({ st with toolBlocks := mapDel st.toolBlocks toolID }, evs1 ++ evs2)
    | none => (st, ([] : List OutEvent))
  else (st, ([] : List OutEvent))

/-- The dispatch part of `model.tool-input-end`: unless the id is already
handled, resolve the mapped name and hand the finalized call to
`handleToolCall` (except in streaming proxy mode, where the block was
already emitted). -/
def toolInputEndDispatch (cfg : HCfg) (st : HState) (toolID name inputStr : String) :
    HState × List OutEvent :=
  if mapGetB st.toolCallHandled toolID then (st, [])
  else
    match resolveToolName cfg (mapOrchidsToolName cfg name) with
    | none => (st, [])
    | some finalName =>
        let st := { st with toolCallHandled := mapSet st.toolCallHandled toolID true }
        if cfg.toolCallMode = "proxy" ∧ cfg.isStream then (st, [])
        else handleToolCall cfg st ⟨toolID, finalName, inputStr⟩

/-- `model.tool-input-end`: close the streamed state; emit the late delta
and `content_block_stop`; delete the per-id maps; then dispatch. -/
def onToolInputEnd (cfg : HCfg) (st : HState) (toolID : String) :
    HState × List OutEvent :=
  if toolID = "" then (st, [])
  else
    let st :=
      if st.currentToolInputID = toolID then { st with currentToolInputID := "" }
      else st
    match st.toolInputNames.lookup toolID with
    | none => (dropToolStreamState st toolID, [])
    | some name =>
        if name = "" then (dropToolStreamState st toolID, [])
        else
          let inputStr :=
            match st.toolInputBuffers.lookup toolID with
            | some buf => trimSpace buf
            | none => ""
          let r := toolInputEndEmit cfg st toolID inputStr
          let st2 := dropToolStreamState r.1 toolID
          let r2 := toolInputEndDispatch cfg st2 toolID name inputStr
          (r2.1, r.2 ++ r2.2)

/-- `model.tool-call`: suppressed while a different input is open, when the
id is already handled, or while its streamed state still exists; otherwise
resolve the mapped name, mark the id handled and dispatch. -/
def onToolCallEvt (cfg : HCfg) (st : HState) (toolID toolName input : String) :
    HState × List OutEvent :=
  if toolID = "" then (st, [])
  else if st.currentToolInputID ≠ "" ∧ toolID ≠ st.currentToolInputID then (st, [])
  else if mapGetB st.toolCallHandled toolID then (st, [])
  else if (st.toolInputBuffers.lookup toolID).isSome then (st, [])
  else
    let mappedName := mapOrchidsToolName cfg toolName
    match resolveToolName cfg mappedName with
    | none => (st, [])
    | some resolvedName =>
        let call : ToolCall := ⟨toolID, resolvedName, input⟩
        let st := { st with toolCallHandled := mapSet st.toolCallHandled toolID true }
        handleToolCall cfg st call

/-- `model.tokens-used`. -/
def onTokensUsed (st : HState) (inTok outTok : Option Int) : HState :=
  if inTok = none ∧ outTok = none then st
  else setUsageTokens st (inTok.getD (-1)) (outTok.getD (-1))

/-- `model.finish`: record upstream usage; normalize the finish reason
(`tool-calls` → `tool_use`, `stop`/`end_turn` → `end_turn`, anything else
keeps the initial `end_turn`); in internal/auto mode a `tool_use` finish
with queued results defers to a follow-up turn instead of finalizing. -/
def onFinish (cfg : HCfg) (st : HState) (finishReason : Option String)
    (usage : Option (Option Int × Option Int)) : HState × List OutEvent :=
  let st :=
    match usage with
    | some (i, o) =>
        if i = none ∧ o = none then st
        else setUsageTokens st (i.getD (-1)) (o.getD (-1))
    | none => st
  let stopReason :=
    match finishReason with
    | some r => if r = "tool-calls" then "tool_use"
        else if r = "stop" ∨ r = "end_turn" then "end_turn"
        else "end_turn"
    | none => "end_turn"
  if stopReason = "tool_use" ∧ (cfg.toolCallMode = "internal" ∨ cfg.toolCallMode = "auto") then
    if st.internalToolResults ≠ [] then
      ({ st with internalNeedsFollowup := true }, [])
    else (st, [])
  else finishResponse cfg st stopReason

/-- `handleMessage(msg)`: drop everything after finalization, otherwise
dispatch on the `model.*` event type. -/
def handleMessage (cfg : HCfg) (st : HState) (ev : InEvent) :
    HState × List OutEvent :=
  if st.hasReturn then (st, [])
  else
    match ev with
    | .reasoningStart => onReasoningStart cfg st
    | .reasoningDelta delta => onReasoningDelta cfg st delta
    | .reasoningEnd => onReasoningEnd cfg st
    | .textStart => onTextStart cfg st
    | .textDelta delta => onTextDelta cfg st delta
    | .textEnd => onTextEnd cfg st
    | .toolInputStart id name => onToolInputStart cfg st id name
    | .toolInputDelta id delta => onToolInputDelta cfg st id delta
    | .toolInputEnd id => onToolInputEnd cfg st id
    | .toolCallEvt id name input => onToolCallEvt cfg st id name input
    | .tokensUsed i o => (onTokensUsed st i o, [])
    | .finish r u => onFinish cfg st r u

/-- Process a round's upstream events in arrival order. -/
def runEvents (cfg : HCfg) : HState → List InEvent → HState × List OutEvent
  | st, [] => (st, [])
  | st, ev :: rest =>
      let r := handleMessage cfg st ev
      let r' := runEvents cfg r.1 rest
      (r'.1, r.2 ++ r'.2)

end Orchids

namespace Orchids

/-- One upstream attempt as the round loop sees it: the events delivered
before `SendRequest` returned, and whether it returned nil. -/
structure Attempt where
  events : List InEvent
  ok : Bool
deriving Repr

/-- The inner attempt loop (lines 1520-1564): run the attempt's events; a
nil return exits the loop (`some` remaining attempts); a transport error
with no retries left finalizes as `end_turn` and returns (`none`);
otherwise the failed account is excluded, the loop waits `retry_delay`
and replays with the SAME round state — no reset happens here. -/
def runAttemptLoop (cfg : HCfg) : HState → List Attempt → Nat →
    HState × List OutEvent × Option (List Attempt)
  | st, [], _ => (st, [], none)
  | st, a :: rest, retries =>
      let r := runEvents cfg st a.events
      if a.ok then (r.1, r.2, some rest)
      else if retries = 0 then
        let f := finishResponse cfg r.1 "end_turn"
        (f.1, r.2 ++ f.2, none)
      else
        let r' := runAttemptLoop cfg r.1 rest (retries - 1)
        (r'.1, r.2 ++ r'.2.1, r'.2.2)

/-- The outer round loop (lines 1118-1622): clear the follow-up
bookkeeping, run the attempt loop; when an internal/auto round ended with
queued tool results needing a follow-up, append the tool_use/tool_result
pairs to the upstream conversation, `resetRoundState`, and loop. -/
def runRounds (cfg : HCfg) (maxRetries : Nat) :
    HState → List Attempt → Nat → HState × List OutEvent
  | st, _, 0 => (st, [])
  | st, attempts, fuel + 1 =>
      let st := { st with internalNeedsFollowup := false, internalToolResults := [] }
      let r := runAttemptLoop cfg st attempts maxRetries
      match r.2.2 with
      | none => (r.1, r.2.1)
      | some rest =>
          if (cfg.toolCallMode = "internal" ∨ cfg.toolCallMode = "auto") ∧
              r.1.internalNeedsFollowup then
            let st' := resetRoundState r.1
            let r' := runRounds cfg maxRetries st' rest fuel
            (r'.1, r.2.1 ++ r'.2)
          else (r.1, r.2.1)

/-- Whole-response trace of `HandleMessages` (lines 1101-1675): the
`message_start` frame is written once, before the first attempt, with the
fixed `msg_id` and the prompt estimate; then the round loop runs; if no
finalization happened, a final `end_turn` `finishResponse` is forced. -/
def handleMessagesRun (cfg : HCfg) (inputTokens0 : Int) (maxRetries : Nat)
    (attempts : List Attempt) : HState × List OutEvent :=
  let st0 := initState inputTokens0
  let startEvs := writeSSE cfg st0 (.messageStart cfg.msgId cfg.model st0.inputTokens)
  let r := runRounds cfg maxRetries st0 attempts (attempts.length + 1)
  let f := if ¬r.1.hasReturn then finishResponse cfg r.1 "end_turn" else (r.1, [])
  (f.1, startEvs ++ r.2 ++ f.2)

/-- The non-streaming response JSON's `stop_reason` field (lines
1636-1672). -/
def nonStreamStopReason (st : HState) : String :=
  if st.finalStopReason = "" then "end_turn" else st.finalStopReason

end Orchids

namespace Orchids

theorem lookup_filter_ne {α : Type} (m : List (String × α)) (k k' : String)
    (h : k' ≠ k) : (m.filter (fun p => p.1 ≠ k)).lookup k' = m.lookup k' := by
  induction m with
  | nil => simp
  | cons p rest ih =>
      obtain ⟨pk, pv⟩ := p
      simp only [ne_eq, decide_not] at ih ⊢
      by_cases hp : pk = k
      · subst hp
        have hb : (k' == pk) = false := by simpa using h
        simp [List.filter_cons, List.lookup, hb, ih]
      · by_cases hk' : k' = pk
        · subst hk'
          simp [List.filter_cons, hp, List.lookup]
        · have hb : (k' == pk) = false := by simpa using hk'
          simp [List.filter_cons, hp, List.lookup, hb, ih]

theorem lookup_filter_self {α : Type} (m : List (String × α)) (k : String) :
    (m.filter (fun p => p.1 ≠ k)).lookup k = none := by
  induction m with
  | nil => simp
  | cons p rest ih =>
      obtain ⟨pk, pv⟩ := p
      simp only [ne_eq, decide_not] at ih ⊢
      by_cases hp : pk = k
      · subst hp
        rw [List.filter_cons]
        have hcond : (!decide (pk = pk)) = false := by simp
        rw [hcond]
        simp only [Bool.false_eq_true, if_false, ite_false]
        exact ih
      · have hb : (k == pk) = false := beq_eq_false_iff_ne.mpr (fun hh => hp hh.symm)
        rw [List.filter_cons]
        have hcond : (!decide (pk = k)) = true := by simpa using hp
        rw [hcond]
        simp only [if_true, ite_true, List.lookup, hb]
        exact ih

theorem lookup_mapSet_self {α : Type} (m : List (String × α)) (k : String) (v : α) :
    (mapSet m k v).lookup k = some v := by
  simp [mapSet, List.lookup]

theorem lookup_mapSet_ne {α : Type} (m : List (String × α)) (k k' : String) (v : α)
    (h : k' ≠ k) : (mapSet m k v).lookup k' = m.lookup k' := by
  have hb : (k' == k) = false := by simpa using h
  have h2 := lookup_filter_ne m k k' h
  simp only [ne_eq, decide_not] at h2
  simp [mapSet, List.lookup, hb, h2]

theorem lookup_mapDel_self {α : Type} (m : List (String × α)) (k : String) :
    (mapDel m k).lookup k = none :=
  lookup_filter_self m k

theorem lookup_mapDel_ne {α : Type} (m : List (String × α)) (k k' : String)
    (h : k' ≠ k) : (mapDel m k).lookup k' = m.lookup k' :=
  lookup_filter_ne m k k' h

theorem mapGetB_set_self (m : List (String × Bool)) (k : String) (v : Bool) :
    mapGetB (mapSet m k v) k = v := by
  simp [mapGetB, lookup_mapSet_self]

theorem mapGetB_set_ne (m : List (String × Bool)) (k k' : String) (v : Bool)
    (h : k' ≠ k) : mapGetB (mapSet m k v) k' = mapGetB m k' := by
  simp [mapGetB, lookup_mapSet_ne m k k' v h]

end Orchids

namespace Orchids

@[simp] theorem addOutputTokens_finalStopReason (cfg : HCfg) (st : HState) (t : String) :
    (addOutputTokens cfg st t).finalStopReason = st.finalStopReason := by
  unfold addOutputTokens; split_ifs <;> rfl

@[simp] theorem addOutputTokens_hasReturn (cfg : HCfg) (st : HState) (t : String) :
    (addOutputTokens cfg st t).hasReturn = st.hasReturn := by
  unfold addOutputTokens; split_ifs <;> rfl

@[simp] theorem addOutputTokens_toolCallHandled (cfg : HCfg) (st : HState) (t : String) :
    (addOutputTokens cfg st t).toolCallHandled = st.toolCallHandled := by
  unfold addOutputTokens; split_ifs <;> rfl

@[simp] theorem addOutputTokens_toolInputBuffers (cfg : HCfg) (st : HState) (t : String) :
    (addOutputTokens cfg st t).toolInputBuffers = st.toolInputBuffers := by
  unfold addOutputTokens; split_ifs <;> rfl

@[simp] theorem addOutputTokens_toolInputNames (cfg : HCfg) (st : HState) (t : String) :
    (addOutputTokens cfg st t).toolInputNames = st.toolInputNames := by
  unfold addOutputTokens; split_ifs <;> rfl

@[simp] theorem addOutputTokens_toolInputHadDelta (cfg : HCfg) (st : HState) (t : String) :
    (addOutputTokens cfg st t).toolInputHadDelta = st.toolInputHadDelta := by
  unfold addOutputTokens; split_ifs <;> rfl

@[simp] theorem addOutputTokens_toolBlocks (cfg : HCfg) (st : HState) (t : String) :
    (addOutputTokens cfg st t).toolBlocks = st.toolBlocks := by
  unfold addOutputTokens; split_ifs <;> rfl

@[simp] theorem addOutputTokens_pendingToolCalls (cfg : HCfg) (st : HState) (t : String) :
    (addOutputTokens cfg st t).pendingToolCalls = st.pendingToolCalls := by
  unfold addOutputTokens; split_ifs <;> rfl

@[simp] theorem addOutputTokens_toolCallCount (cfg : HCfg) (st : HState) (t : String) :
    (addOutputTokens cfg st t).toolCallCount = st.toolCallCount := by
  unfold addOutputTokens; split_ifs <;> rfl

@[simp] theorem addOutputTokens_currentToolInputID (cfg : HCfg) (st : HState) (t : String) :
    (addOutputTokens cfg st t).currentToolInputID = st.currentToolInputID := by
  unfold addOutputTokens; split_ifs <;> rfl

@[simp] theorem finalizeOutputTokens_finalStopReason (cfg : HCfg) (st : HState) :
    (finalizeOutputTokens cfg st).finalStopReason = st.finalStopReason := by
  unfold finalizeOutputTokens; split_ifs <;> rfl

@[simp] theorem finalizeOutputTokens_hasReturn (cfg : HCfg) (st : HState) :
    (finalizeOutputTokens cfg st).hasReturn = st.hasReturn := by
  unfold finalizeOutputTokens; split_ifs <;> rfl

@[simp] theorem setUsageTokens_finalStopReason (st : HState) (i o : Int) :
    (setUsageTokens st i o).finalStopReason = st.finalStopReason := rfl

@[simp] theorem setUsageTokens_hasReturn (st : HState) (i o : Int) :
    (setUsageTokens st i o).hasReturn = st.hasReturn := rfl

@[simp] theorem setUsageTokens_toolCallCount (st : HState) (i o : Int) :
    (setUsageTokens st i o).toolCallCount = st.toolCallCount := rfl

@[simp] theorem setUsageTokens_pendingToolCalls (st : HState) (i o : Int) :
    (setUsageTokens st i o).pendingToolCalls = st.pendingToolCalls := rfl

theorem flushCalls_finalStopReason (cfg : HCfg) (final : Bool) (st : HState)
    (calls : List ToolCall) :
    (flushCalls cfg final st calls).1.finalStopReason = st.finalStopReason := by
  induction calls generalizing st with
  | nil => rfl
  | cons c rest ih =>
      unfold flushCalls
      by_cases hs : cfg.isStream
      · simp only [hs, ite_true]
        rw [ih]
        unfold emitToolCallStream
        split_ifs <;> simp
      · simp only [hs, ite_false]
        rw [ih]
        unfold emitToolCallNonStream
        simp

end Orchids

namespace Orchids

/-- Does the output event open a `tool_use` content block? -/
def isToolUseStart : OutEvent → Bool
  | .contentBlockStart _ (.toolUse _ _) => true
  | _ => false

/-- A concrete streaming proxy-mode configuration. -/
def proxyStreamCfg : HCfg :=
  { isStream := true, toolCallMode := "proxy", msgId := "msg_1",
    model := "claude", allowedTools := [], similarTool := fun _ => none,
    estimate := fun s => (s.length : Int), outputTokenMode := "final" }

/-- Claim C1 counterexample: in streaming proxy mode the upstream opens and
closes one tool input (a `tool_use` block is emitted to the client) and
then finishes with reason `stop`; the final stop reason is `end_turn`, not
`tool_use` — the code only downgrades `tool_use`, it never selects
`tool_use` because a tool block was emitted. -/
theorem stop_reason_counterexample :
    ((runEvents proxyStreamCfg (initState 5)
        [.toolInputStart "T1" "bash", .toolInputEnd "T1",
         .finish (some "stop") none]).2.countP isToolUseStart) = 1 ∧
    (runEvents proxyStreamCfg (initState 5)
        [.toolInputStart "T1" "bash", .toolInputEnd "T1",
         .finish (some "stop") none]).1.finalStopReason = "end_turn" ∧
    "end_turn" ≠ "tool_use" := by
  refine ⟨by decide, by decide, by decide⟩

/-- Claim C1 (amended): when the upstream finish reason selects `tool_use`
(reason `tool-calls`) in proxy mode, the final stop reason — recorded in
the state, written in the streaming `message_delta`, and used by the
non-streaming response — is `end_turn` exactly when no tool block was
emitted and none is pending, and `tool_use` whenever one was. -/
theorem stop_reason_normalization :
    ∀ (cfg : HCfg) (st : HState),
      cfg.toolCallMode = "proxy" → st.hasReturn = false →
      ((st.toolCallCount = 0 ∧ st.pendingToolCalls = []) →
        (handleMessage cfg st (.finish (some "tool-calls") none)).1.finalStopReason
          = "end_turn" ∧
        nonStreamStopReason
          (handleMessage cfg st (.finish (some "tool-calls") none)).1 = "end_turn" ∧
        (cfg.isStream = true →
          OutEvent.messageDelta "end_turn"
              (handleMessage cfg st (.finish (some "tool-calls") none)).1.outputTokens ∈
            (handleMessage cfg st (.finish (some "tool-calls") none)).2)) ∧
      ((st.toolCallCount ≠ 0 ∨ st.pendingToolCalls ≠ []) →
        (handleMessage cfg st (.finish (some "tool-calls") none)).1.finalStopReason
          = "tool_use" ∧
        nonStreamStopReason
          (handleMessage cfg st (.finish (some "tool-calls") none)).1 = "tool_use" ∧
        (cfg.isStream = true →
          OutEvent.messageDelta "tool_use"
              (handleMessage cfg st (.finish (some "tool-calls") none)).1.outputTokens ∈
            (handleMessage cfg st (.finish (some "tool-calls") none)).2)) := by
  intro cfg st hmode hret
  have hdispatch : handleMessage cfg st (.finish (some "tool-calls") none) =
      finishResponse cfg st "tool_use" := by
    unfold handleMessage onFinish
    rw [hret]
    simp only [Bool.false_eq_true, if_false, ite_false, hmode]
    norm_num
    intro h
    rcases h with h | h <;> exact absurd h (by decide)
  rw [hdispatch]
  have hfinish : ∀ (stop : String),
      (finishResponse cfg st stop).1.finalStopReason =
        (if stop = "tool_use" ∧ st.toolCallCount = 0 ∧ st.pendingToolCalls = []
          then "end_turn" else stop) := by
    intro stop
    unfold finishResponse
    rw [hret]
    simp only [Bool.false_eq_true, if_false, ite_false]
    split_ifs with hc <;>
      · simp only [finalizeOutputTokens_finalStopReason]
        unfold flushPendingToolCalls
        split_ifs <;> simp [flushCalls_finalStopReason]
  constructor
  · intro hzero
    obtain ⟨hcount, hpending⟩ := hzero
    have hcond : ("tool_use" = "tool_use" ∧ st.toolCallCount = 0 ∧
        st.pendingToolCalls = []) := ⟨rfl, hcount, hpending⟩
    have hstop : (finishResponse cfg st "tool_use").1.finalStopReason = "end_turn" := by
      rw [hfinish "tool_use", if_pos hcond]
    refine ⟨hstop, ?_, ?_⟩
    · simp only [nonStreamStopReason, hstop]
      decide
    · intro hs
      unfold finishResponse
      rw [if_pos hcond, hret]
      simp only [Bool.false_eq_true, if_false, ite_false, hs, if_true, ite_true]
      simp [writeFinalSSE, hs]
  · intro hsome
    have hcond : ¬ ("tool_use" = "tool_use" ∧ st.toolCallCount = 0 ∧
        st.pendingToolCalls = []) := by
      intro hc
      rcases hsome with h | h
      · exact h hc.2.1
      · exact h hc.2.2
    have hstop : (finishResponse cfg st "tool_use").1.finalStopReason = "tool_use" := by
      rw [hfinish "tool_use", if_neg hcond]
    refine ⟨hstop, ?_, ?_⟩
    · simp only [nonStreamStopReason, hstop]
      decide
    · intro hs
      unfold finishResponse
      rw [if_neg hcond, hret]
      simp only [Bool.false_eq_true, if_false, ite_false, hs, if_true, ite_true]
      simp [writeFinalSSE, hs]

/-- Witness for C1 (amended): from the initial state (no tool blocks) a
`tool-calls` finish ends as `end_turn`; with one counted tool block it ends
as `tool_use`. -/
theorem stop_reason_normalization_witness :
    (handleMessage proxyStreamCfg (initState 5)
        (.finish (some "tool-calls") none)).1.finalStopReason = "end_turn" ∧
    (handleMessage proxyStreamCfg
        { initState 5 with toolCallCount := 1 }
        (.finish (some "tool-calls") none)).1.finalStopReason = "tool_use" := by
  constructor
  · exact ((stop_reason_normalization proxyStreamCfg (initState 5) rfl rfl).1
      ⟨rfl, rfl⟩).1
  · exact ((stop_reason_normalization proxyStreamCfg
      { initState 5 with toolCallCount := 1 } rfl rfl).2 (Or.inl (by decide))).1

end Orchids


namespace Orchids

/-- Is the output event a `message_start` frame? -/
def isMessageStart : OutEvent → Bool
  | .messageStart _ _ _ => true
  | _ => false

/-- Number of `message_start` frames in a trace. -/
def msCount (l : List OutEvent) : Nat :=
  l.countP isMessageStart

theorem msCount_nil : msCount [] = 0 := by
  simp [msCount]

theorem msCount_append (a b : List OutEvent) :
    msCount (a ++ b) = msCount a + msCount b := by
  simp [msCount, List.countP_append]

theorem msCount_singleton_ne (ev : OutEvent) (h : isMessageStart ev = false) :
    msCount [ev] = 0 := by
  simp [msCount, List.countP_cons, h]

theorem msCount_writeSSE (cfg : HCfg) (st : HState) (ev : OutEvent)
    (h : isMessageStart ev = false) : msCount (writeSSE cfg st ev) = 0 := by
  unfold writeSSE
  split_ifs
  · exact msCount_singleton_ne ev h
  · exact msCount_nil

theorem msCount_writeFinalSSE (cfg : HCfg) (ev : OutEvent)
    (h : isMessageStart ev = false) : msCount (writeFinalSSE cfg ev) = 0 := by
  unfold writeFinalSSE
  split_ifs
  · exact msCount_singleton_ne ev h
  · exact msCount_nil

theorem msCount_emitToolCallStream (cfg : HCfg) (final : Bool) (st : HState)
    (call : ToolCall) (idx : Int) :
    msCount (emitToolCallStream cfg final st call idx).2 = 0 := by
  unfold emitToolCallStream
  split_ifs
  · exact msCount_nil
  all_goals
    simp only [msCount_append]
    simp [msCount_writeSSE, msCount_writeFinalSSE, isMessageStart]

theorem msCount_flushCalls (cfg : HCfg) (final : Bool) (st : HState)
    (calls : List ToolCall) : msCount (flushCalls cfg final st calls).2 = 0 := by
  induction calls generalizing st with
  | nil => exact msCount_nil
  | cons c rest ih =>
      unfold flushCalls
      by_cases hs : cfg.isStream
      · simp only [hs, ite_true, msCount_append]
        rw [msCount_emitToolCallStream, ih]
      · simp only [hs, ite_false, msCount_append, Bool.false_eq_true]
        rw [msCount_nil, ih]

theorem msCount_flushPendingToolCalls (cfg : HCfg) (final : Bool) (st : HState)
    (stop : String) : msCount (flushPendingToolCalls cfg final st stop).2 = 0 := by
  unfold flushPendingToolCalls
  dsimp only
  split_ifs
  all_goals
    first
      | exact msCount_nil
      | rw [msCount_flushCalls]

theorem msCount_finishResponse (cfg : HCfg) (st : HState) (stop : String) :
    msCount (finishResponse cfg st stop).2 = 0 := by
  unfold finishResponse
  split_ifs <;>
    simp [msCount_append, msCount_nil, msCount_flushPendingToolCalls,
      msCount_writeFinalSSE, isMessageStart]

theorem msCount_handleToolCall (cfg : HCfg) (st : HState) (call : ToolCall) :
    msCount (handleToolCall cfg st call).2 = 0 := by
  unfold handleToolCall
  dsimp only
  repeat' split
  all_goals
    first
      | exact msCount_nil
      | rw [msCount_emitToolCallStream]

theorem msCount_ite (c : Prop) [Decidable c] (a b : List OutEvent) :
    msCount (if c then a else b) = if c then msCount a else msCount b := by
  split_ifs <;> rfl

theorem msCount_toolInputEndEmit (cfg : HCfg) (st : HState) (id inp : String) :
    msCount (toolInputEndEmit cfg st id inp).2 = 0 := by
  unfold toolInputEndEmit
  dsimp only
  repeat' split
  all_goals
    first
      | exact msCount_nil
      | (simp [msCount_append, msCount_nil, msCount_singleton_ne,
           isMessageStart, writeSSE, msCount_ite, ite_self,
           msCount, List.countP_cons, List.countP_nil]
         first
           | (constructor <;> intro a h1 h2 ha <;> subst ha <;> rfl)
           | (intro a h1 h2 ha; subst ha; rfl))

theorem msCount_toolInputEndDispatch (cfg : HCfg) (st : HState)
    (id name inp : String) :
    msCount (toolInputEndDispatch cfg st id name inp).2 = 0 := by
  unfold toolInputEndDispatch
  dsimp only
  repeat' split
  all_goals
    first
      | exact msCount_nil
      | rw [msCount_handleToolCall]

theorem msCount_onToolInputEnd (cfg : HCfg) (st : HState) (id : String) :
    msCount (onToolInputEnd cfg st id).2 = 0 := by
  unfold onToolInputEnd
  dsimp only
  repeat' split
  all_goals
    first
      | exact msCount_nil
      | (rw [msCount_append, msCount_toolInputEndEmit, msCount_toolInputEndDispatch])

end Orchids

namespace Orchids

theorem msCount_onToolInputStart (cfg : HCfg) (st : HState) (id name : String) :
    msCount (onToolInputStart cfg st id name).2 = 0 := by
  unfold onToolInputStart
  dsimp only
  repeat' split
  all_goals
    first
      | exact msCount_nil
      | exact msCount_writeSSE _ _ _ rfl

theorem msCount_onToolInputDelta (cfg : HCfg) (st : HState) (id delta : String) :
    msCount (onToolInputDelta cfg st id delta).2 = 0 := by
  unfold onToolInputDelta
  dsimp only
  repeat' split
  all_goals
    first
      | exact msCount_nil
      | exact msCount_writeSSE _ _ _ rfl

theorem msCount_onToolCallEvt (cfg : HCfg) (st : HState) (id name input : String) :
    msCount (onToolCallEvt cfg st id name input).2 = 0 := by
  unfold onToolCallEvt
  dsimp only
  repeat' split
  all_goals
    first
      | exact msCount_nil
      | rw [msCount_handleToolCall]

theorem msCount_onFinish (cfg : HCfg) (st : HState) (r : Option String)
    (u : Option (Option Int × Option Int)) :
    msCount (onFinish cfg st r u).2 = 0 := by
  unfold onFinish
  dsimp only
  repeat' split
  all_goals
    first
      | exact msCount_nil
      | rw [msCount_finishResponse]

theorem msCount_handleMessage (cfg : HCfg) (st : HState) (ev : InEvent) :
    msCount (handleMessage cfg st ev).2 = 0 := by
  unfold handleMessage
  split_ifs
  · exact msCount_nil
  · cases ev with
    | reasoningStart => exact msCount_writeSSE _ _ _ rfl
    | reasoningDelta d => exact msCount_writeSSE _ _ _ rfl
    | reasoningEnd => exact msCount_writeSSE _ _ _ rfl
    | textStart => exact msCount_writeSSE _ _ _ rfl
    | textDelta d => exact msCount_writeSSE _ _ _ rfl
    | textEnd => exact msCount_writeSSE _ _ _ rfl
    | toolInputStart id name => exact msCount_onToolInputStart cfg st id name
    | toolInputDelta id d => exact msCount_onToolInputDelta cfg st id d
    | toolInputEnd id => exact msCount_onToolInputEnd cfg st id
    | toolCallEvt id name input => exact msCount_onToolCallEvt cfg st id name input
    | tokensUsed i o => exact msCount_nil
    | finish r u => exact msCount_onFinish cfg st r u

theorem msCount_runEvents (cfg : HCfg) (st : HState) (evs : List InEvent) :
    msCount (runEvents cfg st evs).2 = 0 := by
  induction evs generalizing st with
  | nil => exact msCount_nil
  | cons e rest ih =>
      unfold runEvents
      dsimp only
      rw [msCount_append, msCount_handleMessage, ih]

theorem msCount_runAttemptLoop (cfg : HCfg) (st : HState)
    (attempts : List Attempt) (retries : Nat) :
    msCount (runAttemptLoop cfg st attempts retries).2.1 = 0 := by
  induction attempts generalizing st retries with
  | nil => exact msCount_nil
  | cons a rest ih =>
      unfold runAttemptLoop
      dsimp only
      split_ifs
      · rw [msCount_runEvents]
      · rw [msCount_append, msCount_runEvents, msCount_finishResponse]
      · rw [msCount_append, msCount_runEvents, ih]

theorem msCount_runRounds (cfg : HCfg) (maxRetries : Nat) (st : HState)
    (attempts : List Attempt) (fuel : Nat) :
    msCount (runRounds cfg maxRetries st attempts fuel).2 = 0 := by
  induction fuel generalizing st attempts with
  | zero => exact msCount_nil
  | succ n ih =>
      unfold runRounds
      dsimp only
      split
      · rw [msCount_runAttemptLoop]
      · split_ifs
        · rw [msCount_append, msCount_runAttemptLoop, ih]
        · rw [msCount_runAttemptLoop]

end Orchids

namespace Orchids

/-- Claim C3 counterexample: a transport failure after one text block was
already streamed, followed by a retry attempt, does NOT reset the
per-round state: the retry's first text block is emitted at index 1 (a
reset would restart the block index at -1 and emit index 0 again). Only
the internal follow-up path calls `resetRoundState`. -/
theorem retry_no_reset_counterexample :
    (OutEvent.contentBlockStart 1 CBKind.text ∈
      (handleMessagesRun proxyStreamCfg 5 3
        [⟨[.textStart, .textDelta "A"], false⟩,
         ⟨[.textStart, .textDelta "B", .textEnd, .finish (some "stop") none], true⟩]).2) ∧
    ((handleMessagesRun proxyStreamCfg 5 3
        [⟨[.textStart, .textDelta "A"], false⟩,
         ⟨[.textStart, .textDelta "B", .textEnd, .finish (some "stop") none], true⟩]).2.countP
      (fun e => e = OutEvent.contentBlockStart 0 CBKind.text)) = 1 ∧
    (runEvents proxyStreamCfg (initState 5) [.textStart, .textDelta "A"]).1.blockIndex = 0 ∧
    (resetRoundState
      (runEvents proxyStreamCfg (initState 5) [.textStart, .textDelta "A"]).1).blockIndex = -1 := by
  exact ⟨by decide, by decide, by decide, by decide⟩

/-- Claim C3 (amended): in a streaming response the `message_start` frame
is written exactly once, first in the trace, carrying the fixed `msg_id`,
whatever the retry/follow-up schedule does; and `resetRoundState`
(invoked only for internal follow-up turns, not for transport retries)
clears the block index, the tool maps, the token tallies and the stop
reason while the `msg_id` lives in the per-request configuration and
cannot change. -/
theorem message_start_once :
    ∀ (cfg : HCfg) (inputTokens0 : Int) (maxRetries : Nat) (attempts : List Attempt),
      cfg.isStream = true →
      (msCount (handleMessagesRun cfg inputTokens0 maxRetries attempts).2 = 1 ∧
        ∃ rest, (handleMessagesRun cfg inputTokens0 maxRetries attempts).2 =
          OutEvent.messageStart cfg.msgId cfg.model inputTokens0 :: rest) ∧
      (∀ st : HState,
        (resetRoundState st).blockIndex = -1 ∧
        (resetRoundState st).toolBlocks = [] ∧
        (resetRoundState st).toolCallHandled = [] ∧
        (resetRoundState st).toolInputBuffers = [] ∧
        (resetRoundState st).toolInputNames = [] ∧
        (resetRoundState st).toolInputHadDelta = [] ∧
        (resetRoundState st).pendingToolCalls = [] ∧
        (resetRoundState st).toolCallCount = 0 ∧
        (resetRoundState st).outputTokens = 0 ∧
        (resetRoundState st).outputBuilder = "" ∧
        (resetRoundState st).finalStopReason = "") := by
  intro cfg inputTokens0 maxRetries attempts hs
  constructor
  · have hstart : writeSSE cfg (initState inputTokens0)
        (.messageStart cfg.msgId cfg.model (initState inputTokens0).inputTokens) =
        [.messageStart cfg.msgId cfg.model inputTokens0] := by
      unfold writeSSE initState
      rw [if_pos ⟨hs, by simp⟩]
    constructor
    · unfold handleMessagesRun
      dsimp only
      rw [hstart]
      rw [msCount_append, msCount_append]
      have h1 : msCount [OutEvent.messageStart cfg.msgId cfg.model inputTokens0] = 1 := by
        simp [msCount, List.countP_cons, isMessageStart]
      rw [h1, msCount_runRounds]
      by_cases hret : (runRounds cfg maxRetries (initState inputTokens0) attempts
          (attempts.length + 1)).1.hasReturn = true
      · rw [if_neg (by simpa using hret)]
        dsimp only
        rw [msCount_nil]
      · rw [if_pos (by simpa using hret)]
        rw [msCount_finishResponse]
    · unfold handleMessagesRun
      dsimp only
      rw [hstart]
      exact ⟨_, rfl⟩
  · intro st
    refine ⟨rfl, rfl, rfl, rfl, rfl, rfl, rfl, rfl, rfl, rfl, rfl⟩

/-- Witness for C3 (amended) at a concrete schedule: a failing then a
succeeding attempt produce exactly one `message_start`, at the head, with
the configured `msg_id`. -/
theorem message_start_once_witness :
    msCount (handleMessagesRun proxyStreamCfg 5 3
      [⟨[.textStart, .textDelta "A"], false⟩,
       ⟨[.textStart, .textDelta "B", .textEnd, .finish (some "stop") none], true⟩]).2 = 1 ∧
    ∃ rest, (handleMessagesRun proxyStreamCfg 5 3
      [⟨[.textStart, .textDelta "A"], false⟩,
       ⟨[.textStart, .textDelta "B", .textEnd, .finish (some "stop") none], true⟩]).2 =
      OutEvent.messageStart "msg_1" "claude" 5 :: rest :=
  (message_start_once proxyStreamCfg 5 3
    [⟨[.textStart, .textDelta "A"], false⟩,
     ⟨[.textStart, .textDelta "B", .textEnd, .finish (some "stop") none], true⟩] rfl).1

end Orchids

namespace Orchids

/-- Does the output event open a `tool_use` content block for this id? -/
def isToolUseStartFor (id : String) : OutEvent → Bool
  | .contentBlockStart _ (.toolUse i _) => i = id
  | _ => false

/-- Number of `tool_use` blocks opened for an id in a trace. -/
def tuCount (id : String) (l : List OutEvent) : Nat :=
  l.countP (isToolUseStartFor id)

theorem tuCount_nil (id : String) : tuCount id [] = 0 := by
  simp [tuCount]

theorem tuCount_append (id : String) (a b : List OutEvent) :
    tuCount id (a ++ b) = tuCount id a + tuCount id b := by
  simp [tuCount, List.countP_append]

/-- Is the input event a `tool-input-start` for this id? -/
def isStartFor (id : String) : InEvent → Bool
  | .toolInputStart i _ => i = id
  | _ => false

/-- Is the input event a `tool-call` for this id? -/
def isToolCallFor (id : String) : InEvent → Bool
  | .toolCallEvt i _ _ => i = id
  | _ => false

/-- No `tool-input-start` for this id occurs in the event list. -/
def noStartFor (id : String) (evs : List InEvent) : Bool :=
  evs.all (fun e => !(isStartFor id e))

/-- Well-formed upstream streams for one id: after the id's
`tool-input-start` or `tool-call`, no further `tool-input-start` for it
arrives (each id streams its input at most once, and never after its
one-shot call). -/
def wfFor (id : String) : List InEvent → Bool
  | [] => true
  | e :: rest =>
      ((!(isStartFor id e || isToolCallFor id e)) || noStartFor id rest) &&
        wfFor id rest

/-- The observable tool state of one id: handled flag, whether streamed
input exists, the recorded upstream name, and the open block index. -/
def toolStateAt (st : HState) (id : String) :
    Bool × Bool × Option String × Option Int :=
  (mapGetB st.toolCallHandled id, (st.toolInputBuffers.lookup id).isSome,
   st.toolInputNames.lookup id, st.toolBlocks.lookup id)

/-- No trace of the id yet. -/
def cleanFor (st : HState) (id : String) : Prop :=
  mapGetB st.toolCallHandled id = false ∧
  st.toolInputBuffers.lookup id = none ∧
  st.toolInputNames.lookup id = none ∧
  st.toolBlocks.lookup id = none

/-- Streamed state exists but its name does not resolve (no block was
opened for it). -/
def bufSilentFor (cfg : HCfg) (st : HState) (id : String) : Prop :=
  mapGetB st.toolCallHandled id = false ∧
  (st.toolInputBuffers.lookup id).isSome = true ∧
  (∃ n, st.toolInputNames.lookup id = some n ∧ n ≠ "" ∧
    resolveToolName cfg (mapOrchidsToolName cfg n) = none) ∧
  st.toolBlocks.lookup id = none

/-- Streamed state exists, its name resolves, and its block is open. -/
def bufEmittedFor (cfg : HCfg) (st : HState) (id : String) : Prop :=
  mapGetB st.toolCallHandled id = false ∧
  (st.toolInputBuffers.lookup id).isSome = true ∧
  (∃ n, st.toolInputNames.lookup id = some n ∧ n ≠ "" ∧
    (resolveToolName cfg (mapOrchidsToolName cfg n)).isSome = true) ∧
  (st.toolBlocks.lookup id).isSome = true

/-- The id is marked handled and its streamed state is gone. -/
def handledFor (st : HState) (id : String) : Prop :=
  mapGetB st.toolCallHandled id = true ∧
  st.toolInputBuffers.lookup id = none ∧
  st.toolInputNames.lookup id = none ∧
  st.toolBlocks.lookup id = none

end Orchids

namespace Orchids

@[simp] theorem emitToolCallStream_toolCallHandled (cfg : HCfg) (final : Bool)
    (st : HState) (call : ToolCall) (idx : Int) :
    (emitToolCallStream cfg final st call idx).1.toolCallHandled = st.toolCallHandled := by
  unfold emitToolCallStream
  dsimp only
  split_ifs <;> simp

@[simp] theorem emitToolCallStream_toolInputBuffers (cfg : HCfg) (final : Bool)
    (st : HState) (call : ToolCall) (idx : Int) :
    (emitToolCallStream cfg final st call idx).1.toolInputBuffers = st.toolInputBuffers := by
  unfold emitToolCallStream
  dsimp only
  split_ifs <;> simp

@[simp] theorem emitToolCallStream_toolInputNames (cfg : HCfg) (final : Bool)
    (st : HState) (call : ToolCall) (idx : Int) :
    (emitToolCallStream cfg final st call idx).1.toolInputNames = st.toolInputNames := by
  unfold emitToolCallStream
  dsimp only
  split_ifs <;> simp

@[simp] theorem emitToolCallStream_toolBlocks (cfg : HCfg) (final : Bool)
    (st : HState) (call : ToolCall) (idx : Int) :
    (emitToolCallStream cfg final st call idx).1.toolBlocks = st.toolBlocks := by
  unfold emitToolCallStream
  dsimp only
  split_ifs <;> simp

@[simp] theorem emitToolCallStream_pendingToolCalls (cfg : HCfg) (final : Bool)
    (st : HState) (call : ToolCall) (idx : Int) :
    (emitToolCallStream cfg final st call idx).1.pendingToolCalls = st.pendingToolCalls := by
  unfold emitToolCallStream
  dsimp only
  split_ifs <;> simp

@[simp] theorem emitToolCallStream_hasReturn (cfg : HCfg) (final : Bool)
    (st : HState) (call : ToolCall) (idx : Int) :
    (emitToolCallStream cfg final st call idx).1.hasReturn = st.hasReturn := by
  unfold emitToolCallStream
  dsimp only
  split_ifs <;> simp

@[simp] theorem emitToolCallNonStream_toolCallHandled (cfg : HCfg) (st : HState)
    (call : ToolCall) :
    (emitToolCallNonStream cfg st call).toolCallHandled = st.toolCallHandled := by
  unfold emitToolCallNonStream
  simp

@[simp] theorem emitToolCallNonStream_toolInputBuffers (cfg : HCfg) (st : HState)
    (call : ToolCall) :
    (emitToolCallNonStream cfg st call).toolInputBuffers = st.toolInputBuffers := by
  unfold emitToolCallNonStream
  simp

@[simp] theorem emitToolCallNonStream_toolInputNames (cfg : HCfg) (st : HState)
    (call : ToolCall) :
    (emitToolCallNonStream cfg st call).toolInputNames = st.toolInputNames := by
  unfold emitToolCallNonStream
  simp

@[simp] theorem emitToolCallNonStream_toolBlocks (cfg : HCfg) (st : HState)
    (call : ToolCall) :
    (emitToolCallNonStream cfg st call).toolBlocks = st.toolBlocks := by
  unfold emitToolCallNonStream
  simp

@[simp] theorem emitToolCallNonStream_pendingToolCalls (cfg : HCfg) (st : HState)
    (call : ToolCall) :
    (emitToolCallNonStream cfg st call).pendingToolCalls = st.pendingToolCalls := by
  unfold emitToolCallNonStream
  simp

end Orchids

namespace Orchids

@[simp] theorem finalizeOutputTokens_toolCallHandled (cfg : HCfg) (st : HState) :
    (finalizeOutputTokens cfg st).toolCallHandled = st.toolCallHandled := by
  unfold finalizeOutputTokens; split_ifs <;> rfl

@[simp] theorem finalizeOutputTokens_toolInputBuffers (cfg : HCfg) (st : HState) :
    (finalizeOutputTokens cfg st).toolInputBuffers = st.toolInputBuffers := by
  unfold finalizeOutputTokens; split_ifs <;> rfl

@[simp] theorem finalizeOutputTokens_toolInputNames (cfg : HCfg) (st : HState) :
    (finalizeOutputTokens cfg st).toolInputNames = st.toolInputNames := by
  unfold finalizeOutputTokens; split_ifs <;> rfl

@[simp] theorem finalizeOutputTokens_toolBlocks (cfg : HCfg) (st : HState) :
    (finalizeOutputTokens cfg st).toolBlocks = st.toolBlocks := by
  unfold finalizeOutputTokens; split_ifs <;> rfl

@[simp] theorem finalizeOutputTokens_pendingToolCalls (cfg : HCfg) (st : HState) :
    (finalizeOutputTokens cfg st).pendingToolCalls = st.pendingToolCalls := by
  unfold finalizeOutputTokens; split_ifs <;> rfl

@[simp] theorem setUsageTokens_toolCallHandled (st : HState) (i o : Int) :
    (setUsageTokens st i o).toolCallHandled = st.toolCallHandled := rfl

@[simp] theorem setUsageTokens_toolInputBuffers (st : HState) (i o : Int) :
    (setUsageTokens st i o).toolInputBuffers = st.toolInputBuffers := rfl

@[simp] theorem setUsageTokens_toolInputNames (st : HState) (i o : Int) :
    (setUsageTokens st i o).toolInputNames = st.toolInputNames := rfl

@[simp] theorem setUsageTokens_toolBlocks (st : HState) (i o : Int) :
    (setUsageTokens st i o).toolBlocks = st.toolBlocks := rfl

/-- Finalized rounds drop every event unchanged. -/
theorem handleMessage_ret (cfg : HCfg) (st : HState) (ev : InEvent)
    (h : st.hasReturn = true) : handleMessage cfg st ev = (st, []) := by
  unfold handleMessage
  rw [if_pos h]

/-- The flush loop never touches the pending queue itself. -/
theorem flushCalls_pending (cfg : HCfg) (final : Bool) (st : HState)
    (calls : List ToolCall) :
    (flushCalls cfg final st calls).1.pendingToolCalls = st.pendingToolCalls := by
  induction calls generalizing st with
  | nil => rfl
  | cons c rest ih =>
      unfold flushCalls
      dsimp only
      by_cases hs : cfg.isStream
      · simp only [hs, ite_true]
        rw [ih]
        simp
      · simp only [hs, Bool.false_eq_true, ite_false]
        rw [ih]
        simp

/-- In proxy mode tool calls are always emitted eagerly at flush time. -/
theorem shouldEmitToolCalls_proxy (cfg : HCfg) (stop : String)
    (hmode : cfg.toolCallMode = "proxy") :
    shouldEmitToolCalls cfg stop = true := by
  unfold shouldEmitToolCalls
  rw [hmode]
  simp

/-- In proxy mode, flushing an empty pending queue only clears the queue
field and emits nothing. -/
theorem flushPendingToolCalls_empty (cfg : HCfg) (final : Bool) (st : HState)
    (stop : String) (hmode : cfg.toolCallMode = "proxy")
    (hp : st.pendingToolCalls = []) :
    flushPendingToolCalls cfg final st stop =
      ({ st with pendingToolCalls := [] }, []) := by
  unfold flushPendingToolCalls
  rw [shouldEmitToolCalls_proxy cfg stop hmode]
  dsimp only
  rw [hp]
  simp only [not_true, Bool.not_true, if_false, ite_false, Bool.false_eq_true]
  rfl

theorem finishResponse_pending (cfg : HCfg) (st : HState) (stop : String)
    (hmode : cfg.toolCallMode = "proxy") (hp : st.pendingToolCalls = []) :
    (finishResponse cfg st stop).1.pendingToolCalls = [] := by
  unfold finishResponse
  dsimp only
  split_ifs
  all_goals
    first
      | exact hp
      | (rw [flushPendingToolCalls_empty cfg true _ _ hmode (by simp [hp])]
         simp)

theorem handleToolCall_pending (cfg : HCfg) (st : HState) (call : ToolCall)
    (hmode : cfg.toolCallMode = "proxy") (hp : st.pendingToolCalls = []) :
    (handleToolCall cfg st call).1.pendingToolCalls = [] := by
  have hii : ¬ cfg.toolCallMode = "internal" := by rw [hmode]; decide
  have haa : ¬ cfg.toolCallMode = "auto" := by rw [hmode]; decide
  have hpp : ¬ cfg.toolCallMode ≠ "proxy" := by rw [hmode]; simp
  unfold handleToolCall
  dsimp only
  repeat' split
  all_goals
    first
      | exact hp
      | (exact absurd (by assumption) hii)
      | (exact absurd (by assumption) haa)
      | (exact absurd (by assumption) hpp)
      | simp [hp]

theorem toolInputEndEmit_pending (cfg : HCfg) (st : HState) (id inp : String) :
    (toolInputEndEmit cfg st id inp).1.pendingToolCalls = st.pendingToolCalls := by
  unfold toolInputEndEmit
  dsimp only
  repeat' split
  all_goals simp

theorem toolInputEndDispatch_pending (cfg : HCfg) (st : HState)
    (id name inp : String) (hmode : cfg.toolCallMode = "proxy")
    (hp : st.pendingToolCalls = []) :
    (toolInputEndDispatch cfg st id name inp).1.pendingToolCalls = [] := by
  unfold toolInputEndDispatch
  dsimp only
  repeat' split
  all_goals
    first
      | exact hp
      | (exact handleToolCall_pending _ _ _ hmode (by simp [hp]))
      | (simp [hp]; done)

theorem onToolInputEnd_pending (cfg : HCfg) (st : HState) (id : String)
    (hmode : cfg.toolCallMode = "proxy") (hp : st.pendingToolCalls = []) :
    (onToolInputEnd cfg st id).1.pendingToolCalls = [] := by
  unfold onToolInputEnd
  dsimp only
  repeat' split
  all_goals
    first
      | exact hp
      | (refine toolInputEndDispatch_pending _ _ _ _ _ hmode ?_
         simp [dropToolStreamState, toolInputEndEmit_pending, hp])
      | (simp [dropToolStreamState, hp]; done)

theorem onToolInputStart_pending (cfg : HCfg) (st : HState) (id name : String)
    (hp : st.pendingToolCalls = []) :
    (onToolInputStart cfg st id name).1.pendingToolCalls = [] := by
  unfold onToolInputStart
  dsimp only
  repeat' split
  all_goals simp [hp]

theorem onToolInputDelta_pending (cfg : HCfg) (st : HState) (id delta : String)
    (hp : st.pendingToolCalls = []) :
    (onToolInputDelta cfg st id delta).1.pendingToolCalls = [] := by
  unfold onToolInputDelta
  dsimp only
  repeat' split
  all_goals simp [hp]

theorem onToolCallEvt_pending (cfg : HCfg) (st : HState) (id name input : String)
    (hmode : cfg.toolCallMode = "proxy") (hp : st.pendingToolCalls = []) :
    (onToolCallEvt cfg st id name input).1.pendingToolCalls = [] := by
  unfold onToolCallEvt
  dsimp only
  repeat' split
  all_goals
    first
      | exact hp
      | (exact handleToolCall_pending _ _ _ hmode (by simp [hp]))

theorem onFinish_pending (cfg : HCfg) (st : HState) (r : Option String)
    (u : Option (Option Int × Option Int)) (hmode : cfg.toolCallMode = "proxy")
    (hp : st.pendingToolCalls = []) :
    (onFinish cfg st r u).1.pendingToolCalls = [] := by
  unfold onFinish
  dsimp only
  repeat' split
  all_goals
    first
      | exact hp
      | simp [hp]
      | (exact finishResponse_pending _ _ _ hmode hp)
      | (exact finishResponse_pending _ _ _ hmode (by simp [hp]))

/-- In proxy mode the pending-tool-call queue stays empty across every
event (tool calls are emitted eagerly, never queued). -/
theorem handleMessage_pending (cfg : HCfg) (st : HState) (ev : InEvent)
    (hmode : cfg.toolCallMode = "proxy") (hp : st.pendingToolCalls = []) :
    (handleMessage cfg st ev).1.pendingToolCalls = [] := by
  unfold handleMessage
  split_ifs
  · exact hp
  · cases ev with
    | reasoningStart => simp [onReasoningStart, hp]
    | reasoningDelta d =>
        unfold onReasoningDelta
        dsimp only
        repeat' split
        all_goals simp [hp]
    | reasoningEnd => simp [onReasoningEnd, hp]
    | textStart =>
        unfold onTextStart
        dsimp only
        repeat' split
        all_goals simp [hp]
    | textDelta d =>
        unfold onTextDelta
        dsimp only
        repeat' split
        all_goals simp [hp]
    | textEnd => simp [onTextEnd, hp]
    | toolInputStart id name => exact onToolInputStart_pending cfg st id name hp
    | toolInputDelta id d => exact onToolInputDelta_pending cfg st id d hp
    | toolInputEnd id => exact onToolInputEnd_pending cfg st id hmode hp
    | toolCallEvt id name input => exact onToolCallEvt_pending cfg st id name input hmode hp
    | tokensUsed i o =>
        unfold onTokensUsed
        dsimp only
        repeat' split
        all_goals simp [hp]
    | finish r u => exact onFinish_pending cfg st r u hmode hp

end Orchids

namespace Orchids

theorem isSome_false_eq_none {α : Type} {o : Option α} (h : o.isSome = false) :
    o = none := by
  cases o with
  | none => rfl
  | some v => simp at h

theorem tuCount_writeSSE (cfg : HCfg) (st : HState) (id : String) (ev : OutEvent)
    (h : isToolUseStartFor id ev = false) : tuCount id (writeSSE cfg st ev) = 0 := by
  unfold writeSSE
  split_ifs <;> simp [tuCount, h]

theorem tuCount_writeFinalSSE (cfg : HCfg) (id : String) (ev : OutEvent)
    (h : isToolUseStartFor id ev = false) : tuCount id (writeFinalSSE cfg ev) = 0 := by
  unfold writeFinalSSE
  split_ifs <;> simp [tuCount, h]

@[simp] theorem toolStateAt_addOutputTokens (cfg : HCfg) (st : HState)
    (t : String) (id : String) :
    toolStateAt (addOutputTokens cfg st t) id = toolStateAt st id := by
  simp [toolStateAt]

@[simp] theorem toolStateAt_setUsageTokens (st : HState) (i o : Int) (id : String) :
    toolStateAt (setUsageTokens st i o) id = toolStateAt st id := by
  simp [toolStateAt]

@[simp] theorem toolStateAt_finalizeOutputTokens (cfg : HCfg) (st : HState)
    (id : String) :
    toolStateAt (finalizeOutputTokens cfg st) id = toolStateAt st id := by
  simp [toolStateAt]

@[simp] theorem toolStateAt_emitToolCallStream (cfg : HCfg) (final : Bool)
    (st : HState) (call : ToolCall) (idx : Int) (id : String) :
    toolStateAt (emitToolCallStream cfg final st call idx).1 id = toolStateAt st id := by
  simp [toolStateAt]

@[simp] theorem toolStateAt_emitToolCallNonStream (cfg : HCfg) (st : HState)
    (call : ToolCall) (id : String) :
    toolStateAt (emitToolCallNonStream cfg st call) id = toolStateAt st id := by
  simp [toolStateAt]

theorem cleanFor_of_sameState {st st' : HState} {id : String}
    (h : toolStateAt st' id = toolStateAt st id) (hc : cleanFor st id) :
    cleanFor st' id := by
  unfold toolStateAt at h
  simp only [Prod.mk.injEq] at h
  obtain ⟨h1, h2, h3, h4⟩ := h
  obtain ⟨c1, c2, c3, c4⟩ := hc
  refine ⟨h1.trans c1, ?_, h3.trans c3, h4.trans c4⟩
  have hs : (st'.toolInputBuffers.lookup id).isSome = false := by
    rw [h2, c2]; rfl
  exact isSome_false_eq_none hs

theorem bufSilentFor_of_sameState {cfg : HCfg} {st st' : HState} {id : String}
    (h : toolStateAt st' id = toolStateAt st id) (hc : bufSilentFor cfg st id) :
    bufSilentFor cfg st' id := by
  unfold toolStateAt at h
  simp only [Prod.mk.injEq] at h
  obtain ⟨h1, h2, h3, h4⟩ := h
  obtain ⟨c1, c2, ⟨n, hn1, hn2, hn3⟩, c4⟩ := hc
  exact ⟨h1.trans c1, h2.trans c2, ⟨n, h3.trans hn1, hn2, hn3⟩, h4.trans c4⟩

theorem bufEmittedFor_of_sameState {cfg : HCfg} {st st' : HState} {id : String}
    (h : toolStateAt st' id = toolStateAt st id) (hc : bufEmittedFor cfg st id) :
    bufEmittedFor cfg st' id := by
  unfold toolStateAt at h
  simp only [Prod.mk.injEq] at h
  obtain ⟨h1, h2, h3, h4⟩ := h
  obtain ⟨c1, c2, ⟨n, hn1, hn2, hn3⟩, c4⟩ := hc
  exact ⟨h1.trans c1, h2.trans c2, ⟨n, h3.trans hn1, hn2, hn3⟩,
    by rw [h4]; exact c4⟩

theorem handledFor_of_sameState {st st' : HState} {id : String}
    (h : toolStateAt st' id = toolStateAt st id) (hc : handledFor st id) :
    handledFor st' id := by
  unfold toolStateAt at h
  simp only [Prod.mk.injEq] at h
  obtain ⟨h1, h2, h3, h4⟩ := h
  obtain ⟨c1, c2, c3, c4⟩ := hc
  refine ⟨h1.trans c1, ?_, h3.trans c3, h4.trans c4⟩
  have hs : (st'.toolInputBuffers.lookup id).isSome = false := by
    rw [h2, c2]; rfl
  exact isSome_false_eq_none hs

end Orchids

namespace Orchids

theorem toolStateAt_onToolInputStart (cfg : HCfg) (st : HState) (i n id : String)
    (hne : i ≠ id) :
    toolStateAt (onToolInputStart cfg st i n).1 id = toolStateAt st id := by
  have hne' : id ≠ i := Ne.symm hne
  unfold onToolInputStart
  dsimp only
  repeat' split
  all_goals
    simp [toolStateAt, lookup_mapSet_ne _ _ _ _ hne', mapGetB]

theorem tuCount_onToolInputStart (cfg : HCfg) (st : HState) (i n id : String)
    (hne : i ≠ id) : tuCount id (onToolInputStart cfg st i n).2 = 0 := by
  unfold onToolInputStart
  dsimp only
  repeat' split
  all_goals
    first
      | (exact tuCount_writeSSE _ _ _ _ (by simp [isToolUseStartFor, hne]))
      | (simp [tuCount]; done)

theorem toolStateAt_onToolInputDelta (cfg : HCfg) (st : HState) (i d id : String) :
    toolStateAt (onToolInputDelta cfg st i d).1 id = toolStateAt st id := by
  by_cases hi : i = id
  · subst hi
    unfold onToolInputDelta
    dsimp only
    repeat' split
    all_goals simp_all [toolStateAt, lookup_mapSet_self, mapGetB,
      lookup_mapSet_ne]
  · have hne' : id ≠ i := fun hh => hi hh.symm
    unfold onToolInputDelta
    dsimp only
    repeat' split
    all_goals simp [toolStateAt, lookup_mapSet_ne _ _ _ _ hne', mapGetB]

theorem tuCount_onToolInputDelta (cfg : HCfg) (st : HState) (i d id : String) :
    tuCount id (onToolInputDelta cfg st i d).2 = 0 := by
  unfold onToolInputDelta
  dsimp only
  repeat' split
  all_goals
    first
      | (exact tuCount_writeSSE _ _ _ _ (by simp [isToolUseStartFor]))
      | (simp [tuCount]; done)

theorem toolStateAt_handleToolCall (cfg : HCfg) (st : HState) (call : ToolCall)
    (id : String) (hne : call.id ≠ id) :
    toolStateAt (handleToolCall cfg st call).1 id = toolStateAt st id := by
  have hne' : id ≠ call.id := Ne.symm hne
  unfold handleToolCall
  dsimp only
  repeat' split
  all_goals
    simp [toolStateAt, lookup_mapDel_ne _ _ _ hne', mapGetB]

theorem tuCount_emitToolCallStream_ne (cfg : HCfg) (final : Bool) (st : HState)
    (call : ToolCall) (idx : Int) (id : String) (hne : call.id ≠ id) :
    tuCount id (emitToolCallStream cfg final st call idx).2 = 0 := by
  unfold emitToolCallStream
  dsimp only
  split_ifs
  all_goals
    first
      | (simp [tuCount]; done)
      | (simp [tuCount_append, tuCount_writeSSE, tuCount_writeFinalSSE,
          isToolUseStartFor, hne]
         done)

theorem tuCount_handleToolCall_ne (cfg : HCfg) (st : HState) (call : ToolCall)
    (id : String) (hne : call.id ≠ id) :
    tuCount id (handleToolCall cfg st call).2 = 0 := by
  unfold handleToolCall
  dsimp only
  repeat' split
  all_goals
    first
      | (exact tuCount_emitToolCallStream_ne _ _ _ _ _ _ hne)
      | (simp [tuCount]; done)

theorem toolStateAt_dropToolStreamState (st : HState) (i id : String)
    (hne : i ≠ id) :
    toolStateAt (dropToolStreamState st i) id = toolStateAt st id := by
  have hne' : id ≠ i := Ne.symm hne
  simp [toolStateAt, dropToolStreamState, lookup_mapDel_ne _ _ _ hne', mapGetB]

theorem toolStateAt_toolInputEndEmit (cfg : HCfg) (st : HState)
    (i inp id : String) (hne : i ≠ id) :
    toolStateAt (toolInputEndEmit cfg st i inp).1 id = toolStateAt st id := by
  have hne' : id ≠ i := Ne.symm hne
  unfold toolInputEndEmit
  dsimp only
  repeat' split
  all_goals
    simp [toolStateAt, lookup_mapDel_ne _ _ _ hne', mapGetB]

theorem tuCount_toolInputEndEmit (cfg : HCfg) (st : HState) (i inp id : String) :
    tuCount id (toolInputEndEmit cfg st i inp).2 = 0 := by
  unfold toolInputEndEmit
  dsimp only
  repeat' split
  all_goals
    first
      | (simp [tuCount]; done)
      | (simp [tuCount_append, tuCount_writeSSE, isToolUseStartFor]; done)

theorem toolInputEndDispatch_silent (cfg : HCfg) (st : HState)
    (i name inp : String) (hmode : cfg.toolCallMode = "proxy")
    (hstream : cfg.isStream = true) :
    (toolInputEndDispatch cfg st i name inp).2 = [] := by
  unfold toolInputEndDispatch
  dsimp only
  repeat' split
  all_goals
    first
      | rfl
      | (exact absurd (And.intro hmode hstream) (by assumption))

theorem toolStateAt_toolInputEndDispatch_eq (cfg : HCfg) (st : HState)
    (i name inp id : String) (hne : i ≠ id) (hmode : cfg.toolCallMode = "proxy")
    (hstream : cfg.isStream = true) :
    toolStateAt (toolInputEndDispatch cfg st i name inp).1 id =
      toolStateAt st id := by
  have hne' : id ≠ i := Ne.symm hne
  unfold toolInputEndDispatch
  dsimp only
  repeat' split
  all_goals
    first
      | (exact absurd (And.intro hmode hstream) (by assumption))
      | simp [toolStateAt, mapGetB_set_ne _ _ _ _ hne',
          lookup_mapSet_ne _ _ _ _ hne', mapGetB]

theorem toolStateAt_onToolInputEnd (cfg : HCfg) (st : HState) (i id : String)
    (hne : i ≠ id) (hmode : cfg.toolCallMode = "proxy")
    (hstream : cfg.isStream = true) :
    toolStateAt (onToolInputEnd cfg st i).1 id = toolStateAt st id := by
  unfold onToolInputEnd
  dsimp only
  repeat' split
  all_goals
    first
      | (simp [toolStateAt]; done)
      | (simp only [toolStateAt_dropToolStreamState _ _ _ hne]
         try simp [toolStateAt]
         done)
      | (simp only [toolStateAt_toolInputEndDispatch_eq _ _ _ _ _ _ hne hmode hstream,
          toolStateAt_dropToolStreamState _ _ _ hne,
          toolStateAt_toolInputEndEmit _ _ _ _ _ hne]
         try simp [toolStateAt]
         done)

theorem tuCount_onToolInputEnd (cfg : HCfg) (st : HState) (i id : String)
    (hmode : cfg.toolCallMode = "proxy") (hstream : cfg.isStream = true) :
    tuCount id (onToolInputEnd cfg st i).2 = 0 := by
  unfold onToolInputEnd
  dsimp only
  repeat' split
  all_goals
    first
      | (simp [tuCount]; done)
      | (rw [tuCount_append, tuCount_toolInputEndEmit,
          toolInputEndDispatch_silent _ _ _ _ _ hmode hstream]
         simp [tuCount])

theorem toolStateAt_onToolCallEvt (cfg : HCfg) (st : HState)
    (i n inp id : String) (hne : i ≠ id) :
    toolStateAt (onToolCallEvt cfg st i n inp).1 id = toolStateAt st id := by
  have hne' : id ≠ i := Ne.symm hne
  unfold onToolCallEvt
  dsimp only
  repeat' split
  all_goals
    first
      | (simp [toolStateAt]; done)
      | (rw [toolStateAt_handleToolCall _ _ _ _ hne]
         simp [toolStateAt, mapGetB_set_ne _ _ _ _ hne',
           lookup_mapSet_ne _ _ _ _ hne', mapGetB]
         done)

theorem tuCount_onToolCallEvt (cfg : HCfg) (st : HState) (i n inp id : String)
    (hne : i ≠ id) : tuCount id (onToolCallEvt cfg st i n inp).2 = 0 := by
  unfold onToolCallEvt
  dsimp only
  repeat' split
  all_goals
    first
      | (exact tuCount_handleToolCall_ne _ _ _ _ hne)
      | (simp [tuCount]; done)

end Orchids

namespace Orchids

theorem proxy_not_internal_auto (cfg : HCfg) (hmode : cfg.toolCallMode = "proxy")
    (s : String) :
    ¬(s = "tool_use" ∧ (cfg.toolCallMode = "internal" ∨ cfg.toolCallMode = "auto")) := by
  rintro ⟨-, h | h⟩ <;> (rw [hmode] at h; exact absurd h (by decide))

theorem toolStateAt_finishResponse (cfg : HCfg) (st : HState) (stop id : String)
    (hmode : cfg.toolCallMode = "proxy") (hp : st.pendingToolCalls = []) :
    toolStateAt (finishResponse cfg st stop).1 id = toolStateAt st id := by
  unfold finishResponse
  dsimp only
  split_ifs
  all_goals
    first
      | rfl
      | (rw [flushPendingToolCalls_empty cfg true _ _ hmode (by simp [hp])]
         simp [toolStateAt]
         done)

theorem tuCount_finishResponse (cfg : HCfg) (st : HState) (stop id : String)
    (hmode : cfg.toolCallMode = "proxy") (hp : st.pendingToolCalls = []) :
    tuCount id (finishResponse cfg st stop).2 = 0 := by
  unfold finishResponse
  dsimp only
  split_ifs
  all_goals
    first
      | (simp [tuCount]; done)
      | (rw [flushPendingToolCalls_empty cfg true _ _ hmode (by simp [hp])]
         simp only [tuCount_append]
         repeat rw [tuCount_writeFinalSSE _ _ _ (by simp [isToolUseStartFor])]
         simp [tuCount]
         done)

theorem toolStateAt_onFinish (cfg : HCfg) (st : HState) (r : Option String)
    (u : Option (Option Int × Option Int)) (id : String)
    (hmode : cfg.toolCallMode = "proxy") (hp : st.pendingToolCalls = []) :
    toolStateAt (onFinish cfg st r u).1 id = toolStateAt st id := by
  unfold onFinish
  dsimp only
  repeat' split
  all_goals
    first
      | (exact (proxy_not_internal_auto cfg hmode _ (by assumption)).elim)
      | (rw [toolStateAt_finishResponse _ _ _ _ hmode (by simp [hp])]
         try simp [toolStateAt]
         done)

theorem tuCount_onFinish (cfg : HCfg) (st : HState) (r : Option String)
    (u : Option (Option Int × Option Int)) (id : String)
    (hmode : cfg.toolCallMode = "proxy") (hp : st.pendingToolCalls = []) :
    tuCount id (onFinish cfg st r u).2 = 0 := by
  unfold onFinish
  dsimp only
  repeat' split
  all_goals
    first
      | (exact (proxy_not_internal_auto cfg hmode _ (by assumption)).elim)
      | (exact tuCount_finishResponse _ _ _ _ hmode (by simp [hp]))
      | (simp [tuCount]; done)

theorem toolStateAt_onReasoningStart (cfg : HCfg) (st : HState) (id : String) :
    toolStateAt (onReasoningStart cfg st).1 id = toolStateAt st id := by
  simp [onReasoningStart, toolStateAt]

theorem tuCount_onReasoningStart (cfg : HCfg) (st : HState) (id : String) :
    tuCount id (onReasoningStart cfg st).2 = 0 := by
  unfold onReasoningStart
  dsimp only
  exact tuCount_writeSSE _ _ _ _ (by simp [isToolUseStartFor])

theorem toolStateAt_onReasoningDelta (cfg : HCfg) (st : HState) (d id : String) :
    toolStateAt (onReasoningDelta cfg st d).1 id = toolStateAt st id := by
  unfold onReasoningDelta
  dsimp only
  repeat' split
  all_goals simp [toolStateAt]

theorem tuCount_onReasoningDelta (cfg : HCfg) (st : HState) (d id : String) :
    tuCount id (onReasoningDelta cfg st d).2 = 0 := by
  unfold onReasoningDelta
  dsimp only
  repeat' split
  all_goals exact tuCount_writeSSE _ _ _ _ (by simp [isToolUseStartFor])

theorem toolStateAt_onReasoningEnd (cfg : HCfg) (st : HState) (id : String) :
    toolStateAt (onReasoningEnd cfg st).1 id = toolStateAt st id := rfl

theorem tuCount_onReasoningEnd (cfg : HCfg) (st : HState) (id : String) :
    tuCount id (onReasoningEnd cfg st).2 = 0 := by
  unfold onReasoningEnd
  exact tuCount_writeSSE _ _ _ _ (by simp [isToolUseStartFor])

theorem toolStateAt_onTextStart (cfg : HCfg) (st : HState) (id : String) :
    toolStateAt (onTextStart cfg st).1 id = toolStateAt st id := by
  unfold onTextStart
  dsimp only
  repeat' split
  all_goals simp [toolStateAt]

theorem tuCount_onTextStart (cfg : HCfg) (st : HState) (id : String) :
    tuCount id (onTextStart cfg st).2 = 0 := by
  unfold onTextStart
  dsimp only
  repeat' split
  all_goals exact tuCount_writeSSE _ _ _ _ (by simp [isToolUseStartFor])

theorem toolStateAt_onTextDelta (cfg : HCfg) (st : HState) (d id : String) :
    toolStateAt (onTextDelta cfg st d).1 id = toolStateAt st id := by
  unfold onTextDelta
  dsimp only
  repeat' split
  all_goals simp [toolStateAt]

theorem tuCount_onTextDelta (cfg : HCfg) (st : HState) (d id : String) :
    tuCount id (onTextDelta cfg st d).2 = 0 := by
  unfold onTextDelta
  dsimp only
  repeat' split
  all_goals exact tuCount_writeSSE _ _ _ _ (by simp [isToolUseStartFor])

theorem toolStateAt_onTextEnd (cfg : HCfg) (st : HState) (id : String) :
    toolStateAt (onTextEnd cfg st).1 id = toolStateAt st id := rfl

theorem tuCount_onTextEnd (cfg : HCfg) (st : HState) (id : String) :
    tuCount id (onTextEnd cfg st).2 = 0 := by
  unfold onTextEnd
  exact tuCount_writeSSE _ _ _ _ (by simp [isToolUseStartFor])

theorem toolStateAt_onTokensUsed (st : HState) (i o : Option Int) (id : String) :
    toolStateAt (onTokensUsed st i o) id = toolStateAt st id := by
  unfold onTokensUsed
  repeat' split
  all_goals simp [toolStateAt]

end Orchids

namespace Orchids

theorem handleMessage_reasoningStart (cfg : HCfg) (st : HState)
    (h : st.hasReturn = false) :
    handleMessage cfg st .reasoningStart = onReasoningStart cfg st := by
  unfold handleMessage
  rw [h]
  simp

theorem handleMessage_reasoningDelta (cfg : HCfg) (st : HState) (d : String)
    (h : st.hasReturn = false) :
    handleMessage cfg st (.reasoningDelta d) = onReasoningDelta cfg st d := by
  unfold handleMessage
  rw [h]
  simp

theorem handleMessage_reasoningEnd (cfg : HCfg) (st : HState)
    (h : st.hasReturn = false) :
    handleMessage cfg st .reasoningEnd = onReasoningEnd cfg st := by
  unfold handleMessage
  rw [h]
  simp

theorem handleMessage_textStart (cfg : HCfg) (st : HState)
    (h : st.hasReturn = false) :
    handleMessage cfg st .textStart = onTextStart cfg st := by
  unfold handleMessage
  rw [h]
  simp

theorem handleMessage_textDelta (cfg : HCfg) (st : HState) (d : String)
    (h : st.hasReturn = false) :
    handleMessage cfg st (.textDelta d) = onTextDelta cfg st d := by
  unfold handleMessage
  rw [h]
  simp

theorem handleMessage_textEnd (cfg : HCfg) (st : HState)
    (h : st.hasReturn = false) :
    handleMessage cfg st .textEnd = onTextEnd cfg st := by
  unfold handleMessage
  rw [h]
  simp

theorem handleMessage_toolInputStart (cfg : HCfg) (st : HState) (i n : String)
    (h : st.hasReturn = false) :
    handleMessage cfg st (.toolInputStart i n) = onToolInputStart cfg st i n := by
  unfold handleMessage
  rw [h]
  simp

theorem handleMessage_toolInputDelta (cfg : HCfg) (st : HState) (i d : String)
    (h : st.hasReturn = false) :
    handleMessage cfg st (.toolInputDelta i d) = onToolInputDelta cfg st i d := by
  unfold handleMessage
  rw [h]
  simp

theorem handleMessage_toolInputEnd (cfg : HCfg) (st : HState) (i : String)
    (h : st.hasReturn = false) :
    handleMessage cfg st (.toolInputEnd i) = onToolInputEnd cfg st i := by
  unfold handleMessage
  rw [h]
  simp

theorem handleMessage_toolCallEvt (cfg : HCfg) (st : HState) (i n inp : String)
    (h : st.hasReturn = false) :
    handleMessage cfg st (.toolCallEvt i n inp) = onToolCallEvt cfg st i n inp := by
  unfold handleMessage
  rw [h]
  simp

theorem handleMessage_tokensUsed (cfg : HCfg) (st : HState) (i o : Option Int)
    (h : st.hasReturn = false) :
    handleMessage cfg st (.tokensUsed i o) = (onTokensUsed st i o, []) := by
  unfold handleMessage
  rw [h]
  simp

theorem handleMessage_finish (cfg : HCfg) (st : HState) (r : Option String)
    (u : Option (Option Int × Option Int)) (h : st.hasReturn = false) :
    handleMessage cfg st (.finish r u) = onFinish cfg st r u := by
  unfold handleMessage
  rw [h]
  simp

end Orchids

namespace Orchids

/-- Opening a brand-new streamed block for a call emits exactly one
`tool_use` content_block_start (streaming, before finalization). -/
theorem emit_new_block_count (cfg : HCfg) (st : HState) (call : ToolCall)
    (hstream : cfg.isStream = true) (hret : st.hasReturn = false)
    (hid : ¬ call.id = "") :
    tuCount call.id (emitToolCallStream cfg false st call (-1)).2 = 1 := by
  unfold emitToolCallStream
  rw [if_neg hid]
  dsimp only
  simp [writeSSE, hstream, hret, tuCount, isToolUseStartFor]

theorem start_step_clean (cfg : HCfg) (st : HState) (id n : String)
    (hmode : cfg.toolCallMode = "proxy") (hstream : cfg.isStream = true)
    (hret : st.hasReturn = false) (hc : cleanFor st id) :
    (cleanFor (onToolInputStart cfg st id n).1 id ∧
      tuCount id (onToolInputStart cfg st id n).2 = 0) ∨
    (bufSilentFor cfg (onToolInputStart cfg st id n).1 id ∧
      tuCount id (onToolInputStart cfg st id n).2 = 0) ∨
    (bufEmittedFor cfg (onToolInputStart cfg st id n).1 id ∧
      tuCount id (onToolInputStart cfg st id n).2 ≤ 1) := by
  obtain ⟨c1, c2, c3, c4⟩ := hc
  unfold onToolInputStart
  dsimp only
  by_cases h0 : id = "" ∨ n = ""
  · rw [if_pos h0]
    exact Or.inl ⟨⟨c1, c2, c3, c4⟩, by simp [tuCount]⟩
  · rw [if_neg h0]
    push_neg at h0
    have hcond : ¬(¬cfg.isStream = true ∨
        (cfg.toolCallMode ≠ "proxy" ∧ cfg.toolCallMode ≠ "auto")) := by
      rintro (h | ⟨h1, -⟩)
      · exact h hstream
      · exact h1 hmode
    rw [if_neg hcond]
    cases hres : resolveToolName cfg (mapOrchidsToolName cfg n) with
    | none =>
        dsimp only
        refine Or.inr (Or.inl ⟨⟨?_, ?_, ⟨n, ?_, h0.2, hres⟩, ?_⟩, by simp [tuCount]⟩)
        · exact c1
        · simp [lookup_mapSet_self]
        · exact lookup_mapSet_self _ _ _
        · exact c4
    | some finalName =>
        dsimp only
        refine Or.inr (Or.inr ⟨⟨?_, ?_, ⟨n, ?_, h0.2, ?_⟩, ?_⟩, ?_⟩)
        · simpa [mapGetB] using c1
        · simp [lookup_mapSet_self]
        · simp [lookup_mapSet_self]
        · rw [hres]; rfl
        · simp [lookup_mapSet_self]
        · unfold writeSSE
          split_ifs <;> simp [tuCount, isToolUseStartFor]

theorem toolcall_suppressed (cfg : HCfg) (st : HState) (id n inp : String)
    (h : mapGetB st.toolCallHandled id = true ∨
      (st.toolInputBuffers.lookup id).isSome = true) :
    handleMessage cfg st (.toolCallEvt id n inp) = (st, []) := by
  unfold handleMessage
  split_ifs with hr
  · rfl
  · show onToolCallEvt cfg st id n inp = (st, [])
    unfold onToolCallEvt
    by_cases h1 : id = ""
    · rw [if_pos h1]
    · rw [if_neg h1]
      by_cases h2 : st.currentToolInputID ≠ "" ∧ id ≠ st.currentToolInputID
      · rw [if_pos h2]
      · rw [if_neg h2]
        by_cases h3 : mapGetB st.toolCallHandled id = true
        · rw [if_pos h3]
        · rw [if_neg h3]
          rcases h with h | h
          · exact absurd h h3
          · rw [if_pos h]

theorem toolcall_step_clean (cfg : HCfg) (st : HState) (id n inp : String)
    (hmode : cfg.toolCallMode = "proxy") (hstream : cfg.isStream = true)
    (hret : st.hasReturn = false) (hc : cleanFor st id) :
    (onToolCallEvt cfg st id n inp = (st, [])) ∨
    (¬ id = "" ∧ handledFor (onToolCallEvt cfg st id n inp).1 id ∧
      tuCount id (onToolCallEvt cfg st id n inp).2 = 1) := by
  obtain ⟨c1, c2, c3, c4⟩ := hc
  unfold onToolCallEvt
  by_cases h1 : id = ""
  · rw [if_pos h1]
    exact Or.inl rfl
  · rw [if_neg h1]
    by_cases h2 : st.currentToolInputID ≠ "" ∧ id ≠ st.currentToolInputID
    · rw [if_pos h2]
      exact Or.inl rfl
    · rw [if_neg h2]
      rw [if_neg (show ¬(mapGetB st.toolCallHandled id = true) by rw [c1]; decide)]
      rw [if_neg (show ¬((List.lookup id st.toolInputBuffers).isSome = true) by rw [c2]; decide)]
      dsimp only
      cases hres : resolveToolName cfg (mapOrchidsToolName cfg n) with
      | none =>
          dsimp only
          exact Or.inl rfl
      | some rn =>
          dsimp only
          unfold handleToolCall
          rw [if_neg h1]
          rw [if_neg (show ¬(cfg.toolCallMode = "internal") by rw [hmode]; decide)]
          rw [if_neg (show ¬(cfg.toolCallMode = "auto") by rw [hmode]; decide)]
          dsimp only
          rw [if_neg (show ¬(cfg.toolCallMode ≠ "proxy") by rw [hmode]; simp)]
          rw [if_neg (show ¬(¬cfg.isStream = true) by rw [hstream]; simp)]
          rw [show (List.lookup id ({ st with toolCallHandled := mapSet st.toolCallHandled id true } : HState).toolBlocks) = none from c4]
          dsimp only
          refine Or.inr ⟨h1, ⟨?_, ?_, ?_, ?_⟩, ?_⟩
          · simp [mapGetB, lookup_mapSet_self]
          · simpa using c2
          · simpa using c3
          · simpa using c4
          · exact emit_new_block_count cfg _ ⟨id, rn, inp⟩ hstream hret h1

end Orchids

namespace Orchids

theorem toolInputEndDispatch_unresolved (cfg : HCfg) (st : HState)
    (i name inp : String) (hh : mapGetB st.toolCallHandled i = false)
    (hres : resolveToolName cfg (mapOrchidsToolName cfg name) = none) :
    toolInputEndDispatch cfg st i name inp = (st, []) := by
  unfold toolInputEndDispatch
  rw [if_neg (show ¬(mapGetB st.toolCallHandled i = true) by rw [hh]; decide)]
  rw [hres]

theorem toolInputEndDispatch_resolved (cfg : HCfg) (st : HState)
    (i name inp rn : String) (hmode : cfg.toolCallMode = "proxy")
    (hstream : cfg.isStream = true)
    (hh : mapGetB st.toolCallHandled i = false)
    (hres : resolveToolName cfg (mapOrchidsToolName cfg name) = some rn) :
    toolInputEndDispatch cfg st i name inp =
      ({ st with toolCallHandled := mapSet st.toolCallHandled i true }, []) := by
  unfold toolInputEndDispatch
  rw [if_neg (show ¬(mapGetB st.toolCallHandled i = true) by rw [hh]; decide)]
  rw [hres]
  dsimp only
  rw [if_pos ⟨hmode, hstream⟩]

theorem toolInputEndEmit_noblock (cfg : HCfg) (st : HState) (i inp : String)
    (hmode : cfg.toolCallMode = "proxy") (hstream : cfg.isStream = true)
    (hb : st.toolBlocks.lookup i = none) :
    toolInputEndEmit cfg st i inp =
      ((if inp ≠ "" then addOutputTokens cfg st inp else st), []) := by
  unfold toolInputEndEmit
  rw [if_pos ⟨hstream, Or.inl hmode⟩]
  dsimp only
  by_cases hin : inp ≠ ""
  · rw [if_pos hin]
    rw [show List.lookup i (addOutputTokens cfg st inp).toolBlocks = none from by
      rw [addOutputTokens_toolBlocks]; exact hb]
  · rw [if_neg hin]
    rw [hb]

/-- `tool-input-end` with no recorded (or empty) upstream name: the per-id
streamed maps are dropped, nothing else observable changes. -/
theorem end_step_names_none (cfg : HCfg) (st : HState) (id : String)
    (h0 : ¬ id = "") (c3 : st.toolInputNames.lookup id = none) :
    mapGetB (onToolInputEnd cfg st id).1.toolCallHandled id =
        mapGetB st.toolCallHandled id ∧
      (onToolInputEnd cfg st id).1.toolInputBuffers.lookup id = none ∧
      (onToolInputEnd cfg st id).1.toolInputNames.lookup id = none ∧
      (onToolInputEnd cfg st id).1.toolBlocks.lookup id =
        st.toolBlocks.lookup id := by
  unfold onToolInputEnd
  dsimp only
  rw [if_neg h0]
  by_cases hcur : st.currentToolInputID = id
  · rw [if_pos hcur]
    dsimp only
    rw [c3]
    exact ⟨rfl, lookup_mapDel_self _ _, lookup_mapDel_self _ _, rfl⟩
  · rw [if_neg hcur]
    rw [c3]
    exact ⟨rfl, lookup_mapDel_self _ _, lookup_mapDel_self _ _, rfl⟩

/-- `tool-input-end` for an unhandled id whose name does not resolve: the
id returns to a clean state (nothing was or is emitted for it). -/
theorem end_step_silent (cfg : HCfg) (st : HState) (id n buf : String)
    (hmode : cfg.toolCallMode = "proxy") (hstream : cfg.isStream = true)
    (h0 : ¬ id = "") (hn : st.toolInputNames.lookup id = some n)
    (hne : ¬ n = "") (hbuf : st.toolInputBuffers.lookup id = some buf)
    (hh : mapGetB st.toolCallHandled id = false)
    (hres : resolveToolName cfg (mapOrchidsToolName cfg n) = none)
    (hb : st.toolBlocks.lookup id = none) :
    cleanFor (onToolInputEnd cfg st id).1 id := by
  unfold onToolInputEnd
  dsimp only
  rw [if_neg h0]
  by_cases hcur : st.currentToolInputID = id
  all_goals
    first
      | rw [if_pos hcur]
      | rw [if_neg hcur]
  all_goals
    try dsimp only
    rw [hn]
    dsimp only
    rw [if_neg hne]
    dsimp only
    rw [hbuf]
    dsimp only
    rw [toolInputEndEmit_noblock cfg _ id _ hmode hstream (by exact hb)]
    dsimp only
    rw [toolInputEndDispatch_unresolved cfg _ id n _
      (by split_ifs <;> simp [dropToolStreamState, hh]) hres]
    refine ⟨?_, lookup_mapDel_self _ _, lookup_mapDel_self _ _, ?_⟩
    · split_ifs <;> simp [dropToolStreamState, hh]
    · split_ifs <;> simp [dropToolStreamState, hb]

/-- `tool-input-end` for an unhandled id whose name resolves and whose
block is open: the block is closed, the maps dropped and the id marked
handled; in streaming proxy mode no dispatch to `handleToolCall` happens. -/
theorem end_step_emitted (cfg : HCfg) (st : HState) (id n buf rn : String)
    (idx : Int) (hmode : cfg.toolCallMode = "proxy")
    (hstream : cfg.isStream = true) (h0 : ¬ id = "")
    (hn : st.toolInputNames.lookup id = some n) (hne : ¬ n = "")
    (hbuf : st.toolInputBuffers.lookup id = some buf)
    (hh : mapGetB st.toolCallHandled id = false)
    (hrn : resolveToolName cfg (mapOrchidsToolName cfg n) = some rn)
    (hb : st.toolBlocks.lookup id = some idx) :
    handledFor (onToolInputEnd cfg st id).1 id := by
  unfold onToolInputEnd
  dsimp only
  rw [if_neg h0]
  by_cases hcur : st.currentToolInputID = id
  all_goals
    first
      | rw [if_pos hcur]
      | rw [if_neg hcur]
  all_goals
    try dsimp only
    rw [hn]
    dsimp only
    rw [if_neg hne]
    dsimp only
    rw [hbuf]
    dsimp only
    unfold toolInputEndEmit
    rw [if_pos ⟨hstream, Or.inl hmode⟩]
    dsimp only
    by_cases hin : trimSpace buf ≠ ""
    · rw [if_pos hin]
      rw [show List.lookup id (addOutputTokens cfg _ (trimSpace buf)).toolBlocks =
          some idx from by rw [addOutputTokens_toolBlocks]; exact hb]
      dsimp only
      rw [toolInputEndDispatch_resolved cfg _ id n _ rn hmode hstream
        (by simp [dropToolStreamState, hh]) hrn]
      refine ⟨?_, lookup_mapDel_self _ _, lookup_mapDel_self _ _, ?_⟩
      · simp [mapGetB, lookup_mapSet_self]
      · exact lookup_mapDel_self _ _
    · rw [if_neg hin]
      try dsimp only
      rw [hb]
      dsimp only
      rw [toolInputEndDispatch_resolved cfg _ id n _ rn hmode hstream
        (by simp [dropToolStreamState, hh]) hrn]
      refine ⟨?_, lookup_mapDel_self _ _, lookup_mapDel_self _ _, ?_⟩
      · simp [mapGetB, lookup_mapSet_self]
      · exact lookup_mapDel_self _ _

end Orchids

namespace Orchids

theorem tuCount_runEvents_cons (cfg : HCfg) (st : HState) (id : String)
    (ev : InEvent) (rest : List InEvent) :
    tuCount id (runEvents cfg st (ev :: rest)).2 =
      tuCount id (handleMessage cfg st ev).2 +
        tuCount id (runEvents cfg (handleMessage cfg st ev).1 rest).2 := by
  rw [show runEvents cfg st (ev :: rest) =
    ((runEvents cfg (handleMessage cfg st ev).1 rest).1,
     (handleMessage cfg st ev).2 ++
       (runEvents cfg (handleMessage cfg st ev).1 rest).2) from rfl]
  exact tuCount_append _ _ _

theorem noStartFor_cons (id : String) (ev : InEvent) (rest : List InEvent) :
    noStartFor id (ev :: rest) = ((!(isStartFor id ev)) && noStartFor id rest) := by
  simp [noStartFor, List.all_cons]

/-- Induction invariant: from a clean id at most one `tool_use` block is
emitted for it; once its streamed state exists or it is handled (and no
further `tool-input-start` for it arrives), a silent id yields at most one
block and an emitted or handled id yields none. -/
abbrev InvGoal (cfg : HCfg) (id : String) (st : HState)
    (evs : List InEvent) : Prop :=
  (cleanFor st id → tuCount id (runEvents cfg st evs).2 ≤ 1) ∧
  (noStartFor id evs = true →
    (bufSilentFor cfg st id → tuCount id (runEvents cfg st evs).2 ≤ 1) ∧
    (bufEmittedFor cfg st id → tuCount id (runEvents cfg st evs).2 = 0) ∧
    (handledFor st id → tuCount id (runEvents cfg st evs).2 = 0))

theorem invGoal_cons_generic (cfg : HCfg) (id : String) (ev : InEvent)
    (rest : List InEvent) (st : HState)
    (hS : toolStateAt (handleMessage cfg st ev).1 id = toolStateAt st id)
    (hC : tuCount id (handleMessage cfg st ev).2 = 0)
    (hIH : InvGoal cfg id (handleMessage cfg st ev).1 rest) :
    InvGoal cfg id st (ev :: rest) := by
  obtain ⟨ihA, ihB⟩ := hIH
  constructor
  · intro hc
    rw [tuCount_runEvents_cons, hC]
    simpa using ihA (cleanFor_of_sameState hS hc)
  · intro hns
    rw [noStartFor_cons, Bool.and_eq_true] at hns
    obtain ⟨-, hns2⟩ := hns
    obtain ⟨ihB1, ihB2, ihB3⟩ := ihB hns2
    refine ⟨?_, ?_, ?_⟩
    · intro hcl
      rw [tuCount_runEvents_cons, hC]
      simpa using ihB1 (bufSilentFor_of_sameState hS hcl)
    · intro hcl
      rw [tuCount_runEvents_cons, hC]
      simpa using ihB2 (bufEmittedFor_of_sameState hS hcl)
    · intro hcl
      rw [tuCount_runEvents_cons, hC]
      simpa using ihB3 (handledFor_of_sameState hS hcl)

theorem invGoal_all (cfg : HCfg) (id : String)
    (hmode : cfg.toolCallMode = "proxy") (hstream : cfg.isStream = true)
    (hid : ¬ id = "") :
    ∀ (evs : List InEvent) (st : HState), st.pendingToolCalls = [] →
      wfFor id evs = true → InvGoal cfg id st evs := by
  intro evs
  induction evs with
  | nil =>
      intro st hp hwf
      constructor
      · intro hcl
        simp [runEvents, tuCount]
      · intro hns
        refine ⟨?_, ?_, ?_⟩ <;> intro hcl <;> simp [runEvents, tuCount]
  | cons ev rest ih =>
      intro st hp hwf
      rw [show wfFor id (ev :: rest) =
        (((!(isStartFor id ev || isToolCallFor id ev)) || noStartFor id rest) &&
          wfFor id rest) from rfl, Bool.and_eq_true] at hwf
      obtain ⟨hwfh, hwft⟩ := hwf
      by_cases hr : st.hasReturn = true
      · have heq := handleMessage_ret cfg st ev hr
        refine invGoal_cons_generic cfg id ev rest st ?_ ?_ ?_
        · rw [heq]
        · rw [heq]
          simp [tuCount]
        · rw [heq]
          exact ih st hp hwft
      · have hretF : st.hasReturn = false := by
          cases hbb : st.hasReturn with
          | false => rfl
          | true => exact absurd hbb hr
        cases ev with
        | reasoningStart =>
            refine invGoal_cons_generic cfg id _ rest st ?_ ?_
              (ih _ (handleMessage_pending cfg st _ hmode hp) hwft)
            · rw [handleMessage_reasoningStart cfg st hretF]
              exact toolStateAt_onReasoningStart cfg st id
            · rw [handleMessage_reasoningStart cfg st hretF]
              exact tuCount_onReasoningStart cfg st id
        | reasoningDelta d =>
            refine invGoal_cons_generic cfg id _ rest st ?_ ?_
              (ih _ (handleMessage_pending cfg st _ hmode hp) hwft)
            · rw [handleMessage_reasoningDelta cfg st d hretF]
              exact toolStateAt_onReasoningDelta cfg st d id
            · rw [handleMessage_reasoningDelta cfg st d hretF]
              exact tuCount_onReasoningDelta cfg st d id
        | reasoningEnd =>
            refine invGoal_cons_generic cfg id _ rest st ?_ ?_
              (ih _ (handleMessage_pending cfg st _ hmode hp) hwft)
            · rw [handleMessage_reasoningEnd cfg st hretF]
              exact toolStateAt_onReasoningEnd cfg st id
            · rw [handleMessage_reasoningEnd cfg st hretF]
              exact tuCount_onReasoningEnd cfg st id
        | textStart =>
            refine invGoal_cons_generic cfg id _ rest st ?_ ?_
              (ih _ (handleMessage_pending cfg st _ hmode hp) hwft)
            · rw [handleMessage_textStart cfg st hretF]
              exact toolStateAt_onTextStart cfg st id
            · rw [handleMessage_textStart cfg st hretF]
              exact tuCount_onTextStart cfg st id
        | textDelta d =>
            refine invGoal_cons_generic cfg id _ rest st ?_ ?_
              (ih _ (handleMessage_pending cfg st _ hmode hp) hwft)
            · rw [handleMessage_textDelta cfg st d hretF]
              exact toolStateAt_onTextDelta cfg st d id
            · rw [handleMessage_textDelta cfg st d hretF]
              exact tuCount_onTextDelta cfg st d id
        | textEnd =>
            refine invGoal_cons_generic cfg id _ rest st ?_ ?_
              (ih _ (handleMessage_pending cfg st _ hmode hp) hwft)
            · rw [handleMessage_textEnd cfg st hretF]
              exact toolStateAt_onTextEnd cfg st id
            · rw [handleMessage_textEnd cfg st hretF]
              exact tuCount_onTextEnd cfg st id
        | tokensUsed i o =>
            refine invGoal_cons_generic cfg id _ rest st ?_ ?_
              (ih _ (handleMessage_pending cfg st _ hmode hp) hwft)
            · rw [handleMessage_tokensUsed cfg st i o hretF]
              exact toolStateAt_onTokensUsed st i o id
            · rw [handleMessage_tokensUsed cfg st i o hretF]
              simp [tuCount]
        | finish r u =>
            refine invGoal_cons_generic cfg id _ rest st ?_ ?_
              (ih _ (handleMessage_pending cfg st _ hmode hp) hwft)
            · rw [handleMessage_finish cfg st r u hretF]
              exact toolStateAt_onFinish cfg st r u id hmode hp
            · rw [handleMessage_finish cfg st r u hretF]
              exact tuCount_onFinish cfg st r u id hmode hp
        | toolInputDelta i d =>
            refine invGoal_cons_generic cfg id _ rest st ?_ ?_
              (ih _ (handleMessage_pending cfg st _ hmode hp) hwft)
            · rw [handleMessage_toolInputDelta cfg st i d hretF]
              exact toolStateAt_onToolInputDelta cfg st i d id
            · rw [handleMessage_toolInputDelta cfg st i d hretF]
              exact tuCount_onToolInputDelta cfg st i d id
        | toolInputStart i n =>
            by_cases hi : i = id
            · subst hi
              constructor
              · intro hc
                rw [tuCount_runEvents_cons,
                  handleMessage_toolInputStart cfg st i n hretF]
                have hpend := onToolInputStart_pending cfg st i n hp
                rcases start_step_clean cfg st i n hmode hstream hretF hc with
                  ⟨h1, h2⟩ | ⟨h1, h2⟩ | ⟨h1, h2⟩
                · rw [h2]
                  simpa using (ih _ hpend hwft).1 h1
                · have hns : noStartFor i rest = true := by
                    simpa [isStartFor, isToolCallFor] using hwfh
                  rw [h2]
                  simpa using ((ih _ hpend hwft).2 hns).1 h1
                · have hns : noStartFor i rest = true := by
                    simpa [isStartFor, isToolCallFor] using hwfh
                  have hrest := ((ih _ hpend hwft).2 hns).2.1 h1
                  rw [hrest]
                  omega
              · intro hns
                rw [noStartFor_cons, Bool.and_eq_true] at hns
                obtain ⟨hns1, -⟩ := hns
                simp [isStartFor] at hns1
            · refine invGoal_cons_generic cfg id _ rest st ?_ ?_
                (ih _ (handleMessage_pending cfg st _ hmode hp) hwft)
              · rw [handleMessage_toolInputStart cfg st i n hretF]
                exact toolStateAt_onToolInputStart cfg st i n id hi
              · rw [handleMessage_toolInputStart cfg st i n hretF]
                exact tuCount_onToolInputStart cfg st i n id hi
        | toolInputEnd i =>
            by_cases hi : i = id
            · subst hi
              have hpend := onToolInputEnd_pending cfg st i hmode hp
              have hhead := tuCount_onToolInputEnd cfg st i i hmode hstream
              constructor
              · intro hc
                rw [tuCount_runEvents_cons,
                  handleMessage_toolInputEnd cfg st i hretF, hhead]
                obtain ⟨e1, e2, e3, e4⟩ :=
                  end_step_names_none cfg st i hid hc.2.2.1
                have hc' : cleanFor (onToolInputEnd cfg st i).1 i :=
                  ⟨e1.trans hc.1, e2, e3, e4.trans hc.2.2.2⟩
                simpa using (ih _ hpend hwft).1 hc'
              · intro hns
                rw [noStartFor_cons, Bool.and_eq_true] at hns
                obtain ⟨-, hns2⟩ := hns
                refine ⟨?_, ?_, ?_⟩
                · intro hcl
                  rw [tuCount_runEvents_cons,
                    handleMessage_toolInputEnd cfg st i hretF, hhead]
                  obtain ⟨c1, c2, ⟨n, hn, hne, hres⟩, c4⟩ := hcl
                  obtain ⟨buf, hbuf⟩ := Option.isSome_iff_exists.mp c2
                  have hc' := end_step_silent cfg st i n buf hmode hstream hid
                    hn hne hbuf c1 hres c4
                  simpa using (ih _ hpend hwft).1 hc'
                · intro hcl
                  rw [tuCount_runEvents_cons,
                    handleMessage_toolInputEnd cfg st i hretF, hhead]
                  obtain ⟨c1, c2, ⟨n, hn, hne, hres⟩, c4⟩ := hcl
                  obtain ⟨buf, hbuf⟩ := Option.isSome_iff_exists.mp c2
                  obtain ⟨rn, hrn⟩ := Option.isSome_iff_exists.mp hres
                  obtain ⟨idx, hidx⟩ := Option.isSome_iff_exists.mp c4
                  have hc' := end_step_emitted cfg st i n buf rn idx hmode
                    hstream hid hn hne hbuf c1 hrn hidx
                  simpa using ((ih _ hpend hwft).2 hns2).2.2 hc'
                · intro hcl
                  rw [tuCount_runEvents_cons,
                    handleMessage_toolInputEnd cfg st i hretF, hhead]
                  obtain ⟨e1, e2, e3, e4⟩ :=
                    end_step_names_none cfg st i hid hcl.2.2.1
                  have hc' : handledFor (onToolInputEnd cfg st i).1 i :=
                    ⟨e1.trans hcl.1, e2, e3, e4.trans hcl.2.2.2⟩
                  simpa using ((ih _ hpend hwft).2 hns2).2.2 hc'
            · refine invGoal_cons_generic cfg id _ rest st ?_ ?_
                (ih _ (handleMessage_pending cfg st _ hmode hp) hwft)
              · rw [handleMessage_toolInputEnd cfg st i hretF]
                exact toolStateAt_onToolInputEnd cfg st i id hi hmode hstream
              · rw [handleMessage_toolInputEnd cfg st i hretF]
                exact tuCount_onToolInputEnd cfg st i id hmode hstream
        | toolCallEvt i n inp =>
            by_cases hi : i = id
            · subst hi
              constructor
              · intro hc
                rw [tuCount_runEvents_cons,
                  handleMessage_toolCallEvt cfg st i n inp hretF]
                have hpend := onToolCallEvt_pending cfg st i n inp hmode hp
                rcases toolcall_step_clean cfg st i n inp hmode hstream hretF hc
                  with heq | ⟨-, hH, hcnt⟩
                · rw [heq]
                  simpa [tuCount] using (ih st hp hwft).1 hc
                · have hns : noStartFor i rest = true := by
                    simpa [isStartFor, isToolCallFor] using hwfh
                  have hrest := ((ih _ hpend hwft).2 hns).2.2 hH
                  rw [hcnt, hrest]
              · intro hns
                rw [noStartFor_cons, Bool.and_eq_true] at hns
                obtain ⟨-, hns2⟩ := hns
                refine ⟨?_, ?_, ?_⟩
                · intro hcl
                  rw [tuCount_runEvents_cons,
                    toolcall_suppressed cfg st i n inp (Or.inr hcl.2.1)]
                  simpa [tuCount] using ((ih st hp hwft).2 hns2).1 hcl
                · intro hcl
                  rw [tuCount_runEvents_cons,
                    toolcall_suppressed cfg st i n inp (Or.inr hcl.2.1)]
                  simpa [tuCount] using ((ih st hp hwft).2 hns2).2.1 hcl
                · intro hcl
                  rw [tuCount_runEvents_cons,
                    toolcall_suppressed cfg st i n inp (Or.inl hcl.1)]
                  simpa [tuCount] using ((ih st hp hwft).2 hns2).2.2 hcl
            · refine invGoal_cons_generic cfg id _ rest st ?_ ?_
                (ih _ (handleMessage_pending cfg st _ hmode hp) hwft)
              · rw [handleMessage_toolCallEvt cfg st i n inp hretF]
                exact toolStateAt_onToolCallEvt cfg st i n inp id hi
              · rw [handleMessage_toolCallEvt cfg st i n inp hretF]
                exact tuCount_onToolCallEvt cfg st i n inp id hi

end Orchids

namespace Orchids

/-- The accepted one-shot path of `model.tool-call` in streaming proxy
mode: clean id, no other input open, name resolves — one `tool_use` block
is emitted for this id and it becomes handled. -/
theorem toolcall_accept (cfg : HCfg) (st : HState) (id n inp rn : String)
    (hmode : cfg.toolCallMode = "proxy") (hstream : cfg.isStream = true)
    (hret : st.hasReturn = false) (hid : ¬ id = "") (hc : cleanFor st id)
    (hcur : st.currentToolInputID = "")
    (hres : resolveToolName cfg (mapOrchidsToolName cfg n) = some rn) :
    tuCount id (onToolCallEvt cfg st id n inp).2 = 1 ∧
      handledFor (onToolCallEvt cfg st id n inp).1 id := by
  obtain ⟨c1, c2, c3, c4⟩ := hc
  unfold onToolCallEvt
  rw [if_neg hid]
  rw [if_neg (show ¬(st.currentToolInputID ≠ "" ∧ id ≠ st.currentToolInputID)
    from by rw [hcur]; simp)]
  rw [if_neg (show ¬(mapGetB st.toolCallHandled id = true) by rw [c1]; decide)]
  rw [if_neg (show ¬((List.lookup id st.toolInputBuffers).isSome = true) by
    rw [c2]; decide)]
  dsimp only
  rw [hres]
  dsimp only
  unfold handleToolCall
  rw [if_neg hid]
  rw [if_neg (show ¬(cfg.toolCallMode = "internal") by rw [hmode]; decide)]
  rw [if_neg (show ¬(cfg.toolCallMode = "auto") by rw [hmode]; decide)]
  dsimp only
  rw [if_neg (show ¬(cfg.toolCallMode ≠ "proxy") by rw [hmode]; simp)]
  rw [if_neg (show ¬(¬cfg.isStream = true) by rw [hstream]; simp)]
  rw [show (List.lookup id
      ({ st with toolCallHandled := mapSet st.toolCallHandled id true } :
        HState).toolBlocks) = none from c4]
  dsimp only
  constructor
  · exact emit_new_block_count cfg _ ⟨id, rn, inp⟩ hstream hret hid
  · refine ⟨?_, ?_, ?_, ?_⟩
    · simp [mapGetB, lookup_mapSet_self]
    · simpa using c2
    · simpa using c3
    · simpa using c4

/-- C2 (corrected): in streaming proxy mode, a `model.tool-call` for an id
whose streamed-input state still exists or that is already handled is
suppressed (state unchanged, nothing emitted); a tool-call for a clean,
nonempty id while no other tool input is open, whose mapped name resolves,
is accepted as a one-shot: exactly one `tool_use` block is emitted for it
and it becomes handled; and under upstream streams that start each id at
most once (and never after its one-shot call), each id receives at most
one `tool_use` block in the whole round — not always exactly one, since
suppressed or unresolvable ids receive none. -/
theorem tool_use_block_emission (cfg : HCfg)
    (hmode : cfg.toolCallMode = "proxy") (hstream : cfg.isStream = true) :
    (∀ (st : HState) (id name input : String),
        (mapGetB st.toolCallHandled id = true ∨
          (st.toolInputBuffers.lookup id).isSome = true) →
        handleMessage cfg st (.toolCallEvt id name input) = (st, [])) ∧
    (∀ (st : HState) (id name input rn : String),
        st.hasReturn = false → ¬ id = "" → cleanFor st id →
        st.currentToolInputID = "" →
        resolveToolName cfg (mapOrchidsToolName cfg name) = some rn →
        tuCount id (handleMessage cfg st (.toolCallEvt id name input)).2 = 1 ∧
          handledFor (handleMessage cfg st (.toolCallEvt id name input)).1 id) ∧
    (∀ (evs : List InEvent) (id : String) (tok : Int), ¬ id = "" →
        wfFor id evs = true →
        tuCount id (runEvents cfg (initState tok) evs).2 ≤ 1) := by
  refine ⟨?_, ?_, ?_⟩
  · intro st id name input h
    exact toolcall_suppressed cfg st id name input h
  · intro st id name input rn hret hid hc hcur hres
    rw [handleMessage_toolCallEvt cfg st id name input hret]
    exact toolcall_accept cfg st id name input rn hmode hstream hret hid hc hcur hres
  · intro evs id tok hid hwf
    have hcl : cleanFor (initState tok) id := ⟨rfl, rfl, rfl, rfl⟩
    exact (invGoal_all cfg id hmode hstream hid evs (initState tok) rfl hwf).1 hcl

/-- Claim C2 counterexample: in streaming proxy mode, while the input for
id T1 is open, a `tool-call` for the brand-new id T2 — no prior
`tool-input-start`, resolvable name — is NOT accepted as a one-shot: no
`tool_use` block for T2 is emitted in the whole round, because
`currentToolInputID` is still T1. -/
theorem tool_call_one_shot_counterexample :
    noStartFor "T2" [InEvent.toolInputStart "T1" "bash",
        InEvent.toolCallEvt "T2" "bash" "\x7b\x7d"] = true ∧
    resolveToolName proxyStreamCfg (mapOrchidsToolName proxyStreamCfg "bash") =
      some "bash" ∧
    tuCount "T2" (runEvents proxyStreamCfg (initState 0)
      [InEvent.toolInputStart "T1" "bash",
       InEvent.toolCallEvt "T2" "bash" "\x7b\x7d"]).2 = 0 := by
  refine ⟨by decide, by decide, by decide⟩

/-- A state in which id T1 is already marked handled. -/
def c2WitnessState : HState :=
  { initState 0 with toolCallHandled := [("T1", true)] }

theorem tool_use_block_emission_witness :
    handleMessage proxyStreamCfg c2WitnessState (.toolCallEvt "T1" "bash" "") =
      (c2WitnessState, []) ∧
    tuCount "T3" (handleMessage proxyStreamCfg (initState 5)
      (.toolCallEvt "T3" "bash" "x")).2 = 1 ∧
    tuCount "T1" (runEvents proxyStreamCfg (initState 0)
      [InEvent.toolInputStart "T1" "bash", InEvent.toolInputEnd "T1",
       InEvent.toolCallEvt "T1" "bash" ""]).2 ≤ 1 := by
  refine ⟨?_, ?_, ?_⟩
  · exact (tool_use_block_emission proxyStreamCfg rfl rfl).1 c2WitnessState
      "T1" "bash" "" (Or.inl (by decide))
  · exact ((tool_use_block_emission proxyStreamCfg rfl rfl).2.1 (initState 5)
      "T3" "bash" "x" "bash" rfl (by decide) ⟨rfl, rfl, rfl, rfl⟩ rfl
      (by decide)).1
  · exact (tool_use_block_emission proxyStreamCfg rfl rfl).2.2
      [InEvent.toolInputStart "T1" "bash", InEvent.toolInputEnd "T1",
       InEvent.toolCallEvt "T1" "bash" ""] "T1" 0 (by decide) (by decide)

end Orchids
